import Mathlib

/-!
A shallow embedding of `fymodem.c`, the fymodem implementation of YMODEM.

The C functions of `fymodem.c` are embedded as Lean functions of the same names.

* A byte (`uint8_t`) is a `Nat` below 256; `uint16_t`/`uint32_t` arithmetic is `Nat`
  arithmetic with an explicit `% 65536` / `% 2 ^ 32`; an `int32_t` is an `Int`.
* The byte channel behind the `_getchar`/`_putchar` callbacks is explicit: the input of a
  function is the list of the values that the successive `_getchar` calls return (a byte,
  or a negative value for a timeout), and its output is the list of the bytes it hands to
  `_putchar`.  A function that asks for more input than the list holds yields `none`.
  `_sleep` and `_flush` have no effect on the channel and on the state.
* A C array that is written from index 0 upwards is a list holding its known bytes;
  `mem_write` and `mem_write_at` store into it.  A store beyond the end of the list makes
  the list longer, so that the length of the list bounds every index stored to.  A read
  beyond the end of the list yields 0.  A pointer that a loop advances is the list of the
  bytes from the pointer on.
* `FYMODEM_FILE_NAME_MAX_LENGTH` is defined in `fymodem.h`; it is a parameter here.
-/

namespace Fymodem

/-! ## Constants -/

abbrev FILE_SIZE_LENGTH : Nat := 16
abbrev PACKET_SEQNO_INDEX : Nat := 1
abbrev PACKET_SEQNO_COMP_INDEX : Nat := 2
abbrev PACKET_HEADER : Nat := 3
abbrev PACKET_TRAILER : Nat := 2
abbrev PACKET_OVERHEAD : Nat := PACKET_HEADER + PACKET_TRAILER
abbrev PACKET_SIZE : Nat := 128
abbrev PACKET_1K_SIZE : Nat := 1024
abbrev PACKET_ERROR_MAX_NBR : Nat := 5

abbrev ABORT1 : Nat := 0x41
abbrev ABORT2 : Nat := 0x61
abbrev SOH : Nat := 0x01
abbrev STX : Nat := 0x02
abbrev EOT : Nat := 0x04
abbrev ACK : Nat := 0x06
abbrev NAK : Nat := 0x15
abbrev CAN : Nat := 0x18
abbrev CRC : Nat := 0x43

/-! ## Machine integers and memory -/

/-- The conversion of an unsigned value to `int32_t` (two's complement). -/
def to_i32 (n : Nat) : Int :=
  if n % 2 ^ 32 < 2 ^ 31 then ((n % 2 ^ 32 : Nat) : Int) else ((n % 2 ^ 32 : Nat) : Int) - 2 ^ 32

/-- The conversion of an `int32_t` to `uint32_t`. -/
def to_u32 (i : Int) : Nat := (i % 2 ^ 32).toNat

/-- The conversion `(uint8_t)c` of an `int32_t`. -/
def to_u8 (c : Int) : Nat := (c % 256).toNat

/-- Stores the bytes `new` at the indices `0, 1, ..` of the array `old`. -/
def mem_write (new old : List Nat) : List Nat := new ++ old.drop new.length

/-- Stores the bytes `new` at the indices `off, off + 1, ..` of the array `old`. -/
def mem_write_at (off : Nat) (new old : List Nat) : List Nat :=
  old.take off ++ new ++ old.drop (off + new.length)

/-- Reads the `n` bytes at the indices `0 .. n - 1` of the memory `m`; a byte beyond the
modelled memory reads as 0. -/
def mem_read (m : List Nat) (n : Nat) : List Nat :=
  m.take n ++ List.replicate (n - m.length) 0

/-! ## `ym_crc16` -/

/-- One round of the `while (len--)` loop of `ym_crc16`, for the byte `b`. -/
def ym_crc16_step (crc b : Nat) : Nat :=
  let x := ((crc >>> 8) ^^^ b) % 65536
  let x := (x ^^^ (x >>> 4)) % 65536
  ((crc <<< 8) ^^^ (x <<< 12) ^^^ (x <<< 5) ^^^ x) % 65536

/-- The function `ym_crc16(buf, len)`; `len` is a `uint16_t`. -/
def ym_crc16 (buf : List Nat) (len : Nat) : Nat :=
  (buf.take (len % 65536)).foldl ym_crc16_step 0

/-- The CRC-16/XMODEM reference, one bit: the register is shifted left by one bit and
0x1021 is XORed in when the bit shifted out was 1. -/
def crc16_ref_bit (crc : Nat) : Nat :=
  if crc &&& 0x8000 ≠ 0 then ((crc <<< 1) ^^^ 0x1021) % 65536 else (crc <<< 1) % 65536

/-- The CRC-16/XMODEM reference, one byte: the byte is XORed into the high byte of the
register, then the register is shifted 8 times. -/
def crc16_ref_byte (crc b : Nat) : Nat :=
  crc16_ref_bit^[8] ((crc ^^^ (b <<< 8)) % 65536)

/-- The bit-by-bit CRC-16/XMODEM reference: initial value 0, no reflection, no final XOR. -/
def crc16_ref (buf : List Nat) : Nat := buf.foldl crc16_ref_byte 0

/-! ## `ym_writeU32` and `ym_readU32` -/

/-- The digit loop `while ((val > 0) && (i > 0))` of `ym_writeU32`.  The first argument is
`i`; the list is the part `s[i ..]` of the array `s` that has been written. -/
def ym_writeU32_digits : Nat → Nat → List Nat → List Nat
  | 0, _, s => s
  | i + 1, val, s =>
    if val > 0 then ym_writeU32_digits i (val / 10) ((val % 10 + 48) % 256 :: s) else s

/-- The copy loop `while (*sp) buf[ci++] = *sp++` of `ym_writeU32`: the bytes copied. -/
def ym_writeU32_copy : List Nat → List Nat
  | [] => []
  | c :: sp => if c ≠ 0 then c :: ym_writeU32_copy sp else []

/-- The function `ym_writeU32(val, buf)`: the bytes stored at `buf[0 ..]` (the final NUL
included) and the value returned. -/
def ym_writeU32 (val : Nat) : List Nat × Nat :=
  if val = 0 then ([48, 0], 1)
  else
    let s := ym_writeU32_digits 10 val [0]
    let out := ym_writeU32_copy s
    (out ++ [0], out.length)

/-- The digit loop `while ((c >= '0') && (c <= '9'))` of `ym_readU32`; the list starts
with `c`. -/
def ym_readU32_digits (res : Nat) : List Nat → Nat
  | [] => res
  | c :: s =>
    if 48 ≤ c ∧ c ≤ 57 then ym_readU32_digits ((res * 10 % 2 ^ 32 + (c - 48)) % 2 ^ 32) s
    else res

/-- The loop `do { c = *s++; } while (c == ' ')` of `ym_readU32`: the list from the first
byte that is not a space. -/
def ym_readU32_spaces : List Nat → List Nat
  | [] => []
  | c :: s => if c = 32 then ym_readU32_spaces s else c :: s

/-- The function `ym_readU32(buf, &val)`: the value stored to `*val`. -/
def ym_readU32 (buf : List Nat) : Nat :=
  ym_readU32_digits 0 (ym_readU32_spaces buf)

/-! ## `ym_rx_packet` -/

/-- What `ym_rx_packet` leaves behind: its return value, `*rxlen`, the packet buffer
`rxdata` and the input not yet read. -/
structure RxPacket where
  res : Int
  rxlen : Int
  rxdata : List Nat
  input : List Int
deriving DecidableEq

/-- The loop `for (i = 1; i < rx_packet_size + PACKET_OVERHEAD; i++)` of `ym_rx_packet`,
with `n` bytes still to read: the bytes stored, the input left, and whether the loop ran
to its end (`false`: a `_getchar` returned a negative value). -/
def ym_rx_packet_read : Nat → List Int → Option (List Nat × List Int × Bool)
  | 0, inp => some ([], inp, true)
  | _ + 1, [] => none
  | n + 1, c :: inp =>
    if c < 0 then some ([], inp, false)
    else
      match ym_rx_packet_read n inp with
      | none => none
      | some (bs, rest, ok) => some (to_u8 c :: bs, rest, ok)

/-- The part of `ym_rx_packet` after the `switch`, for the lead byte `c` and the packet
size `rx_packet_size` that the `switch` has chosen. -/
def ym_rx_packet_frame (rxdata : List Nat) (c : Int) (rx_packet_size : Nat)
    (inp : List Int) : Option RxPacket :=
  match ym_rx_packet_read (rx_packet_size + PACKET_OVERHEAD - 1) inp with
  | none => none
  | some (bs, rest, false) => some ⟨-1, 0, mem_write (to_u8 c :: bs) rxdata, rest⟩
  | some (bs, rest, true) =>
    let rxdata := mem_write (to_u8 c :: bs) rxdata
    let seq_nbr := rxdata.getD PACKET_SEQNO_INDEX 0 &&& 0xff
    let seq_cmp := (rxdata.getD PACKET_SEQNO_COMP_INDEX 0 ^^^ 0xff) &&& 0xff
    if seq_nbr ≠ seq_cmp then some ⟨1, 0, rxdata, rest⟩
    else
      let check_crc := ym_crc16 (rxdata.drop PACKET_HEADER) (rx_packet_size + PACKET_TRAILER)
      if check_crc ≠ 0 then some ⟨1, 0, rxdata, rest⟩
      else some ⟨0, rx_packet_size, rxdata, rest⟩

/-- The function `ym_rx_packet(rxdata, &rxlen, packets_rxed, timeout_sec)`.  The cases of
the `switch` fall through as in the source: `CAN` not followed by `CAN` falls into `CRC`,
and `CRC` falls into `ABORT1`/`ABORT2`. -/
def ym_rx_packet (rxdata : List Nat) (packets_rxed : Nat) (inp : List Int) :
    Option RxPacket :=
  match inp with
  | [] => none
  | c :: inp =>
    if c < 0 then some ⟨-1, 0, rxdata, inp⟩
    else if c = SOH then ym_rx_packet_frame rxdata c PACKET_SIZE inp
    else if c = STX then ym_rx_packet_frame rxdata c PACKET_1K_SIZE inp
    else if c = EOT then some ⟨0, 0, rxdata, inp⟩
    else if c = CAN then
      match inp with
      | [] => none
      | c2 :: inp2 =>
        if c2 = CAN then some ⟨0, -1, rxdata, inp2⟩
        else if packets_rxed = 0 then some ⟨1, 0, rxdata, inp2⟩
        else some ⟨1, 0, rxdata, inp2⟩
    else if c = CRC then
      if packets_rxed = 0 then some ⟨1, 0, rxdata, inp⟩
      else some ⟨1, 0, rxdata, inp⟩
    else if c = ABORT1 ∨ c = ABORT2 then some ⟨1, 0, rxdata, inp⟩
    else some ⟨0, -1, rxdata, inp⟩

/-! ## `fymodem_receive` -/

/-- The variables of `fymodem_receive` together with the channel.  `rxdata` holds the
bytes stored into the caller's buffer so far, `rxptr` is the offset `rxptr - rxdata`,
`filename` and `filesize_asc` hold the bytes stored into these arrays so far. -/
structure RxState where
  input : List Int
  output : List Nat
  rx_packet_data : List Nat
  rxdata : List Nat
  rxptr : Nat
  filename : List Nat
  filesize_asc : List Nat
  filesize : Nat
  nbr_errors : Nat
  crc_nak : Bool
  packets_rxed : Nat
deriving DecidableEq

/-- The call `_putchar(c)`. -/
def RxState.putchar (s : RxState) (c : Nat) : RxState :=
  { s with output := s.output ++ [c] }

/-- How one round of the loop "receive packets" ends: the loop goes on, it is left with
`file_done` set (and `session_done` as given), or `fymodem_receive` returns. -/
inductive RxStep where
  | next (s : RxState)
  | file_done (s : RxState) (session_done : Bool)
  | ret (s : RxState) (v : Int)
deriving DecidableEq

/-- The loop `for (i = PACKET_HEADER; i < PACKET_HEADER + 4; i++)` of `fymodem_receive`
and the test `i < PACKET_HEADER + 4` after it: a non-zero byte is among the first four
data bytes. -/
def fymodem_receive_has_data (rx_packet_data : List Nat) : Bool :=
  rx_packet_data.getD 3 0 ≠ 0 ∨ rx_packet_data.getD 4 0 ≠ 0 ∨
    rx_packet_data.getD 5 0 ≠ 0 ∨ rx_packet_data.getD 6 0 ≠ 0

/-- The loop `while (*file_ptr && (i < FYMODEM_FILE_NAME_MAX_LENGTH))` of
`fymodem_receive`: the bytes stored to `filename[0 ..]`.  The first argument is the
number of rounds left, the list is the memory at `file_ptr`. -/
def fymodem_receive_filename : Nat → List Nat → List Nat
  | 0, _ => []
  | _ + 1, [] => []
  | n + 1, c :: file_ptr => if c ≠ 0 then c :: fymodem_receive_filename n file_ptr else []

/-- The loop `while ((*file_ptr != ' ') && (i < FILE_SIZE_LENGTH))` of `fymodem_receive`:
the bytes stored to `filesize_asc[0 ..]`. -/
def fymodem_receive_filesize : Nat → List Nat → List Nat
  | 0, _ => []
  | n + 1, [] => 0 :: fymodem_receive_filesize n []
  | n + 1, c :: file_ptr => if c ≠ 32 then c :: fymodem_receive_filesize n file_ptr else []

/-- The block 0 code of `fymodem_receive`, from the test of the first four data bytes to
`ym_readU32`: `none` when the filename packet is empty, else the arrays `filename` and
`filesize_asc` and the variable `filesize` as the code leaves them. -/
def fymodem_receive_block0 (FYMODEM_FILE_NAME_MAX_LENGTH : Nat)
    (rx_packet_data filename filesize_asc : List Nat) : Option (List Nat × List Nat × Nat) :=
  if fymodem_receive_has_data rx_packet_data then
    let name := fymodem_receive_filename FYMODEM_FILE_NAME_MAX_LENGTH
      (rx_packet_data.drop PACKET_HEADER)
    let filename := mem_write (name ++ [0]) filename
    let size := fymodem_receive_filesize FILE_SIZE_LENGTH
      (rx_packet_data.drop (PACKET_HEADER + name.length + 1))
    let filesize_asc := mem_write (size ++ [0]) filesize_asc
    some (filename, filesize_asc, ym_readU32 filesize_asc)
  else none

/-- The body of the loop "receive packets" of `fymodem_receive`: one call of
`ym_rx_packet` and the `switch` on its result. -/
def fymodem_receive_packet (FYMODEM_FILE_NAME_MAX_LENGTH rxlen : Nat) (s : RxState) :
    Option RxStep :=
  match ym_rx_packet s.rx_packet_data s.packets_rxed s.input with
  | none => none
  | some p =>
    let s := { s with input := p.input, rx_packet_data := p.rxdata }
    if p.res = 0 then
      let s := { s with nbr_errors := 0 }
      if p.rxlen = -1 then
        some (.ret (s.putchar ACK) 0)
      else if p.rxlen = 0 then
        some (.file_done (s.putchar ACK) false)
      else if (s.rx_packet_data.getD PACKET_SEQNO_INDEX 0 &&& 0xff) ≠ (s.packets_rxed &&& 0xff) then
        some (.next (s.putchar NAK))
      else if s.packets_rxed = 0 then
        match fymodem_receive_block0 FYMODEM_FILE_NAME_MAX_LENGTH s.rx_packet_data s.filename
          s.filesize_asc with
        | some (filename, filesize_asc, filesize) =>
          let s := { s with filename := filename, filesize_asc := filesize_asc,
                            filesize := filesize }
          if filesize > rxlen then
            some (.ret ((s.putchar CAN).putchar CAN) 0)
          else
            let s := (s.putchar ACK).putchar (if s.crc_nak then CRC else NAK)
            some (.next { s with crc_nak := false,
                                 packets_rxed := (s.packets_rxed + 1) % 2 ^ 32 })
        | none =>
          some (.file_done (s.putchar ACK) true)
      else
        if (s.rxptr : Int) + p.rxlen > to_i32 rxlen then
          some (.ret ((s.putchar CAN).putchar CAN) 0)
        else
          let bytes := (s.rx_packet_data.drop PACKET_HEADER).take p.rxlen.toNat
          let s := { s with rxdata := mem_write_at s.rxptr bytes s.rxdata,
                            rxptr := s.rxptr + p.rxlen.toNat }
          let s := s.putchar ACK
          some (.next { s with packets_rxed := (s.packets_rxed + 1) % 2 ^ 32 })
    else
      if s.packets_rxed ≠ 0 then
        let s := { s with nbr_errors := s.nbr_errors + 1 }
        if s.nbr_errors ≥ PACKET_ERROR_MAX_NBR then
          some (.ret ((s.putchar CAN).putchar CAN) 0)
        else
          some (.next (s.putchar CRC))
      else
        some (.next (s.putchar CRC))

/-- The head of the loop "receive files" of `fymodem_receive`: `CRC` is emitted unless
this is the first round, and the variables of the round are set. -/
def fymodem_receive_file_begin (first_try : Bool) (s : RxState) : RxState :=
  let s := if first_try then s else s.putchar CRC
  { s with crc_nak := true, packets_rxed := 0, rxptr := 0 }

/-- The two nested loops of `fymodem_receive`, for at most `fuel` rounds of the inner
loop: the value returned and the final state. -/
def fymodem_receive_loop (FYMODEM_FILE_NAME_MAX_LENGTH rxlen : Nat) :
    Nat → RxState → Option (Int × RxState)
  | 0, _ => none
  | fuel + 1, s =>
    match fymodem_receive_packet FYMODEM_FILE_NAME_MAX_LENGTH rxlen s with
    | none => none
    | some (.next s) => fymodem_receive_loop FYMODEM_FILE_NAME_MAX_LENGTH rxlen fuel s
    | some (.file_done s false) =>
      fymodem_receive_loop FYMODEM_FILE_NAME_MAX_LENGTH rxlen fuel
        (fymodem_receive_file_begin false s)
    | some (.file_done s true) => some (to_i32 s.filesize, s)
    | some (.ret s v) => some (v, s)

/-- The state of `fymodem_receive` before the loop "receive files": `filename[0] = 0` has
been stored, `stack` is what the array `rx_packet_data` holds. -/
def fymodem_receive_init (stack : List Nat) (input : List Int) : RxState :=
  { input := input, output := [], rx_packet_data := stack, rxdata := [], rxptr := 0,
    filename := [0], filesize_asc := [], filesize := 0, nbr_errors := 0, crc_nak := true,
    packets_rxed := 0 }

/-- The function `fymodem_receive(rxdata, rxlen, filename)` on the channel input `input`:
the value returned and the final state, or `none` when `input` ends before the function
returns.  Every round of the inner loop reads at least one value of `input`, so
`input.length + 1` rounds are never all used. -/
def fymodem_receive (FYMODEM_FILE_NAME_MAX_LENGTH rxlen : Nat) (stack : List Nat)
    (input : List Int) : Option (Int × RxState) :=
  fymodem_receive_loop FYMODEM_FILE_NAME_MAX_LENGTH rxlen (input.length + 1)
    (fymodem_receive_file_begin true (fymodem_receive_init stack input))

/-! ## The sender -/

/-- The function `ym_send_packet(data, block_nbr)`: the bytes emitted.  `data` is the
memory at the pointer `data`.  For the `int32_t` `block_nbr`, in two's complement,
`block_nbr & 0xFF` is `block_nbr` modulo 256 and `~block_nbr & 0xFF` is `-block_nbr - 1`
modulo 256. -/
def ym_send_packet (data : List Nat) (block_nbr : Int) : List Nat :=
  let tx_packet_size := if block_nbr = 0 then PACKET_SIZE else PACKET_1K_SIZE
  let data := mem_read data tx_packet_size
  let crc16 := ym_crc16 data tx_packet_size
  [if block_nbr = 0 then SOH else STX, (block_nbr % 256).toNat, ((-block_nbr - 1) % 256).toNat]
    ++ data ++ [(crc16 >>> 8) &&& 0xFF, crc16 &&& 0xFF]

/-- The loop `while (*filename && (pos < PACKET_SIZE - FILE_SIZE_LENGTH - 2))` of
`ym_send_packet0`: the bytes stored to `block[0 ..]`.  The first argument is the number
of rounds left, the list is the memory at `filename`. -/
def ym_send_packet0_name : Nat → List Nat → List Nat
  | 0, _ => []
  | _ + 1, [] => []
  | n + 1, c :: filename => if c ≠ 0 then c :: ym_send_packet0_name n filename else []

/-- The array `block` that `ym_send_packet0(filename, filesize)` hands to
`ym_send_packet`; `none` is the null pointer. -/
def ym_send_packet0_block (filename : Option (List Nat)) (filesize : Int) : List Nat :=
  let block : List Nat :=
    match filename with
    | none => []
    | some filename =>
      let name := ym_send_packet0_name (PACKET_SIZE - FILE_SIZE_LENGTH - 2) filename
      mem_write_at (name.length + 1) (ym_writeU32 (to_u32 filesize)).1 (name ++ [0])
  let pos : Nat :=
    match filename with
    | none => 0
    | some filename =>
      (ym_send_packet0_name (PACKET_SIZE - FILE_SIZE_LENGTH - 2) filename).length + 1
        + (ym_writeU32 (to_u32 filesize)).2
  mem_write_at pos (List.replicate (PACKET_SIZE - pos) 0) block

/-- The function `ym_send_packet0(filename, filesize)`: the bytes emitted. -/
def ym_send_packet0 (filename : Option (List Nat)) (filesize : Int) : List Nat :=
  ym_send_packet (ym_send_packet0_block filename filesize) 0

/-- The loop `do { ym_send_packet0(0, 0); ch = _getchar(..); } while ((ch != ACK) &&
(ch != -1))` of `ym_send_data_packets`: the input left and the output. -/
def ym_send_data_packets_last : List Int → List Nat → Option (List Int × List Nat)
  | [], _ => none
  | ch :: inp, out =>
    if ch ≠ ACK ∧ ch ≠ -1 then ym_send_data_packets_last inp (out ++ ym_send_packet0 none 0)
    else some (inp, out ++ ym_send_packet0 none 0)

/-- The loop `do { _putchar(EOT); ch = _getchar(..); } while ((ch != ACK) && (ch != -1))`
of `ym_send_data_packets` and the code after it. -/
def ym_send_data_packets_eot : List Int → List Nat → Option (List Int × List Nat)
  | [], _ => none
  | ch :: inp, out =>
    if ch ≠ ACK ∧ ch ≠ -1 then ym_send_data_packets_eot inp (out ++ [EOT])
    else if ch = ACK then
      match inp with
      | [] => none
      | ch2 :: inp2 =>
        if ch2 = CRC then ym_send_data_packets_last inp2 (out ++ [EOT])
        else some (inp2, out ++ [EOT])
    else some (inp, out ++ [EOT])

/-- The loop `while (txlen > 0)` of `ym_send_data_packets` and the code after it: the
input left and the output.  The function returns nothing. -/
def ym_send_data_packets_loop : List Int → List Nat → Nat → Int → List Nat →
    Option (List Int × List Nat)
  | inp, txdata, txlen, block_nbr, out =>
    if txlen > 0 then
      let send_size := if txlen > PACKET_1K_SIZE then PACKET_1K_SIZE else txlen
      match inp with
      | [] => none
      | c :: inp =>
        let out := out ++ ym_send_packet txdata block_nbr
        if c = ACK then
          ym_send_data_packets_loop inp (txdata.drop send_size) (txlen - send_size)
            (block_nbr + 1) out
        else if c = -1 ∨ c = CAN then some (inp, out)
        else ym_send_data_packets_loop inp txdata txlen block_nbr out
    else ym_send_data_packets_eot inp out

/-- The function `ym_send_data_packets(txdata, txlen, timeout_sec)`; `txlen` is a
`uint32_t`. -/
def ym_send_data_packets (txdata : List Nat) (txlen : Nat) (inp : List Int)
    (out : List Nat) : Option (List Int × List Nat) :=
  ym_send_data_packets_loop inp txdata (txlen % 2 ^ 32) 1 out

/-- What `fymodem_send` leaves behind: the value returned, the bytes emitted and the
input not read. -/
structure TxResult where
  ret : Int
  output : List Nat
  input : List Int
deriving DecidableEq

/-- The loop `do { ym_send_packet0(filename, txsize); .. } while (true)` of
`fymodem_send` and the code after it. -/
def fymodem_send_block0 (txdata : List Nat) (txsize : Nat) (filename : Option (List Nat)) :
    List Int → Bool → List Nat → Option TxResult
  | [], _, _ => none
  | ch :: inp, crc_nak, out =>
    let out := out ++ ym_send_packet0 filename (to_i32 txsize)
    if ch = ACK then
      match inp with
      | [] => none
      | ch2 :: inp2 =>
        if ch2 = CRC then
          match ym_send_data_packets txdata txsize inp2 out with
          | none => none
          | some (inp3, out) => some ⟨to_i32 txsize, out, inp3⟩
        else fymodem_send_block0 txdata txsize filename inp2 crc_nak out
    else if ch = CRC ∧ crc_nak = true then
      fymodem_send_block0 txdata txsize filename inp false out
    else if ch ≠ NAK ∨ crc_nak = true then
      some ⟨0, out ++ [CAN, CAN], inp⟩
    else fymodem_send_block0 txdata txsize filename inp crc_nak out

/-- The loop `do { _putchar(CRC); ch = _getchar(1); } while (ch < 0)` of `fymodem_send`
and the code after it. -/
def fymodem_send_start (txdata : List Nat) (txsize : Nat) (filename : Option (List Nat)) :
    List Int → List Nat → Option TxResult
  | [], _ => none
  | ch :: inp, out =>
    if ch < 0 then fymodem_send_start txdata txsize filename inp (out ++ [CRC])
    else if ch = CRC then fymodem_send_block0 txdata txsize filename inp true (out ++ [CRC])
    else some ⟨0, out ++ [CRC] ++ [CAN, CAN], inp⟩

/-- The function `fymodem_send(txdata, txsize, filename)` on the channel input `input`;
`txdata` is the memory at the pointer `txdata`. -/
def fymodem_send (txdata : List Nat) (txsize : Nat) (filename : Option (List Nat))
    (input : List Int) : Option TxResult :=
  fymodem_send_start txdata txsize filename input []

/-! ## Inputs and observations used by the theorems -/

/-- The bytes `l` as the values that successive `_getchar` calls return. -/
def wire (l : List Nat) : List Int := l.map Int.ofNat

/-- The minimal decimal representation of `v` in ASCII, most significant digit first: no
leading zero, and the single digit `'0'` for `v = 0`. -/
def minimal_decimal (v : Nat) : List Nat :=
  if v = 0 then [48] else (Nat.digits 10 v).reverse.map (· + 48)

/-- The state that a round of the loop "receive packets" ends with. -/
def RxStep.state : RxStep → RxState
  | .next s => s
  | .file_done s _ => s
  | .ret s _ => s

/-- The state of `fymodem_receive` after `k` more rounds of the loop "receive packets",
when it has not returned by then. -/
def fymodem_receive_after (FYMODEM_FILE_NAME_MAX_LENGTH rxlen : Nat) :
    Nat → RxState → Option RxState
  | 0, s => some s
  | k + 1, s =>
    match fymodem_receive_packet FYMODEM_FILE_NAME_MAX_LENGTH rxlen s with
    | some (.next s) => fymodem_receive_after FYMODEM_FILE_NAME_MAX_LENGTH rxlen k s
    | some (.file_done s false) =>
      fymodem_receive_after FYMODEM_FILE_NAME_MAX_LENGTH rxlen k
        (fymodem_receive_file_begin false s)
    | _ => none

/-- A valid packet on the wire: the lead byte that fits the data size, the sequence
number modulo 256, its complement, the data and the CRC of the data, high byte first. -/
def frame (seq : Nat) (data : List Nat) : List Nat :=
  [if data.length = PACKET_SIZE then SOH else STX, seq % 256, 255 - seq % 256] ++ data ++
    [(ym_crc16 data data.length >>> 8) &&& 0xFF, ym_crc16 data data.length &&& 0xFF]

/-- Valid packets with the sequence numbers `seq`, `seq + 1`, .. on the wire. -/
def frames : Nat → List (List Nat) → List Nat
  | _, [] => []
  | seq, data :: rest => frame seq data ++ frames (seq + 1) rest

/-- The data of a file header block 0: the filename, a NUL, the decimal digits of the
file size, the byte `term` that ends them (a NUL or a space), and the rest of the block. -/
def header_block (name : List Nat) (size : Nat) (term : Nat) (tail : List Nat) : List Nat :=
  name ++ 0 :: (minimal_decimal size ++ term :: tail)

/-- The input of a well-formed session: a block 0 with the data `block0`, valid data
packets with the sequence numbers 1, 2, .., `EOT`, and an all-zero block 0; `rest`
follows. -/
def session (block0 : List Nat) (ds : List (List Nat)) (rest : List Int) : List Int :=
  wire (frame 0 block0) ++
    (wire (frames 1 ds) ++
      (Int.ofNat EOT :: (wire (frame 0 (List.replicate PACKET_SIZE 0)) ++ rest)))

theorem and_0x8000_ne_zero (c : Nat) : (c &&& 0x8000 ≠ 0) ↔ c.testBit 15 = true := by
  have h : (0x8000 : Nat) = 2 ^ 15 := by norm_num
  rw [h, Nat.and_two_pow]
  cases c.testBit 15 <;> simp

theorem crc16_ref_bit_eq (c : Nat) :
    crc16_ref_bit c = ((c <<< 1) ^^^ (if c.testBit 15 then 0x1021 else 0)) % 2 ^ 16 := by
  unfold crc16_ref_bit
  have e : (65536 : Nat) = 2 ^ 16 := by norm_num
  by_cases h : c.testBit 15 = true
  · rw [if_pos ((and_0x8000_ne_zero c).2 h), if_pos h, e]
  · have : ¬ (c &&& 0x8000 ≠ 0) := fun h2 => h ((and_0x8000_ne_zero c).1 h2)
    rw [if_neg this, if_neg h, e]; simp

theorem crc16_ref_bit_xor (a b : Nat) :
    crc16_ref_bit (a ^^^ b) = crc16_ref_bit a ^^^ crc16_ref_bit b := by
  simp only [crc16_ref_bit_eq]
  apply Nat.eq_of_testBit_eq
  intro i
  simp only [Nat.testBit_xor, Nat.testBit_mod_two_pow, Nat.testBit_shiftLeft]
  cases ha : a.testBit 15 <;> cases hb : b.testBit 15 <;>
  simp only [Bool.xor_false, Bool.xor_true, Bool.not_true, Bool.not_false, if_true, if_false,
    Bool.false_eq_true, Nat.testBit_xor, Nat.zero_testBit, Nat.xor_zero] <;>
  generalize decide (i < 16) = p <;> generalize decide (i ≥ 1) = q <;>
  generalize a.testBit (i - 1) = r <;> generalize b.testBit (i - 1) = s <;>
  generalize Nat.testBit 4129 i = t <;>
  cases p <;> cases q <;> cases r <;> cases s <;> cases t <;> rfl

theorem crc16_ref_bit_lt (c : Nat) : crc16_ref_bit c < 65536 := by
  unfold crc16_ref_bit
  split <;> exact Nat.mod_lt _ (by norm_num)

theorem crc16_ref_bit_iter_xor (n a b : Nat) :
    crc16_ref_bit^[n] (a ^^^ b) = crc16_ref_bit^[n] a ^^^ crc16_ref_bit^[n] b := by
  induction n generalizing a b with
  | zero => rfl
  | succ n ih => simp only [Function.iterate_succ, Function.comp_apply, crc16_ref_bit_xor, ih]

theorem crc16_ref_bit_iter_lt (n c : Nat) (hc : c < 65536) : crc16_ref_bit^[n] c < 65536 := by
  induction n generalizing c with
  | zero => exact hc
  | succ n ih =>
    rw [Function.iterate_succ, Function.comp_apply]
    exact ih _ (crc16_ref_bit_lt c)

theorem crc16_ref_bit_eq_zero (c : Nat) (hc : c < 65536) (h : crc16_ref_bit c = 0) : c = 0 := by
  rw [crc16_ref_bit_eq] at h
  by_cases h15 : c.testBit 15 = true
  · exfalso
    have := congrArg (fun x => Nat.testBit x 0) h
    simp only [Nat.testBit_mod_two_pow, h15, Nat.testBit_shiftLeft, Nat.testBit_xor, if_true,
      Nat.zero_testBit] at this
    revert this
    generalize c.testBit (0 - 1) = r
    cases r <;> decide
  · simp only [h15, if_false, Bool.false_eq_true, Nat.xor_zero] at h
    rw [Nat.shiftLeft_eq] at h
    have h2 : c = 0 ∨ c = 32768 := by omega
    rcases h2 with h2 | h2
    · exact h2
    · subst h2; exact absurd (by decide) h15

theorem crc16_ref_bit_iter_eq_zero (n c : Nat) (hc : c < 65536)
    (h : crc16_ref_bit^[n] c = 0) : c = 0 := by
  induction n generalizing c with
  | zero => exact h
  | succ n ih =>
    rw [Function.iterate_succ, Function.comp_apply] at h
    exact crc16_ref_bit_eq_zero c hc (ih _ (crc16_ref_bit_lt c) h)

theorem crc16_ref_bit_iter_zero (n : Nat) : crc16_ref_bit^[n] 0 = 0 := by
  induction n with
  | zero => rfl
  | succ n ih => rw [Function.iterate_succ, Function.comp_apply]; exact ih

theorem bits_split (c : Nat) : c = ((c >>> 8) <<< 8) ^^^ (c % 2 ^ 8) := by
  apply Nat.eq_of_testBit_eq
  intro i
  simp only [Nat.testBit_xor, Nat.testBit_mod_two_pow, Nat.testBit_shiftLeft,
    Nat.testBit_shiftRight]
  by_cases h : i < 8
  · have h2 : ¬ (i ≥ 8) := by omega
    simp [h, h2]
  · have h2 : i ≥ 8 := by omega
    have h3 : 8 + (i - 8) = i := by omega
    simp [h, h2, h3]

theorem shiftLeft_xor_shiftLeft (a b k : Nat) : (a <<< k) ^^^ (b <<< k) = (a ^^^ b) <<< k := by
  apply Nat.eq_of_testBit_eq
  intro i
  simp only [Nat.testBit_xor, Nat.testBit_shiftLeft]
  cases decide (i ≥ k) <;> simp

theorem xor_mod_two_pow (a b k : Nat) : (a ^^^ b) % 2 ^ k = (a % 2 ^ k) ^^^ (b % 2 ^ k) := by
  apply Nat.eq_of_testBit_eq
  intro i
  simp only [Nat.testBit_xor, Nat.testBit_mod_two_pow]
  cases decide (i < k) <;> simp

theorem shiftLeft_8_mod (c : Nat) : (c <<< 8) % 2 ^ 16 = (c % 2 ^ 8) <<< 8 := by
  simp only [Nat.shiftLeft_eq]
  omega

theorem shiftLeft_8_or (hi lo : Nat) (hlo : lo < 256) : (hi <<< 8) ||| lo = (hi <<< 8) ^^^ lo := by
  apply Nat.eq_of_testBit_eq
  intro i
  simp only [Nat.testBit_xor, Nat.testBit_or, Nat.testBit_shiftLeft]
  by_cases h : i < 8
  · have h2 : ¬ (i ≥ 8) := by omega
    simp [h2]
  · have h3 : lo.testBit i = false :=
      Nat.testBit_lt_two_pow (lt_of_lt_of_le hlo (by
        calc 256 = 2 ^ 8 := by norm_num
          _ ≤ 2 ^ i := Nat.pow_le_pow_right (by norm_num) (by omega)))
    simp [h3]

theorem crc16_ref_bit_iter_8_low (lo : Nat) (h : lo < 256) : crc16_ref_bit^[8] lo = lo <<< 8 := by
  revert lo
  decide!

set_option maxRecDepth 100000 in
theorem crc16_ref_bit_iter_8_high : ∀ h < 256, crc16_ref_bit^[8] (h <<< 8) =
    ((((h ^^^ (h >>> 4)) <<< 12) ^^^ ((h ^^^ (h >>> 4)) <<< 5) ^^^ (h ^^^ (h >>> 4))) % 65536) := by
  decide!

theorem ym_crc16_step_lt (crc b : Nat) : ym_crc16_step crc b < 65536 :=
  Nat.mod_lt _ (by norm_num)

theorem ym_crc16_step_eq_ref (crc b : Nat) (hc : crc < 65536) (hb : b < 256) :
    ym_crc16_step crc b = crc16_ref_byte crc b := by
  have hhi : crc >>> 8 < 2 ^ 8 := by
    rw [Nat.shiftRight_eq_div_pow]; omega
  have hh : (crc >>> 8) ^^^ b < 2 ^ 8 := Nat.xor_lt_two_pow hhi (by omega)
  generalize hdef : (crc >>> 8) ^^^ b = h at hh
  have hx : (h ^^^ (h >>> 4)) < 2 ^ 8 :=
    Nat.xor_lt_two_pow hh (by rw [Nat.shiftRight_eq_div_pow]; omega)
  have e16 : (65536 : Nat) = 2 ^ 16 := by norm_num
  have lhs : ym_crc16_step crc b = ((crc % 2 ^ 8) <<< 8) ^^^
      ((((h ^^^ (h >>> 4)) <<< 12) ^^^ ((h ^^^ (h >>> 4)) <<< 5) ^^^ (h ^^^ (h >>> 4))) % 65536) := by
    unfold ym_crc16_step
    simp only [hdef]
    rw [Nat.mod_eq_of_lt (show h < 65536 by omega),
      Nat.mod_eq_of_lt (show (h ^^^ (h >>> 4)) < 65536 by omega)]
    rw [Nat.xor_assoc, Nat.xor_assoc, e16, xor_mod_two_pow, shiftLeft_8_mod, ← Nat.xor_assoc]
  have hkey : (h <<< 8) ^^^ (crc % 2 ^ 8) = crc ^^^ (b <<< 8) := by
    rw [← hdef, ← shiftLeft_xor_shiftLeft, Nat.xor_assoc, Nat.xor_comm (b <<< 8),
      ← Nat.xor_assoc, ← bits_split]
  have rhs : (crc ^^^ (b <<< 8)) % 65536 = (h <<< 8) ^^^ (crc % 2 ^ 8) := by
    have hlt : (h <<< 8) ^^^ (crc % 2 ^ 8) < 2 ^ 16 :=
      Nat.xor_lt_two_pow (by rw [Nat.shiftLeft_eq]; omega) (by omega)
    rw [← hkey]
    exact Nat.mod_eq_of_lt (by omega)
  rw [lhs]
  unfold crc16_ref_byte
  rw [rhs, crc16_ref_bit_iter_xor, crc16_ref_bit_iter_8_high h (by omega),
    crc16_ref_bit_iter_8_low _ (by omega), Nat.xor_comm]

theorem foldl_ym_crc16_step_lt (buf : List Nat) (crc : Nat) (hc : crc < 65536) :
    buf.foldl ym_crc16_step crc < 65536 := by
  induction buf generalizing crc with
  | nil => exact hc
  | cons b bs ih => exact ih _ (ym_crc16_step_lt crc b)

theorem foldl_ym_crc16_step_eq_ref (buf : List Nat) (crc : Nat) (hc : crc < 65536)
    (hb : ∀ b ∈ buf, b < 256) :
    buf.foldl ym_crc16_step crc = buf.foldl crc16_ref_byte crc := by
  induction buf generalizing crc with
  | nil => rfl
  | cons b bs ih =>
    simp only [List.foldl_cons]
    rw [← ym_crc16_step_eq_ref crc b hc (hb b (List.mem_cons_self b bs))]
    exact ih _ (ym_crc16_step_lt crc b) (fun x hx => hb x (List.mem_cons_of_mem b hx))

theorem ym_crc16_of_length (buf : List Nat) (len : Nat) (hlen : buf.length = len)
    (h16 : len < 65536) : ym_crc16 buf len = buf.foldl ym_crc16_step 0 := by
  unfold ym_crc16
  rw [Nat.mod_eq_of_lt h16, ← hlen, List.take_length]

theorem ym_crc16_lt (buf : List Nat) (len : Nat) : ym_crc16 buf len < 65536 :=
  foldl_ym_crc16_step_lt _ 0 (by norm_num)

/-- The two trailer rounds of the CRC: feeding the bytes `hi`, `lo` to the register `c`
leaves 0 exactly when `c` is `hi << 8 | lo`. -/
theorem ym_crc16_step_trailer (c hi lo : Nat) (hc : c < 65536) (hhi : hi < 256)
    (hlo : lo < 256) :
    ym_crc16_step (ym_crc16_step c hi) lo = 0 ↔ c = (hi <<< 8) ||| lo := by
  have hshl : hi <<< 8 < 2 ^ 16 := by rw [Nat.shiftLeft_eq]; omega
  have hl8 : lo <<< 8 < 2 ^ 16 := by rw [Nat.shiftLeft_eq]; omega
  have h1 : c ^^^ (hi <<< 8) < 2 ^ 16 := Nat.xor_lt_two_pow (by omega) hshl
  rw [ym_crc16_step_eq_ref _ lo (ym_crc16_step_lt c hi) hlo, ym_crc16_step_eq_ref c hi hc hhi]
  unfold crc16_ref_byte
  rw [Nat.mod_eq_of_lt (show c ^^^ (hi <<< 8) < 65536 by omega)]
  have h2 : crc16_ref_bit^[8] (c ^^^ (hi <<< 8)) ^^^ (lo <<< 8) < 2 ^ 16 :=
    Nat.xor_lt_two_pow (by have := crc16_ref_bit_iter_lt 8 _ (show c ^^^ (hi <<< 8) < 65536 by omega); omega) hl8
  rw [Nat.mod_eq_of_lt (by omega), ← crc16_ref_bit_iter_8_low lo hlo, ← crc16_ref_bit_iter_xor,
    ← Function.iterate_add_apply, shiftLeft_8_or hi lo hlo, Nat.xor_assoc]
  have h3 : c ^^^ ((hi <<< 8) ^^^ lo) < 2 ^ 16 :=
    Nat.xor_lt_two_pow (by omega) (Nat.xor_lt_two_pow hshl (by omega))
  constructor
  · intro h
    have := crc16_ref_bit_iter_eq_zero _ _ (by omega) h
    exact Nat.xor_eq_zero.mp this
  · intro h
    rw [h, Nat.xor_self]
    exact crc16_ref_bit_iter_zero _

/-! ## Reading a frame -/

theorem to_u8_ofNat (b : Nat) (h : b < 256) : to_u8 (Int.ofNat b) = b := by
  unfold to_u8
  have : (Int.ofNat b) % 256 = Int.ofNat b := Int.emod_eq_of_lt (by simp) (by simp; omega)
  rw [this]; rfl

theorem wire_cons (b : Nat) (l : List Nat) : wire (b :: l) = Int.ofNat b :: wire l := rfl

theorem wire_append (l m : List Nat) : wire (l ++ m) = wire l ++ wire m := by
  simp [wire]

theorem wire_length (l : List Nat) : (wire l).length = l.length := by
  simp [wire]

theorem ym_rx_packet_read_wire (bs : List Nat) (rest : List Int) (hb : ∀ b ∈ bs, b < 256) :
    ym_rx_packet_read bs.length (wire bs ++ rest) = some (bs, rest, true) := by
  induction bs with
  | nil => rfl
  | cons b bs ih =>
    have h0 : ¬ (Int.ofNat b < 0) := by simp
    rw [wire_cons, List.length_cons, List.cons_append, ym_rx_packet_read, if_neg h0,
      ih (fun x hx => hb x (List.mem_cons_of_mem b hx)),
      to_u8_ofNat b (hb b (List.mem_cons_self b bs))]

theorem ym_crc16_append (l tail : List Nat) (n : Nat) (hn : n = l.length) (h16 : n < 65536) :
    ym_crc16 (l ++ tail) n = l.foldl ym_crc16_step 0 := by
  unfold ym_crc16
  rw [Nat.mod_eq_of_lt h16, hn, List.take_left]

/-- The outcome of `ym_rx_packet_frame` on a complete frame. -/
theorem ym_rx_packet_frame_wire (rxdata : List Nat) (lead s t : Nat) (data : List Nat)
    (hi lo : Nat) (rest : List Int) (size : Nat) (hsize : data.length = size)
    (h16 : size + 2 < 65536)
    (hlead : lead < 256) (hs : s < 256) (ht : t < 256)
    (hdata : ∀ b ∈ data, b < 256) (hhi : hi < 256) (hlo : lo < 256) :
    ym_rx_packet_frame rxdata (Int.ofNat lead) size
        (wire (s :: t :: data ++ [hi, lo]) ++ rest) =
      some (if (s &&& 0xff) ≠ ((t ^^^ 0xff) &&& 0xff) then
          ⟨1, 0, mem_write (lead :: s :: t :: data ++ [hi, lo]) rxdata, rest⟩
        else if ym_crc16 data size = (hi <<< 8) ||| lo then
          ⟨0, size, mem_write (lead :: s :: t :: data ++ [hi, lo]) rxdata, rest⟩
        else ⟨1, 0, mem_write (lead :: s :: t :: data ++ [hi, lo]) rxdata, rest⟩) := by
  have hlen : (s :: t :: data ++ [hi, lo]).length = size + PACKET_OVERHEAD - 1 := by
    simp [hsize, PACKET_OVERHEAD, PACKET_HEADER, PACKET_TRAILER]
  have hall : ∀ b ∈ (s :: t :: data ++ [hi, lo]), b < 256 := by
    intro b hb
    simp only [List.cons_append, List.mem_cons, List.mem_append, List.mem_singleton,
      List.not_mem_nil, or_false] at hb
    rcases hb with h | h | h | h | h
    · omega
    · omega
    · exact hdata b h
    · omega
    · omega
  unfold ym_rx_packet_frame
  rw [← hlen, ym_rx_packet_read_wire _ rest hall]
  simp only [to_u8_ofNat lead hlead]
  have hcrc : ym_crc16 (List.drop PACKET_HEADER
      (mem_write (lead :: (s :: t :: data ++ [hi, lo])) rxdata)) (size + PACKET_TRAILER)
      = ym_crc16_step (ym_crc16_step (ym_crc16 data size) hi) lo := by
    have e : List.drop PACKET_HEADER (mem_write (lead :: (s :: t :: data ++ [hi, lo])) rxdata)
        = (data ++ [hi, lo]) ++ rxdata.drop (lead :: (s :: t :: data ++ [hi, lo])).length := by
      simp [mem_write]
    rw [e, ym_crc16_append _ _ _ (by simp [hsize]) h16,
      ym_crc16_of_length data size hsize (by omega), List.foldl_append]
    rfl
  rw [hcrc]
  have h1 : (mem_write (lead :: (s :: t :: data ++ [hi, lo])) rxdata).getD PACKET_SEQNO_INDEX 0
      = s := by simp [mem_write]
  have h2 : (mem_write (lead :: (s :: t :: data ++ [hi, lo])) rxdata).getD
      PACKET_SEQNO_COMP_INDEX 0 = t := by simp [mem_write]
  rw [h1, h2]
  have htr := ym_crc16_step_trailer (ym_crc16 data size) hi lo (ym_crc16_lt _ _) hhi hlo
  by_cases hseq : (s &&& 0xff) ≠ ((t ^^^ 0xff) &&& 0xff)
  · simp only [if_pos hseq]; rfl
  · simp only [if_neg hseq]
    by_cases hc : ym_crc16 data size = (hi <<< 8) ||| lo
    · have : ¬ (ym_crc16_step (ym_crc16_step (ym_crc16 data size) hi) lo ≠ 0) := by
        rw [not_not]; exact htr.2 hc
      simp only [if_neg this, if_pos hc]; rfl
    · have : ym_crc16_step (ym_crc16_step (ym_crc16 data size) hi) lo ≠ 0 :=
        fun h => hc (htr.1 h)
      simp only [if_pos this, if_neg hc]; rfl

theorem ym_rx_packet_SOH (rxdata : List Nat) (packets_rxed : Nat) (inp : List Int) :
    ym_rx_packet rxdata packets_rxed (Int.ofNat SOH :: inp) =
      ym_rx_packet_frame rxdata (Int.ofNat SOH) PACKET_SIZE inp := by
  simp [ym_rx_packet]

theorem ym_rx_packet_STX (rxdata : List Nat) (packets_rxed : Nat) (inp : List Int) :
    ym_rx_packet rxdata packets_rxed (Int.ofNat STX :: inp) =
      ym_rx_packet_frame rxdata (Int.ofNat STX) PACKET_1K_SIZE inp := by
  simp [ym_rx_packet]

/-- The outcome of `ym_rx_packet` on a complete frame whose lead byte fits its size. -/
theorem ym_rx_packet_wire (rxdata : List Nat) (packets_rxed : Nat) (lead s t : Nat)
    (data : List Nat) (hi lo : Nat) (rest : List Int)
    (hlead : lead = SOH ∧ data.length = PACKET_SIZE ∨ lead = STX ∧ data.length = PACKET_1K_SIZE)
    (hs : s < 256) (ht : t < 256)
    (hdata : ∀ b ∈ data, b < 256) (hhi : hi < 256) (hlo : lo < 256) :
    ym_rx_packet rxdata packets_rxed (wire (lead :: s :: t :: data ++ [hi, lo]) ++ rest) =
      some (if (s &&& 0xff) ≠ ((t ^^^ 0xff) &&& 0xff) then
          ⟨1, 0, mem_write (lead :: s :: t :: data ++ [hi, lo]) rxdata, rest⟩
        else if ym_crc16 data data.length = (hi <<< 8) ||| lo then
          ⟨0, data.length, mem_write (lead :: s :: t :: data ++ [hi, lo]) rxdata, rest⟩
        else ⟨1, 0, mem_write (lead :: s :: t :: data ++ [hi, lo]) rxdata, rest⟩) := by
  have e : wire (lead :: s :: t :: data ++ [hi, lo]) ++ rest
      = Int.ofNat lead :: (wire (s :: t :: data ++ [hi, lo]) ++ rest) := rfl
  rw [e]
  rcases hlead with ⟨h1, h2⟩ | ⟨h1, h2⟩
  · subst h1
    rw [ym_rx_packet_SOH, ym_rx_packet_frame_wire rxdata SOH s t data hi lo rest PACKET_SIZE h2
      (by norm_num) (by norm_num) hs ht hdata hhi hlo, h2]
  · subst h1
    rw [ym_rx_packet_STX, ym_rx_packet_frame_wire rxdata STX s t data hi lo rest PACKET_1K_SIZE h2
      (by norm_num) (by norm_num) hs ht hdata hhi hlo, h2]

theorem seq_complement : ∀ x < 256, (x &&& 0xff) = (((255 - x) ^^^ 0xff) &&& 0xff) := by
  decide!

theorem mem_read_of_length (m : List Nat) (n : Nat) (h : m.length = n) : mem_read m n = m := by
  unfold mem_read
  rw [← h, List.take_length, Nat.sub_self]
  simp

theorem crc_high_lt (c : Nat) : (c >>> 8) &&& 0xFF < 256 := by
  have : (c >>> 8) &&& 0xFF ≤ 0xFF := Nat.and_le_right
  omega

theorem crc_low_lt (c : Nat) : c &&& 0xFF < 256 := by
  have : c &&& 0xFF ≤ 0xFF := Nat.and_le_right
  omega

theorem crc_high_low (c : Nat) (hc : c < 65536) :
    (((c >>> 8) &&& 0xFF) <<< 8) ||| (c &&& 0xFF) = c := by
  have e : (0xFF : Nat) = 2 ^ 8 - 1 := by norm_num
  rw [e, Nat.and_pow_two_sub_one_eq_mod, Nat.and_pow_two_sub_one_eq_mod,
    shiftLeft_8_or _ _ (Nat.mod_lt _ (by norm_num))]
  have h : c >>> 8 % 2 ^ 8 = c >>> 8 := by
    rw [Nat.mod_eq_of_lt]
    rw [Nat.shiftRight_eq_div_pow]; omega
  rw [h]
  exact (bits_split c).symm

/-- The bytes that `ym_send_packet` emits for a block of the size it uses. -/
theorem ym_send_packet_bytes (data : List Nat) (block_nbr : Int)
    (hlen : data.length = if block_nbr = 0 then PACKET_SIZE else PACKET_1K_SIZE) :
    ym_send_packet data block_nbr =
      [if block_nbr = 0 then SOH else STX, (block_nbr % 256).toNat,
        ((-block_nbr - 1) % 256).toNat] ++ data ++
      [(ym_crc16 data data.length >>> 8) &&& 0xFF, ym_crc16 data data.length &&& 0xFF] := by
  unfold ym_send_packet
  simp only [← hlen, mem_read_of_length data data.length rfl]

/-- The outcome of `ym_rx_packet` on the bytes that `ym_send_packet` emits. -/
theorem ym_rx_packet_ym_send_packet (rxdata : List Nat) (packets_rxed : Nat) (data : List Nat)
    (block_nbr : Int) (rest : List Int) (hdata : ∀ b ∈ data, b < 256)
    (hlen : data.length = if block_nbr = 0 then PACKET_SIZE else PACKET_1K_SIZE) :
    ym_rx_packet rxdata packets_rxed (wire (ym_send_packet data block_nbr) ++ rest) =
      some ⟨0, data.length, mem_write (ym_send_packet data block_nbr) rxdata, rest⟩ := by
  have hb := ym_send_packet_bytes data block_nbr hlen
  have hlead : (if block_nbr = 0 then SOH else STX) = SOH ∧ data.length = PACKET_SIZE ∨
      (if block_nbr = 0 then SOH else STX) = STX ∧ data.length = PACKET_1K_SIZE := by
    by_cases h : block_nbr = 0
    · left; simp [h] at hlen ⊢; exact hlen
    · right; simp [h] at hlen ⊢; exact hlen
  have hs : (block_nbr % 256).toNat < 256 := by omega
  have ht : ((-block_nbr - 1) % 256).toNat < 256 := by omega
  have hst : ((-block_nbr - 1) % 256).toNat = 255 - (block_nbr % 256).toNat := by omega
  have h := ym_rx_packet_wire rxdata packets_rxed (if block_nbr = 0 then SOH else STX)
    (block_nbr % 256).toNat ((-block_nbr - 1) % 256).toNat data
    ((ym_crc16 data data.length >>> 8) &&& 0xFF) (ym_crc16 data data.length &&& 0xFF) rest
    hlead hs ht hdata (crc_high_lt _) (crc_low_lt _)
  have hseq : ¬ (((block_nbr % 256).toNat &&& 0xff) ≠
      ((((-block_nbr - 1) % 256).toNat ^^^ 0xff) &&& 0xff)) := by
    rw [not_not, hst]
    exact seq_complement _ hs
  rw [if_neg hseq, if_pos (crc_high_low _ (ym_crc16_lt _ _)).symm] at h
  rw [hb]
  exact h

/-! ## The decimal codec -/

theorem digits_length_le (i v : Nat) (h : v < 10 ^ i) : (Nat.digits 10 v).length ≤ i := by
  induction i generalizing v with
  | zero =>
    have : v = 0 := by simpa using h
    subst this; simp
  | succ i ih =>
    by_cases hv : v = 0
    · subst hv; simp
    · rw [Nat.digits_def' (by norm_num) (Nat.pos_of_ne_zero hv), List.length_cons]
      have : v / 10 < 10 ^ i := by
        rw [Nat.div_lt_iff_lt_mul (by norm_num)]
        rw [pow_succ] at h; exact h
      exact Nat.succ_le_succ (ih _ this)

theorem ym_writeU32_digits_eq (i val : Nat) (s : List Nat) (h : val < 10 ^ i) :
    ym_writeU32_digits i val s = (Nat.digits 10 val).reverse.map (· + 48) ++ s := by
  induction i generalizing val s with
  | zero =>
    have : val = 0 := by simpa using h
    subst this; simp [ym_writeU32_digits]
  | succ i ih =>
    by_cases hv : val = 0
    · subst hv; simp [ym_writeU32_digits]
    · have hpos : val > 0 := Nat.pos_of_ne_zero hv
      have hdiv : val / 10 < 10 ^ i := by
        rw [Nat.div_lt_iff_lt_mul (by norm_num)]
        rw [pow_succ] at h; exact h
      have hmod : (val % 10 + 48) % 256 = val % 10 + 48 := by omega
      rw [ym_writeU32_digits, if_pos hpos, ih _ _ hdiv, Nat.digits_def' (by norm_num) hpos, hmod]
      simp

theorem ym_writeU32_copy_eq (ds : List Nat) (tail : List Nat) (h : ∀ d ∈ ds, d ≠ 0) :
    ym_writeU32_copy (ds ++ 0 :: tail) = ds := by
  induction ds with
  | nil => simp [ym_writeU32_copy]
  | cons d ds ih =>
    rw [List.cons_append, ym_writeU32_copy, if_pos (h d (List.mem_cons_self d ds)),
      ih (fun x hx => h x (List.mem_cons_of_mem d hx))]

theorem minimal_decimal_ne_zero (v : Nat) : ∀ d ∈ minimal_decimal v, d ≠ 0 := by
  intro d hd
  unfold minimal_decimal at hd
  split at hd
  · simp at hd; omega
  · simp only [List.mem_map, List.mem_reverse] at hd
    obtain ⟨a, _, rfl⟩ := hd
    omega

theorem minimal_decimal_length (v : Nat) (hv : v < 2 ^ 32) :
    1 ≤ (minimal_decimal v).length ∧ (minimal_decimal v).length ≤ 10 := by
  unfold minimal_decimal
  split
  · simp
  · rename_i h0
    simp only [List.length_map, List.length_reverse]
    constructor
    · have : Nat.digits 10 v ≠ [] := Nat.digits_ne_nil_iff_ne_zero.mpr h0
      exact Nat.succ_le_of_lt (List.length_pos.mpr this)
    · exact digits_length_le 10 v (lt_of_lt_of_le hv (by norm_num))

/-- What `ym_writeU32` stores and returns. -/
theorem ym_writeU32_eq (v : Nat) (hv : v < 2 ^ 32) :
    ym_writeU32 v = (minimal_decimal v ++ [0], (minimal_decimal v).length) := by
  unfold ym_writeU32 minimal_decimal
  by_cases h0 : v = 0
  · simp [h0]
  · simp only [if_neg h0]
    have hd := ym_writeU32_digits_eq 10 v [0] (lt_of_lt_of_le hv (by norm_num))
    have hc := ym_writeU32_copy_eq ((Nat.digits 10 v).reverse.map (· + 48)) [] (by
      intro d hd
      simp only [List.mem_map, List.mem_reverse] at hd
      obtain ⟨a, _, rfl⟩ := hd
      omega)
    rw [hd, hc]

theorem ym_readU32_digits_eq (ds : List Nat) (tail : List Nat) (res : Nat)
    (h : ∀ d ∈ ds, d < 10) :
    ym_readU32_digits (res % 2 ^ 32) (ds.map (· + 48) ++ 0 :: tail) =
      (ds.foldl (fun r d => r * 10 + d) res) % 2 ^ 32 := by
  induction ds generalizing res with
  | nil => simp [ym_readU32_digits]
  | cons d ds ih =>
    have hd : d < 10 := h d (List.mem_cons_self d ds)
    have hc : 48 ≤ d + 48 ∧ d + 48 ≤ 57 := by omega
    have e : (res % 2 ^ 32 * 10 % 2 ^ 32 + (d + 48 - 48)) % 2 ^ 32 = (res * 10 + d) % 2 ^ 32 := by
      omega
    rw [List.map_cons, List.cons_append, ym_readU32_digits, if_pos hc, e,
      ih _ (fun x hx => h x (List.mem_cons_of_mem d hx))]
    rfl

theorem foldr_digits (l : List Nat) :
    l.foldr (fun d r => r * 10 + d) 0 = Nat.ofDigits 10 l := by
  induction l with
  | nil => rfl
  | cons d ds ih =>
    rw [List.foldr_cons, ih, Nat.ofDigits_cons]
    ring

theorem ym_readU32_spaces_cons (c : Nat) (s : List Nat) (h : c ≠ 32) :
    ym_readU32_spaces (c :: s) = c :: s := by
  rw [ym_readU32_spaces, if_neg h]

/-- The value that `ym_readU32` reads from a minimal decimal representation that a NUL
follows. -/
theorem ym_readU32_minimal_decimal (v : Nat) (tail : List Nat) (hv : v < 2 ^ 32) :
    ym_readU32 (minimal_decimal v ++ 0 :: tail) = v := by
  unfold ym_readU32 minimal_decimal
  by_cases h0 : v = 0
  · subst h0
    simp [ym_readU32_spaces, ym_readU32_digits]
  · simp only [if_neg h0]
    have hne : Nat.digits 10 v ≠ [] := Nat.digits_ne_nil_iff_ne_zero.mpr h0
    have hsp : ym_readU32_spaces ((Nat.digits 10 v).reverse.map (· + 48) ++ 0 :: tail)
        = (Nat.digits 10 v).reverse.map (· + 48) ++ 0 :: tail := by
      cases hr : (Nat.digits 10 v).reverse with
      | nil => simp at hr; exact absurd hr hne
      | cons d ds =>
        have hd : d < 10 := by
          have : d ∈ Nat.digits 10 v := by
            rw [← List.mem_reverse, hr]; exact List.mem_cons_self d ds
          exact Nat.digits_lt_base (by norm_num) this
        rw [List.map_cons, List.cons_append, ym_readU32_spaces_cons _ _ (by omega)]
    rw [hsp]
    have := ym_readU32_digits_eq (Nat.digits 10 v).reverse tail 0 (by
      intro d hd
      rw [List.mem_reverse] at hd
      exact Nat.digits_lt_base (by norm_num) hd)
    rw [Nat.zero_mod] at this
    rw [this, List.foldl_reverse, foldr_digits, Nat.ofDigits_digits, Nat.mod_eq_of_lt hv]

/-! ## Block 0 -/

theorem to_u32_to_i32 (n : Nat) (h : n < 2 ^ 32) : to_u32 (to_i32 n) = n := by
  unfold to_u32 to_i32
  rw [Nat.mod_eq_of_lt h]
  split <;> omega

theorem to_i32_of_lt (n : Nat) (h : n < 2 ^ 31) : to_i32 n = (n : Int) := by
  unfold to_i32
  have : n % 2 ^ 32 = n := Nat.mod_eq_of_lt (by omega)
  rw [this, if_pos h]

theorem to_i32_le (n : Nat) : to_i32 n ≤ (n : Int) := by
  unfold to_i32
  have : n % 2 ^ 32 ≤ n := Nat.mod_le _ _
  split <;> omega

theorem ym_send_packet0_name_eq (n : Nat) (name : List Nat) (hnz : ∀ c ∈ name, c ≠ 0)
    (hlen : name.length ≤ n) : ym_send_packet0_name n name = name := by
  induction name generalizing n with
  | nil => cases n <;> rfl
  | cons c cs ih =>
    cases n with
    | zero => simp at hlen
    | succ n =>
      rw [ym_send_packet0_name, if_pos (hnz c (List.mem_cons_self c cs)),
        ih n (fun x hx => hnz x (List.mem_cons_of_mem c hx)) (by simpa using hlen)]

/-- The block that `ym_send_packet0` builds for a filename that fits and a size: the
filename, a NUL, the decimal digits of the size, and NULs up to 128 bytes. -/
theorem ym_send_packet0_block_eq (name : List Nat) (size : Nat)
    (hnz : ∀ c ∈ name, c ≠ 0) (hlen : name.length ≤ 110) (hsize : size < 2 ^ 32) :
    ym_send_packet0_block (some name) (to_i32 size) =
      name ++ 0 :: (minimal_decimal size ++
        List.replicate (127 - name.length - (minimal_decimal size).length) 0) := by
  unfold ym_send_packet0_block
  have hn : ym_send_packet0_name (PACKET_SIZE - FILE_SIZE_LENGTH - 2) name = name :=
    ym_send_packet0_name_eq _ name hnz (by show _ ≤ 128 - 16 - 2; omega)
  simp only [hn, to_u32_to_i32 size hsize, ym_writeU32_eq size hsize]
  have h1 : mem_write_at (name.length + 1) (minimal_decimal size ++ [0]) (name ++ [0])
      = name ++ [0] ++ minimal_decimal size ++ [0] := by
    unfold mem_write_at
    rw [List.take_of_length_le (by simp), List.drop_of_length_le (by simp)]
    simp
  rw [h1]
  unfold mem_write_at
  have h2 : (name ++ [0] ++ minimal_decimal size ++ [0]).take
      (name.length + 1 + (minimal_decimal size).length) = name ++ [0] ++ minimal_decimal size := by
    rw [List.take_left' (by simp; omega)]
  have hdl := minimal_decimal_length size hsize
  rw [h2, List.drop_of_length_le (by
    rw [List.length_replicate]
    show _ ≤ _ + (128 - _)
    simp; omega)]
  have h3 : PACKET_SIZE - (name.length + 1 + (minimal_decimal size).length)
      = 127 - name.length - (minimal_decimal size).length := by
    show 128 - _ = _
    omega
  rw [h3]
  simp

theorem fymodem_receive_filename_eq (n : Nat) (name tail : List Nat)
    (hnz : ∀ c ∈ name, c ≠ 0) (hlen : name.length ≤ n) :
    fymodem_receive_filename n (name ++ 0 :: tail) = name := by
  induction name generalizing n with
  | nil => cases n <;> simp [fymodem_receive_filename]
  | cons c cs ih =>
    cases n with
    | zero => simp at hlen
    | succ n =>
      rw [List.cons_append, fymodem_receive_filename, if_pos (hnz c (List.mem_cons_self c cs)),
        ih n (fun x hx => hnz x (List.mem_cons_of_mem c hx)) (by simpa using hlen)]

theorem fymodem_receive_filesize_zeros (n k : Nat) (tail : List Nat) (h : n ≤ k) :
    fymodem_receive_filesize n (List.replicate k 0 ++ tail) = List.replicate n 0 := by
  induction n generalizing k with
  | zero => simp [fymodem_receive_filesize]
  | succ n ih =>
    cases k with
    | zero => omega
    | succ k =>
      rw [List.replicate_succ, List.cons_append, fymodem_receive_filesize,
        if_pos (by decide), ih k (by omega), List.replicate_succ]

theorem fymodem_receive_filesize_eq (n k : Nat) (ds tail : List Nat)
    (hns : ∀ c ∈ ds, c ≠ 32) (hlen : ds.length ≤ n) (hk : n - ds.length ≤ k) :
    fymodem_receive_filesize n (ds ++ (List.replicate k 0 ++ tail)) =
      ds ++ List.replicate (n - ds.length) 0 := by
  induction ds generalizing n with
  | nil => simpa using fymodem_receive_filesize_zeros n k tail (by simpa using hk)
  | cons c cs ih =>
    cases n with
    | zero => simp at hlen
    | succ n =>
      rw [List.cons_append, fymodem_receive_filesize, if_pos (hns c (List.mem_cons_self c cs)),
        ih n (fun x hx => hns x (List.mem_cons_of_mem c hx)) (by simpa using hlen)
          (by simpa using hk)]
      simp

theorem minimal_decimal_ne_space (v : Nat) : ∀ d ∈ minimal_decimal v, d ≠ 32 := by
  intro d hd
  unfold minimal_decimal at hd
  split at hd
  · simp at hd; omega
  · simp only [List.mem_map, List.mem_reverse] at hd
    obtain ⟨a, _, rfl⟩ := hd
    omega

theorem minimal_decimal_cons (v : Nat) :
    ∃ d ds, minimal_decimal v = d :: ds ∧ d ≠ 0 := by
  cases h : minimal_decimal v with
  | nil =>
    exfalso
    unfold minimal_decimal at h
    split at h
    · simp at h
    · rename_i h0
      simp at h
      exact Nat.digits_ne_nil_iff_ne_zero.mpr h0 h
  | cons d ds =>
    exact ⟨d, ds, rfl, minimal_decimal_ne_zero v d (by rw [h]; exact List.mem_cons_self d ds)⟩

/-- The block 0 code of `fymodem_receive` on the block that `ym_send_packet0` builds, for
a filename that is shorter than 111 bytes and than `FYMODEM_FILE_NAME_MAX_LENGTH + 1`. -/
theorem fymodem_receive_block0_eq (fmax : Nat) (h0 h1 h2 : Nat) (name : List Nat) (size : Nat)
    (tail filename filesize_asc : List Nat)
    (hnz : ∀ c ∈ name, c ≠ 0) (hlen : name.length ≤ 110) (hmax : name.length ≤ fmax)
    (hsize : size < 2 ^ 32) :
    fymodem_receive_block0 fmax
        (h0 :: h1 :: h2 :: (ym_send_packet0_block (some name) (to_i32 size) ++ tail))
        filename filesize_asc =
      some (mem_write (name ++ [0]) filename,
        mem_write (minimal_decimal size ++
          List.replicate (FILE_SIZE_LENGTH - (minimal_decimal size).length) 0 ++ [0]) filesize_asc,
        size) := by
  have hdl := minimal_decimal_length size hsize
  rw [ym_send_packet0_block_eq name size hnz hlen hsize]
  have hhas : fymodem_receive_has_data (h0 :: h1 :: h2 :: (name ++ 0 :: (minimal_decimal size ++
      List.replicate (127 - name.length - (minimal_decimal size).length) 0) ++ tail)) = true := by
    unfold fymodem_receive_has_data
    cases name with
    | nil =>
      obtain ⟨d, ds, hd, hd0⟩ := minimal_decimal_cons size
      rw [hd]
      simp [hd0]
    | cons c cs =>
      have := hnz c (List.mem_cons_self c cs)
      simp [this]
  unfold fymodem_receive_block0
  rw [if_pos hhas]
  have hdrop : List.drop PACKET_HEADER (h0 :: h1 :: h2 :: (name ++ 0 :: (minimal_decimal size ++
      List.replicate (127 - name.length - (minimal_decimal size).length) 0) ++ tail))
      = name ++ 0 :: (minimal_decimal size ++
      List.replicate (127 - name.length - (minimal_decimal size).length) 0 ++ tail) := by
    simp
  simp only [hdrop, fymodem_receive_filename_eq fmax name _ hnz hmax]
  have hdrop2 : List.drop (PACKET_HEADER + name.length + 1)
      (h0 :: h1 :: h2 :: (name ++ 0 :: (minimal_decimal size ++
      List.replicate (127 - name.length - (minimal_decimal size).length) 0) ++ tail))
      = minimal_decimal size ++
      (List.replicate (127 - name.length - (minimal_decimal size).length) 0 ++ tail) := by
    have e : PACKET_HEADER + name.length + 1 = (h0 :: h1 :: h2 :: (name ++ [0])).length := by
      show 3 + name.length + 1 = _
      simp; omega
    have e2 : (h0 :: h1 :: h2 :: (name ++ 0 :: (minimal_decimal size ++
      List.replicate (127 - name.length - (minimal_decimal size).length) 0) ++ tail))
      = (h0 :: h1 :: h2 :: (name ++ [0])) ++ (minimal_decimal size ++
      (List.replicate (127 - name.length - (minimal_decimal size).length) 0 ++ tail)) := by
      simp
    rw [e, e2, List.drop_left]
  rw [hdrop2, fymodem_receive_filesize_eq FILE_SIZE_LENGTH _ (minimal_decimal size) tail
    (minimal_decimal_ne_space size) (by show _ ≤ 16; omega) (by show 16 - _ ≤ _; omega)]
  have hread : ym_readU32 (mem_write (minimal_decimal size ++
      List.replicate (FILE_SIZE_LENGTH - (minimal_decimal size).length) 0 ++ [0]) filesize_asc)
      = size := by
    obtain ⟨k, hk⟩ : ∃ k, FILE_SIZE_LENGTH - (minimal_decimal size).length = k + 1 :=
      ⟨16 - (minimal_decimal size).length - 1, by show 16 - _ = _; omega⟩
    rw [hk]
    unfold mem_write
    rw [List.replicate_succ]
    simp only [List.append_assoc, List.cons_append]
    exact ym_readU32_minimal_decimal size _ hsize
  rw [hread]

/-! ## Rounds of the receiver -/

theorem and_0xff (x : Nat) : x &&& 0xff = x % 256 := by
  have e : (0xff : Nat) = 2 ^ 8 - 1 := by norm_num
  rw [e, Nat.and_pow_two_sub_one_eq_mod]

theorem frame_eq_cons (seq : Nat) (data : List Nat) :
    frame seq data = (if data.length = PACKET_SIZE then SOH else STX) :: (seq % 256) ::
      (255 - seq % 256) :: data ++ [(ym_crc16 data data.length >>> 8) &&& 0xFF,
        ym_crc16 data data.length &&& 0xFF] := rfl

/-- The outcome of `ym_rx_packet` on a valid packet. -/
theorem ym_rx_packet_frame_ok (rxdata : List Nat) (packets_rxed seq : Nat) (data : List Nat)
    (rest : List Int) (hdata : ∀ b ∈ data, b < 256)
    (hlen : data.length = PACKET_SIZE ∨ data.length = PACKET_1K_SIZE) :
    ym_rx_packet rxdata packets_rxed (wire (frame seq data) ++ rest) =
      some ⟨0, data.length, mem_write (frame seq data) rxdata, rest⟩ := by
  have hlead : (if data.length = PACKET_SIZE then SOH else STX) = SOH ∧ data.length = PACKET_SIZE ∨
      (if data.length = PACKET_SIZE then SOH else STX) = STX ∧ data.length = PACKET_1K_SIZE := by
    rcases hlen with h | h
    · left; exact ⟨by rw [if_pos h], h⟩
    · right; exact ⟨by rw [if_neg (by rw [h]; decide)], h⟩
  have hs : seq % 256 < 256 := Nat.mod_lt _ (by norm_num)
  have h := ym_rx_packet_wire rxdata packets_rxed (if data.length = PACKET_SIZE then SOH else STX)
    (seq % 256) (255 - seq % 256) data
    ((ym_crc16 data data.length >>> 8) &&& 0xFF) (ym_crc16 data data.length &&& 0xFF) rest
    hlead hs (by omega) hdata (crc_high_lt _) (crc_low_lt _)
  have hseq : ¬ (((seq % 256) &&& 0xff) ≠ (((255 - seq % 256) ^^^ 0xff) &&& 0xff)) := by
    rw [not_not]
    exact seq_complement _ hs
  rw [if_neg hseq, if_pos (crc_high_low _ (ym_crc16_lt _ _)).symm] at h
  rw [frame_eq_cons]
  exact h

theorem ym_send_packet_zero_eq_frame (data : List Nat) (hlen : data.length = PACKET_SIZE) :
    ym_send_packet data 0 = frame 0 data := by
  rw [ym_send_packet_bytes data 0 (by simpa using hlen), frame, if_pos hlen]
  rfl

theorem ym_send_packet0_block_length (name : List Nat) (size : Nat)
    (hnz : ∀ c ∈ name, c ≠ 0) (hlen : name.length ≤ 110) (hsize : size < 2 ^ 32) :
    (ym_send_packet0_block (some name) (to_i32 size)).length = PACKET_SIZE := by
  rw [ym_send_packet0_block_eq name size hnz hlen hsize]
  have := minimal_decimal_length size hsize
  simp only [List.length_append, List.length_cons, List.length_replicate]
  show _ = 128
  omega

theorem ym_send_packet0_none (filesize : Int) :
    ym_send_packet0_block none filesize = List.replicate PACKET_SIZE 0 := by
  simp [ym_send_packet0_block, mem_write_at]

theorem ym_send_packet0_eq_frame (name : List Nat) (size : Nat)
    (hnz : ∀ c ∈ name, c ≠ 0) (hlen : name.length ≤ 110) (hsize : size < 2 ^ 32) :
    ym_send_packet0 (some name) (to_i32 size) =
      frame 0 (ym_send_packet0_block (some name) (to_i32 size)) :=
  ym_send_packet_zero_eq_frame _ (ym_send_packet0_block_length name size hnz hlen hsize)

theorem ym_send_packet0_none_eq_frame :
    ym_send_packet0 none 0 = frame 0 (List.replicate PACKET_SIZE 0) := by
  unfold ym_send_packet0
  rw [ym_send_packet0_none]
  exact ym_send_packet_zero_eq_frame _ (List.length_replicate _ _)

/-- The block that `ym_send_packet0` builds for a filename that fits is a file header
block, the digits of the size being ended by a NUL. -/
theorem ym_send_packet0_block_eq_header_block (name : List Nat) (size : Nat)
    (hnz : ∀ c ∈ name, c ≠ 0) (hlen : name.length ≤ 110) (hsize : size < 2 ^ 32) :
    ym_send_packet0_block (some name) (to_i32 size) =
      header_block name size 0
        (List.replicate (126 - name.length - (minimal_decimal size).length) 0) := by
  rw [ym_send_packet0_block_eq name size hnz hlen hsize]
  have := minimal_decimal_length size hsize
  obtain ⟨k, hk⟩ : ∃ k, 127 - name.length - (minimal_decimal size).length = k + 1 :=
    ⟨126 - name.length - (minimal_decimal size).length, by omega⟩
  have hk2 : 126 - name.length - (minimal_decimal size).length = k := by omega
  rw [hk, hk2, List.replicate_succ]
  rfl

theorem fymodem_receive_filesize_term (n : Nat) (ds : List Nat) (term : Nat) (tl : List Nat)
    (hns : ∀ c ∈ ds, c ≠ 32) (hlen : ds.length < n) (hterm : term = 0 ∨ term = 32) :
    fymodem_receive_filesize n (ds ++ term :: tl) = ds ∨
      ∃ more, fymodem_receive_filesize n (ds ++ term :: tl) = ds ++ 0 :: more := by
  induction ds generalizing n with
  | nil =>
    cases n with
    | zero => simp at hlen
    | succ n =>
      rcases hterm with h | h
      · right
        subst h
        exact ⟨fymodem_receive_filesize n tl, by simp [fymodem_receive_filesize]⟩
      · left
        subst h
        simp [fymodem_receive_filesize]
  | cons c cs ih =>
    cases n with
    | zero => simp at hlen
    | succ n =>
      have hc := hns c (List.mem_cons_self c cs)
      rcases ih n (fun x hx => hns x (List.mem_cons_of_mem c hx)) (by simpa using hlen) with h | h
      · left
        rw [List.cons_append, fymodem_receive_filesize, if_pos hc, h]
      · right
        obtain ⟨more, h⟩ := h
        exact ⟨more, by rw [List.cons_append, fymodem_receive_filesize, if_pos hc, h]; rfl⟩

/-- The block 0 code of `fymodem_receive` on a file header block whose filename is not
longer than `FYMODEM_FILE_NAME_MAX_LENGTH`: it stores the filename and reads the size. -/
theorem fymodem_receive_block0_header_block (fmax : Nat) (h0 h1 h2 : Nat) (name : List Nat)
    (size term : Nat) (tail tail2 filename filesize_asc : List Nat)
    (hnz : ∀ c ∈ name, c ≠ 0) (hmax : name.length ≤ fmax) (hsize : size < 2 ^ 32)
    (hterm : term = 0 ∨ term = 32) :
    ∃ asc : List Nat,
      fymodem_receive_block0 fmax (h0 :: h1 :: h2 :: (header_block name size term tail ++ tail2))
          filename filesize_asc =
        some (mem_write (name ++ [0]) filename, asc, size) := by
  have hdl := minimal_decimal_length size hsize
  unfold header_block
  have hhas : fymodem_receive_has_data (h0 :: h1 :: h2 :: (name ++ 0 :: (minimal_decimal size ++
      term :: tail) ++ tail2)) = true := by
    unfold fymodem_receive_has_data
    cases name with
    | nil =>
      obtain ⟨d, ds, hd, hd0⟩ := minimal_decimal_cons size
      rw [hd]
      simp [hd0]
    | cons c cs =>
      have := hnz c (List.mem_cons_self c cs)
      simp [this]
  unfold fymodem_receive_block0
  rw [if_pos hhas]
  have hdrop : List.drop PACKET_HEADER (h0 :: h1 :: h2 :: (name ++ 0 :: (minimal_decimal size ++
      term :: tail) ++ tail2))
      = name ++ 0 :: (minimal_decimal size ++ term :: (tail ++ tail2)) := by
    simp
  simp only [hdrop, fymodem_receive_filename_eq fmax name _ hnz hmax]
  have hdrop2 : List.drop (PACKET_HEADER + name.length + 1)
      (h0 :: h1 :: h2 :: (name ++ 0 :: (minimal_decimal size ++ term :: tail) ++ tail2))
      = minimal_decimal size ++ term :: (tail ++ tail2) := by
    have e : PACKET_HEADER + name.length + 1 = (h0 :: h1 :: h2 :: (name ++ [0])).length := by
      show 3 + name.length + 1 = _
      simp; omega
    have e2 : (h0 :: h1 :: h2 :: (name ++ 0 :: (minimal_decimal size ++ term :: tail) ++ tail2))
      = (h0 :: h1 :: h2 :: (name ++ [0])) ++ (minimal_decimal size ++ term :: (tail ++ tail2)) := by
      simp
    rw [e, e2, List.drop_left]
  rw [hdrop2]
  rcases fymodem_receive_filesize_term FILE_SIZE_LENGTH (minimal_decimal size) term
    (tail ++ tail2) (minimal_decimal_ne_space size) (by show _ < 16; omega) hterm with h | ⟨more, h⟩
  · rw [h]
    refine ⟨mem_write (minimal_decimal size ++ [0]) filesize_asc, ?_⟩
    have : ym_readU32 (mem_write (minimal_decimal size ++ [0]) filesize_asc) = size := by
      unfold mem_write
      simp only [List.append_assoc, List.cons_append, List.nil_append]
      exact ym_readU32_minimal_decimal size _ hsize
    rw [this]
  · rw [h]
    refine ⟨mem_write (minimal_decimal size ++ 0 :: more ++ [0]) filesize_asc, ?_⟩
    have : ym_readU32 (mem_write (minimal_decimal size ++ 0 :: more ++ [0]) filesize_asc)
        = size := by
      unfold mem_write
      simp only [List.append_assoc, List.cons_append, List.nil_append]
      exact ym_readU32_minimal_decimal size _ hsize
    rw [this]

/-- A round of the loop "receive packets" that reads a file header block 0: when the
declared size is above `rxlen` the receiver emits `CAN CAN` and returns 0, else it emits
`ACK` and `CRC` or `NAK` and goes on with `packets_rxed = 1`.  Nothing is stored into the
caller's buffer. -/
theorem fymodem_receive_packet_header (fmax rxlen : Nat) (s : RxState) (name : List Nat)
    (size term : Nat) (tail : List Nat) (rest : List Int)
    (hnz : ∀ c ∈ name, c ≠ 0) (hmax : name.length ≤ fmax) (hsize : size < 2 ^ 32)
    (hterm : term = 0 ∨ term = 32)
    (hb : ∀ b ∈ header_block name size term tail, b < 256)
    (hlen : (header_block name size term tail).length = PACKET_SIZE)
    (hp : s.packets_rxed = 0)
    (hin : s.input = wire (frame 0 (header_block name size term tail)) ++ rest) :
    ∃ t : RxState,
      fymodem_receive_packet fmax rxlen s =
        some (if size > rxlen then .ret t 0 else .next t) ∧
      t.input = rest ∧
      t.output = s.output ++
        (if size > rxlen then [CAN, CAN] else [ACK, if s.crc_nak then CRC else NAK]) ∧
      t.packets_rxed = (if size > rxlen then 0 else 1) ∧
      t.rxdata = s.rxdata ∧ t.rxptr = s.rxptr ∧
      t.filename = mem_write (name ++ [0]) s.filename ∧ t.filesize = size := by
  have hrx := ym_rx_packet_frame_ok s.rx_packet_data s.packets_rxed 0
    (header_block name size term tail) rest hb (Or.inl hlen)
  have hbuf : mem_write (frame 0 (header_block name size term tail)) s.rx_packet_data
      = SOH :: 0 :: 255 :: (header_block name size term tail ++
        ([(ym_crc16 (header_block name size term tail)
            (header_block name size term tail).length >>> 8) &&& 0xFF,
          ym_crc16 (header_block name size term tail)
            (header_block name size term tail).length &&& 0xFF] ++
          s.rx_packet_data.drop (frame 0 (header_block name size term tail)).length)) := by
    unfold mem_write
    rw [frame_eq_cons, if_pos hlen]
    simp
  obtain ⟨asc, hparse⟩ := fymodem_receive_block0_header_block fmax SOH 0 255 name size term tail
    ([(ym_crc16 (header_block name size term tail)
            (header_block name size term tail).length >>> 8) &&& 0xFF,
          ym_crc16 (header_block name size term tail)
            (header_block name size term tail).length &&& 0xFF] ++
          s.rx_packet_data.drop (frame 0 (header_block name size term tail)).length)
    s.filename s.filesize_asc hnz hmax hsize hterm
  rw [← hbuf] at hparse
  have hseq : (mem_write (frame 0 (header_block name size term tail))
      s.rx_packet_data).getD PACKET_SEQNO_INDEX 0 = 0 := by
    rw [hbuf]; rfl
  unfold fymodem_receive_packet
  rw [hin, hrx]
  simp only [hlen, hseq, hp, hparse]
  by_cases hgt : size > rxlen
  · simp only [hgt, if_true]
    refine ⟨{ s with input := rest
                     rx_packet_data :=
                       mem_write (frame 0 (header_block name size term tail)) s.rx_packet_data
                     nbr_errors := 0
                     filename := mem_write (name ++ [0]) s.filename
                     filesize_asc := asc
                     filesize := size
                     output := s.output ++ [CAN, CAN] }, ?_, rfl, rfl, hp, rfl, rfl, rfl, rfl⟩
    simp [RxState.putchar, hp]
  · simp only [hgt, if_false]
    refine ⟨{ s with input := rest
                     rx_packet_data :=
                       mem_write (frame 0 (header_block name size term tail)) s.rx_packet_data
                     nbr_errors := 0
                     filename := mem_write (name ++ [0]) s.filename
                     filesize_asc := asc
                     filesize := size
                     output := s.output ++ [ACK, if s.crc_nak then CRC else NAK]
                     crc_nak := false
                     packets_rxed := 1 }, ?_, rfl, rfl, rfl, rfl, rfl, rfl, rfl⟩
    simp [RxState.putchar, hp]

theorem frame_length (seq : Nat) (data : List Nat) :
    (frame seq data).length = data.length + PACKET_OVERHEAD := by
  simp [frame, PACKET_OVERHEAD, PACKET_HEADER, PACKET_TRAILER]

theorem mem_write_frame_getD_one (seq : Nat) (data old : List Nat) :
    (mem_write (frame seq data) old).getD PACKET_SEQNO_INDEX 0 = seq % 256 := by
  rw [frame_eq_cons]; simp [mem_write]

theorem mem_write_frame_drop_take (seq : Nat) (data old : List Nat) :
    ((mem_write (frame seq data) old).drop PACKET_HEADER).take data.length = data := by
  rw [frame_eq_cons]; simp [mem_write]

theorem mem_write_at_length (old new : List Nat) :
    mem_write_at old.length new old = old ++ new := by
  simp [mem_write_at]

/-- A round of the loop "receive packets" that reads the valid data packet awaited: when
the packet does not fit, the receiver emits `CAN CAN` and returns 0 and stores nothing,
else it stores the data at the cursor, advances the cursor and emits `ACK`. -/
theorem fymodem_receive_packet_data (fmax rxlen : Nat) (s : RxState) (data : List Nat)
    (rest : List Int) (hdata : ∀ b ∈ data, b < 256)
    (hlen : data.length = PACKET_SIZE ∨ data.length = PACKET_1K_SIZE)
    (hp : s.packets_rxed ≠ 0)
    (hin : s.input = wire (frame s.packets_rxed data) ++ rest) :
    fymodem_receive_packet fmax rxlen s =
      some (if (s.rxptr : Int) + (data.length : Int) > to_i32 rxlen then
          .ret { s with input := rest
                        rx_packet_data := mem_write (frame s.packets_rxed data) s.rx_packet_data
                        nbr_errors := 0
                        output := s.output ++ [CAN, CAN] } 0
        else
          .next { s with input := rest
                         rx_packet_data := mem_write (frame s.packets_rxed data) s.rx_packet_data
                         nbr_errors := 0
                         rxdata := mem_write_at s.rxptr data s.rxdata
                         rxptr := s.rxptr + data.length
                         output := s.output ++ [ACK]
                         packets_rxed := (s.packets_rxed + 1) % 2 ^ 32 }) := by
  have hrx := ym_rx_packet_frame_ok s.rx_packet_data s.packets_rxed s.packets_rxed data rest
    hdata hlen
  have hl0 : (data.length : Int) ≠ 0 := by
    rcases hlen with h | h <;> rw [h] <;> decide
  have hl1 : (data.length : Int) ≠ -1 := by omega
  unfold fymodem_receive_packet
  rw [hin, hrx]
  simp only [mem_write_frame_getD_one, and_0xff, Nat.mod_mod, hl0, hl1, hp, if_false, if_true,
    ne_eq, not_true_eq_false, Int.toNat_ofNat, mem_write_frame_drop_take]
  by_cases hgt : (s.rxptr : Int) + (data.length : Int) > to_i32 rxlen
  · simp [hgt, RxState.putchar]
  · simp [hgt, RxState.putchar]

/-- A round of the loop "receive packets" that reads `EOT`. -/
theorem fymodem_receive_packet_eot (fmax rxlen : Nat) (s : RxState) (rest : List Int)
    (hin : s.input = Int.ofNat EOT :: rest) :
    fymodem_receive_packet fmax rxlen s =
      some (.file_done { s with input := rest, nbr_errors := 0, output := s.output ++ [ACK] }
        false) := by
  unfold fymodem_receive_packet
  rw [hin]
  simp [ym_rx_packet, RxState.putchar]

theorem fymodem_receive_block0_zeros (fmax : Nat) (h0 h1 h2 : Nat)
    (tail filename filesize_asc : List Nat) :
    fymodem_receive_block0 fmax (h0 :: h1 :: h2 :: (List.replicate PACKET_SIZE 0 ++ tail))
      filename filesize_asc = none := by
  unfold fymodem_receive_block0
  have : fymodem_receive_has_data (h0 :: h1 :: h2 :: (List.replicate PACKET_SIZE 0 ++ tail))
      = false := by
    rfl
  rw [this]
  rfl

/-- A round of the loop "receive packets" that reads, as the first packet of a file, an
all-zero block 0. -/
theorem fymodem_receive_packet_last (fmax rxlen : Nat) (s : RxState) (rest : List Int)
    (hp : s.packets_rxed = 0)
    (hin : s.input = wire (frame 0 (List.replicate PACKET_SIZE 0)) ++ rest) :
    fymodem_receive_packet fmax rxlen s =
      some (.file_done { s with input := rest
                                rx_packet_data :=
                                  mem_write (frame 0 (List.replicate PACKET_SIZE 0))
                                    s.rx_packet_data
                                nbr_errors := 0
                                output := s.output ++ [ACK] } true) := by
  have hbl : (List.replicate PACKET_SIZE 0).length = PACKET_SIZE := List.length_replicate _ _
  have hrx := ym_rx_packet_frame_ok s.rx_packet_data s.packets_rxed 0
    (List.replicate PACKET_SIZE 0) rest
    (fun b hb => by rw [List.eq_of_mem_replicate hb]; decide) (Or.inl hbl)
  have hbuf : ∃ tail, mem_write (frame 0 (List.replicate PACKET_SIZE 0)) s.rx_packet_data
      = SOH :: 0 :: 255 :: (List.replicate PACKET_SIZE 0 ++ tail) := by
    refine ⟨[(ym_crc16 (List.replicate PACKET_SIZE 0)
        (List.replicate PACKET_SIZE 0).length >>> 8) &&& 0xFF,
      ym_crc16 (List.replicate PACKET_SIZE 0) (List.replicate PACKET_SIZE 0).length &&& 0xFF] ++
      s.rx_packet_data.drop (frame 0 (List.replicate PACKET_SIZE 0)).length, ?_⟩
    unfold mem_write
    rw [frame_eq_cons, if_pos hbl]
    simp only [List.cons_append, List.append_assoc]
  obtain ⟨tail, hbuf⟩ := hbuf
  have hparse := fymodem_receive_block0_zeros fmax SOH 0 255 tail s.filename s.filesize_asc
  rw [← hbuf] at hparse
  unfold fymodem_receive_packet
  rw [hin, hrx]
  have hseq : (mem_write (frame 0 (List.replicate PACKET_SIZE 0)) s.rx_packet_data).getD
      PACKET_SEQNO_INDEX 0 = 0 := by
    rw [hbuf]; rfl
  simp only [hbl, hseq, hp, hparse]
  simp [RxState.putchar]

/-! ## Runs of the receiver -/

theorem frames_length_ge (seq : Nat) (ds : List (List Nat)) :
    ds.length ≤ (frames seq ds).length := by
  induction ds generalizing seq with
  | nil => simp
  | cons d ds ih =>
    have := ih (seq + 1)
    rw [frames, List.length_append, frame_length, List.length_cons]
    show _ ≤ d.length + 5 + _
    omega

/-- The rounds of the loop "receive packets" that read the valid data packets awaited,
all of which fit: each is stored at the cursor and answered with one `ACK`. -/
theorem fymodem_receive_loop_data (fmax rxlen : Nat) (hcap : rxlen < 2 ^ 31)
    (ds : List (List Nat)) :
    ∀ (s : RxState) (fuel : Nat) (rest : List Int),
      (∀ d ∈ ds, (∀ b ∈ d, b < 256) ∧ (d.length = PACKET_SIZE ∨ d.length = PACKET_1K_SIZE)) →
      s.packets_rxed ≠ 0 → s.packets_rxed + ds.length < 2 ^ 32 →
      s.rxdata.length = s.rxptr → s.rxptr + ds.flatten.length ≤ rxlen →
      s.input = wire (frames s.packets_rxed ds) ++ rest →
      ∃ t : RxState,
        fymodem_receive_loop fmax rxlen (fuel + ds.length) s =
          fymodem_receive_loop fmax rxlen fuel t ∧
        t.input = rest ∧ t.output = s.output ++ List.replicate ds.length ACK ∧
        t.rxdata = s.rxdata ++ ds.flatten ∧ t.filename = s.filename ∧
        t.filesize = s.filesize := by
  induction ds with
  | nil =>
    intro s fuel rest _ _ _ _ _ hin
    exact ⟨s, rfl, by simpa [frames, wire] using hin, by simp, by simp, rfl, rfl⟩
  | cons d ds ih =>
    intro s fuel rest hds hp hwrap hptr hfit hin
    have hd := hds d (List.mem_cons_self d ds)
    have hin2 : s.input = wire (frame s.packets_rxed d) ++
        (wire (frames (s.packets_rxed + 1) ds) ++ rest) := by
      rw [hin, frames, wire_append, List.append_assoc]
    have hstep := fymodem_receive_packet_data fmax rxlen s d _ hd.1 hd.2 hp hin2
    have hflat : (d :: ds).flatten.length = d.length + ds.flatten.length := by
      simp
    rw [hflat] at hfit
    have hno : ¬ ((s.rxptr : Int) + (d.length : Int) > to_i32 rxlen) := by
      rw [to_i32_of_lt rxlen hcap]; omega
    rw [if_neg hno] at hstep
    have hmod : (s.packets_rxed + 1) % 2 ^ 32 = s.packets_rxed + 1 :=
      Nat.mod_eq_of_lt (by simp only [List.length_cons] at hwrap; omega)
    rw [hmod] at hstep
    obtain ⟨t, ht, h1, h2, h3, h4, h5⟩ := ih
      { s with input := wire (frames (s.packets_rxed + 1) ds) ++ rest
               rx_packet_data := mem_write (frame s.packets_rxed d) s.rx_packet_data
               nbr_errors := 0
               rxdata := mem_write_at s.rxptr d s.rxdata
               rxptr := s.rxptr + d.length
               output := s.output ++ [ACK]
               packets_rxed := s.packets_rxed + 1 } fuel rest
      (fun x hx => hds x (List.mem_cons_of_mem d hx))
      (show s.packets_rxed + 1 ≠ 0 by omega)
      (show s.packets_rxed + 1 + ds.length < 2 ^ 32 by
        simp only [List.length_cons] at hwrap; omega)
      (show (mem_write_at s.rxptr d s.rxdata).length = s.rxptr + d.length by
        rw [← hptr, mem_write_at_length, List.length_append])
      (show s.rxptr + d.length + ds.flatten.length ≤ rxlen by omega)
      rfl
    refine ⟨t, ?_, h1, ?_, ?_, h4, h5⟩
    · rw [List.length_cons, ← Nat.add_assoc, fymodem_receive_loop, hstep]
      exact ht
    · rw [h2, List.length_cons, List.replicate_succ]
      simp
    · rw [h3, ← hptr, mem_write_at_length]
      simp

theorem flatten_length_ge (ds : List (List Nat))
    (h : ∀ d ∈ ds, d.length = PACKET_SIZE ∨ d.length = PACKET_1K_SIZE) :
    ds.length ≤ ds.flatten.length := by
  induction ds with
  | nil => simp
  | cons d ds ih =>
    have h1 := h d (List.mem_cons_self d ds)
    have h2 := ih (fun x hx => h x (List.mem_cons_of_mem d hx))
    have h3 : 1 ≤ d.length := by
      rcases h1 with h1 | h1 <;> rw [h1] <;> decide
    simp only [List.flatten_cons, List.length_append, List.length_cons]
    omega

theorem session_length_ge (block0 : List Nat) (ds : List (List Nat))
    (rest : List Int) : ds.length + 2 ≤ (session block0 ds rest).length := by
  have := frames_length_ge 1 ds
  have h1 : (frame 0 block0).length = block0.length + 5 := frame_length 0 block0
  unfold session
  simp only [List.length_append, List.length_cons, wire_length]
  omega

theorem fymodem_receive_packet_eot_ok (fmax rxlen : Nat) (s : RxState) (rest : List Int)
    (hin : s.input = Int.ofNat EOT :: rest) :
    ∃ t : RxState, fymodem_receive_packet fmax rxlen s = some (.file_done t false) ∧
      t.input = rest ∧ t.output = s.output ++ [ACK] ∧ t.rxdata = s.rxdata ∧
      t.filename = s.filename ∧ t.filesize = s.filesize :=
  ⟨_, fymodem_receive_packet_eot fmax rxlen s rest hin, rfl, rfl, rfl, rfl, rfl⟩

theorem fymodem_receive_packet_last_ok (fmax rxlen : Nat) (s : RxState) (rest : List Int)
    (hp : s.packets_rxed = 0)
    (hin : s.input = wire (frame 0 (List.replicate PACKET_SIZE 0)) ++ rest) :
    ∃ t : RxState, fymodem_receive_packet fmax rxlen s = some (.file_done t true) ∧
      t.input = rest ∧ t.output = s.output ++ [ACK] ∧ t.rxdata = s.rxdata ∧
      t.filename = s.filename ∧ t.filesize = s.filesize :=
  ⟨_, fymodem_receive_packet_last fmax rxlen s rest hp hin, rfl, rfl, rfl, rfl, rfl⟩

/-- The run of `fymodem_receive` on a well-formed session, for every number of rounds
that is large enough. -/
theorem fymodem_receive_loop_session (fmax rxlen : Nat) (stack : List Nat) (name : List Nat)
    (size term : Nat) (tail : List Nat) (ds : List (List Nat)) (rest : List Int) (fuel : Nat)
    (hnz : ∀ c ∈ name, c ≠ 0) (hmax : name.length ≤ fmax)
    (hterm : term = 0 ∨ term = 32)
    (hb : ∀ b ∈ header_block name size term tail, b < 256)
    (hlen : (header_block name size term tail).length = PACKET_SIZE)
    (hds : ∀ d ∈ ds, (∀ b ∈ d, b < 256) ∧ (d.length = PACKET_SIZE ∨ d.length = PACKET_1K_SIZE))
    (hsize : size ≤ rxlen) (hfit : ds.flatten.length ≤ rxlen) (hcap : rxlen < 2 ^ 31) :
    ∃ t : RxState,
      fymodem_receive_loop fmax rxlen (fuel + 2 + ds.length + 1)
          (fymodem_receive_file_begin true
            (fymodem_receive_init stack
              (session (header_block name size term tail) ds rest))) =
        some ((size : Int), t) ∧
      t.filename = name ++ [0] ∧ t.rxdata = ds.flatten ∧
      t.output = [ACK, CRC] ++ List.replicate ds.length ACK ++ [ACK, CRC] ++ [ACK] ∧
      t.input = rest := by
  have hle : ¬ (size > rxlen) := by omega
  obtain ⟨s1, hstep1, a1, a2, a3, a4, a5, a6, a7⟩ := fymodem_receive_packet_header fmax rxlen
    (fymodem_receive_file_begin true (fymodem_receive_init stack
      (session (header_block name size term tail) ds rest)))
    name size term tail
    (wire (frames 1 ds) ++
      (Int.ofNat EOT :: (wire (frame 0 (List.replicate PACKET_SIZE 0)) ++ rest)))
    hnz hmax (by omega) hterm hb hlen rfl rfl
  rw [if_neg hle] at hstep1 a2 a3
  have hlenle := flatten_length_ge ds (fun d hd => (hds d hd).2)
  obtain ⟨s2, hrun, b1, b2, b3, b4, b5⟩ := fymodem_receive_loop_data fmax rxlen hcap ds
    s1 (fuel + 2) (Int.ofNat EOT :: (wire (frame 0 (List.replicate PACKET_SIZE 0)) ++ rest))
    hds (by rw [a3]; decide) (by rw [a3]; omega) (by rw [a4, a5]; rfl)
    (by rw [a5]; show 0 + ds.flatten.length ≤ rxlen; omega) (by rw [a1, a3])
  obtain ⟨s3, hstep3, c1, c2, c3, c4, c5⟩ := fymodem_receive_packet_eot_ok fmax rxlen s2 _ b1
  obtain ⟨s4, hstep4, d1, d2, d3, d4, d5⟩ := fymodem_receive_packet_last_ok fmax rxlen
    (fymodem_receive_file_begin false s3) rest rfl c1
  refine ⟨s4, ?_, ?_, ?_, ?_, d1⟩
  · rw [fymodem_receive_loop, hstep1]
    simp only []
    rw [hrun, fymodem_receive_loop, hstep3]
    simp only []
    rw [fymodem_receive_loop, hstep4]
    simp only []
    have : s4.filesize = size := by
      rw [d5]
      show s3.filesize = size
      rw [c5, b5, a7]
    rw [this, to_i32_of_lt size (by omega)]
  · rw [d4]
    show s3.filename = _
    rw [c4, b4, a6]
    simp [mem_write, fymodem_receive_file_begin, fymodem_receive_init]
  · rw [d3]
    show s3.rxdata = _
    rw [c3, b3, a4]
    simp [fymodem_receive_file_begin, fymodem_receive_init]
  · rw [d2]
    show (if false = true then s3 else s3.putchar CRC).output ++ [ACK] = _
    simp only [Bool.false_eq_true, if_false, RxState.putchar]
    rw [c2, b2, a2]
    simp [fymodem_receive_file_begin, fymodem_receive_init]

theorem minimal_decimal_5 : minimal_decimal 5 = [53] := by
  simp [minimal_decimal]

theorem minimal_decimal_10000 : minimal_decimal 10000 = [49, 48, 48, 48, 48] := by
  simp [minimal_decimal]

theorem header_block_lt (name : List Nat) (size term : Nat) (tail : List Nat)
    (hname : ∀ b ∈ name, b < 256) (hterm : term < 256) (htail : ∀ b ∈ tail, b < 256) :
    ∀ b ∈ header_block name size term tail, b < 256 := by
  intro b hb
  simp only [header_block, List.mem_append, List.mem_cons] at hb
  rcases hb with h | h | h | h | h
  · exact hname b h
  · omega
  · unfold minimal_decimal at h
    split at h
    · simp at h; omega
    · simp only [List.mem_map, List.mem_reverse] at h
      obtain ⟨a, ha, rfl⟩ := h
      have := Nat.digits_lt_base (show 1 < 10 by norm_num) ha
      omega
  · omega
  · exact htail b h

/-! ## The write cursor -/

theorem ym_rx_packet_read_length (n : Nat) (inp : List Int) (bs : List Nat) (rest : List Int)
    (h : ym_rx_packet_read n inp = some (bs, rest, true)) : bs.length = n := by
  induction n generalizing inp bs rest with
  | zero =>
    simp only [ym_rx_packet_read, Option.some.injEq, Prod.mk.injEq] at h
    rw [← h.1]; rfl
  | succ n ih =>
    cases inp with
    | nil => simp [ym_rx_packet_read] at h
    | cons c inp =>
      rw [ym_rx_packet_read] at h
      split at h
      · simp at h
      · cases hr : ym_rx_packet_read n inp with
        | none => rw [hr] at h; simp at h
        | some r =>
          obtain ⟨bs2, rest2, ok⟩ := r
          rw [hr] at h
          simp only [Option.some.injEq, Prod.mk.injEq] at h
          obtain ⟨h1, h2, h3⟩ := h
          subst h3
          rw [← h1, List.length_cons, ih inp bs2 rest2 hr]

theorem ym_rx_packet_frame_res (rxdata : List Nat) (c : Int) (size : Nat) (inp : List Int)
    (p : RxPacket) (h : ym_rx_packet_frame rxdata c size inp = some p) (hres : p.res = 0) :
    p.rxlen = (size : Int) ∧ size + PACKET_OVERHEAD ≤ p.rxdata.length := by
  unfold ym_rx_packet_frame at h
  cases hr : ym_rx_packet_read (size + PACKET_OVERHEAD - 1) inp with
  | none => rw [hr] at h; simp at h
  | some r =>
    obtain ⟨bs, rest, ok⟩ := r
    rw [hr] at h
    cases ok with
    | false =>
      simp only [Option.some.injEq] at h
      rw [← h] at hres
      simp at hres
    | true =>
      have hl := ym_rx_packet_read_length _ _ _ _ hr
      simp only at h
      split_ifs at h <;> simp only [Option.some.injEq] at h <;> rw [← h] at hres ⊢
      · simp at hres
      · simp at hres
      · refine ⟨rfl, ?_⟩
        simp only [mem_write, List.length_append, List.length_cons, hl]
        show size + 5 ≤ size + 5 - 1 + 1 + _
        omega

/-- What `ym_rx_packet` leaves behind when it returns 0: `*rxlen` is -1, 0, 128 or 1024,
and in the last two cases the packet buffer holds the whole packet. -/
theorem ym_rx_packet_res (rxdata : List Nat) (packets_rxed : Nat) (inp : List Int)
    (p : RxPacket) (h : ym_rx_packet rxdata packets_rxed inp = some p) (hres : p.res = 0) :
    p.rxlen = -1 ∨ p.rxlen = 0 ∨
      ((p.rxlen = 128 ∨ p.rxlen = 1024) ∧ p.rxlen.toNat + PACKET_OVERHEAD ≤ p.rxdata.length) := by
  unfold ym_rx_packet at h
  cases inp with
  | nil => simp at h
  | cons c inp =>
    simp only at h
    split_ifs at h
    all_goals first
      | (right; right
         exact ⟨Or.inl (ym_rx_packet_frame_res _ _ _ _ _ h hres).1, by
           rw [(ym_rx_packet_frame_res _ _ _ _ _ h hres).1]
           exact (ym_rx_packet_frame_res _ _ _ _ _ h hres).2⟩)
      | (right; right
         exact ⟨Or.inr (ym_rx_packet_frame_res _ _ _ _ _ h hres).1, by
           rw [(ym_rx_packet_frame_res _ _ _ _ _ h hres).1]
           exact (ym_rx_packet_frame_res _ _ _ _ _ h hres).2⟩)
      | (simp only [Option.some.injEq] at h; rw [← h] at hres; simp at hres; done)
      | (simp only [Option.some.injEq] at h; rw [← h]; right; left; rfl)
      | (simp only [Option.some.injEq] at h; rw [← h]; left; rfl)
      | (rcases inp with _ | ⟨c2, inp2⟩
         · simp at h
         · simp only at h
           split_ifs at h
           all_goals first
             | (simp only [Option.some.injEq] at h; rw [← h] at hres; simp at hres; done)
             | (simp only [Option.some.injEq] at h; rw [← h]; left; rfl))

theorem mem_write_at_length_le (off : Nat) (new old : List Nat) (cap : Nat)
    (hoff : off ≤ old.length) (hold : old.length ≤ cap) (hnew : off + new.length ≤ cap) :
    (mem_write_at off new old).length ≤ cap ∧
      off + new.length ≤ (mem_write_at off new old).length := by
  simp only [mem_write_at, List.length_append, List.length_take, List.length_drop]
  omega

/-- A round of the loop "receive packets" keeps the write cursor and the bytes stored
within the capacity `rxlen`. -/
theorem fymodem_receive_packet_cursor (fmax rxlen : Nat) (s : RxState) (r : RxStep)
    (h : fymodem_receive_packet fmax rxlen s = some r)
    (h1 : s.rxptr ≤ rxlen) (h2 : s.rxdata.length ≤ rxlen) (h3 : s.rxptr ≤ s.rxdata.length) :
    r.state.rxptr ≤ rxlen ∧ r.state.rxdata.length ≤ rxlen ∧
      r.state.rxptr ≤ r.state.rxdata.length := by
  unfold fymodem_receive_packet at h
  cases hp : ym_rx_packet s.rx_packet_data s.packets_rxed s.input with
  | none => rw [hp] at h; simp at h
  | some p =>
    rw [hp] at h
    simp only at h
    by_cases hres : p.res = 0
    · have hspec := ym_rx_packet_res _ _ _ _ hp hres
      simp only [hres, if_true] at h
      split_ifs at h
      all_goals first
        | (simp only [Option.some.injEq] at h; subst h; exact ⟨h1, h2, h3⟩)
        | (split at h
           all_goals first
             | (simp only [Option.some.injEq] at h; subst h; exact ⟨h1, h2, h3⟩)
             | (split_ifs at h <;> simp only [Option.some.injEq] at h <;> subst h <;>
                 exact ⟨h1, h2, h3⟩))
        | (simp only [Option.some.injEq] at h
           have hov : ¬ ((s.rxptr : Int) + p.rxlen > to_i32 rxlen) := by assumption
           subst h
           rcases hspec with hs | hs | ⟨hs, hbuf⟩
           · contradiction
           · contradiction
           · have hle := to_i32_le rxlen
             have hpos : (p.rxlen.toNat : Int) = p.rxlen := by
               rcases hs with hs | hs <;> rw [hs] <;> rfl
             have hlen : ((p.rxdata.drop PACKET_HEADER).take p.rxlen.toNat).length
                 = p.rxlen.toNat := by
               rw [List.length_take, List.length_drop]
               have : p.rxlen.toNat + 5 ≤ p.rxdata.length := hbuf
               show min _ (_ - 3) = _
               omega
             have hw := mem_write_at_length_le s.rxptr
               ((p.rxdata.drop PACKET_HEADER).take p.rxlen.toNat) s.rxdata rxlen h3 h2
               (by rw [hlen]; omega)
             rw [hlen] at hw
             simp only [RxStep.state, RxState.putchar]
             exact ⟨by omega, hw.1, hw.2⟩)
    · simp only [hres, if_false] at h
      split_ifs at h <;> simp only [Option.some.injEq] at h <;> subst h <;> exact ⟨h1, h2, h3⟩

/-- The states of a run of `fymodem_receive`: the write cursor and the bytes stored are
within the capacity `rxlen`. -/
theorem fymodem_receive_after_cursor (fmax rxlen : Nat) (k : Nat) :
    ∀ (s t : RxState), fymodem_receive_after fmax rxlen k s = some t →
      s.rxptr ≤ rxlen → s.rxdata.length ≤ rxlen → s.rxptr ≤ s.rxdata.length →
      t.rxptr ≤ rxlen ∧ t.rxdata.length ≤ rxlen ∧ t.rxptr ≤ t.rxdata.length := by
  induction k with
  | zero =>
    intro s t h h1 h2 h3
    simp only [fymodem_receive_after, Option.some.injEq] at h
    subst h
    exact ⟨h1, h2, h3⟩
  | succ k ih =>
    intro s t h h1 h2 h3
    rw [fymodem_receive_after] at h
    cases hstep : fymodem_receive_packet fmax rxlen s with
    | none => rw [hstep] at h; simp at h
    | some r =>
      have hc := fymodem_receive_packet_cursor fmax rxlen s r hstep h1 h2 h3
      rw [hstep] at h
      cases r with
      | next u => exact ih u t h hc.1 hc.2.1 hc.2.2
      | file_done u done =>
        cases done with
        | false =>
          refine ih (fymodem_receive_file_begin false u) t h (Nat.zero_le _) ?_ (Nat.zero_le _)
          exact hc.2.1
        | true => simp at h
      | ret u v => simp at h

/-- A round of the loop "receive packets" that reads a packet with the sequence number
awaited, after block 0, that would take the cursor past `rxlen`: nothing is stored, the
receiver emits `CAN CAN` and returns 0. -/
theorem fymodem_receive_packet_overflow (fmax rxlen : Nat) (s : RxState) (p : RxPacket)
    (hp : ym_rx_packet s.rx_packet_data s.packets_rxed s.input = some p)
    (hres : p.res = 0) (hlen : 0 < p.rxlen)
    (hseq : (p.rxdata.getD PACKET_SEQNO_INDEX 0 &&& 0xff) = (s.packets_rxed &&& 0xff))
    (hrx : s.packets_rxed ≠ 0) (hov : (s.rxptr : Int) + p.rxlen > (rxlen : Int)) :
    ∃ t : RxState, fymodem_receive_packet fmax rxlen s = some (.ret t 0) ∧
      t.output = s.output ++ [CAN, CAN] ∧ t.rxdata = s.rxdata ∧ t.rxptr = s.rxptr := by
  have hle := to_i32_le rxlen
  have h1 : ¬ (p.rxlen = -1) := by omega
  have h2 : ¬ (p.rxlen = 0) := by omega
  have h3 : (s.rxptr : Int) + p.rxlen > to_i32 rxlen := by omega
  refine ⟨{ s with input := p.input, rx_packet_data := p.rxdata, nbr_errors := 0,
                   output := s.output ++ [CAN, CAN] }, ?_, rfl, rfl, rfl⟩
  unfold fymodem_receive_packet
  rw [hp]
  simp only [hres, h1, h2, hseq, hrx, h3, RxState.putchar, if_true, if_false, ne_eq,
    not_true_eq_false, List.append_assoc, List.singleton_append]

/-- The state that `fymodem_receive` returns with: the write cursor and the bytes stored
are within the capacity `rxlen`. -/
theorem fymodem_receive_loop_cursor (fmax rxlen : Nat) (fuel : Nat) :
    ∀ (s t : RxState) (v : Int), fymodem_receive_loop fmax rxlen fuel s = some (v, t) →
      s.rxptr ≤ rxlen → s.rxdata.length ≤ rxlen → s.rxptr ≤ s.rxdata.length →
      t.rxptr ≤ rxlen ∧ t.rxdata.length ≤ rxlen ∧ t.rxptr ≤ t.rxdata.length := by
  induction fuel with
  | zero =>
    intro s t v h
    simp [fymodem_receive_loop] at h
  | succ fuel ih =>
    intro s t v h h1 h2 h3
    rw [fymodem_receive_loop] at h
    cases hstep : fymodem_receive_packet fmax rxlen s with
    | none => rw [hstep] at h; simp at h
    | some r =>
      have hc := fymodem_receive_packet_cursor fmax rxlen s r hstep h1 h2 h3
      rw [hstep] at h
      cases r with
      | next u => exact ih u t v h hc.1 hc.2.1 hc.2.2
      | file_done u done =>
        cases done with
        | false =>
          refine ih (fymodem_receive_file_begin false u) t v h (Nat.zero_le _) ?_ (Nat.zero_le _)
          exact hc.2.1
        | true =>
          simp only [Option.some.injEq, Prod.mk.injEq] at h
          rw [← h.2]
          exact hc
      | ret u w =>
        simp only [Option.some.injEq, Prod.mk.injEq] at h
        rw [← h.2]
        exact hc

/-! ## The number of rounds -/

theorem ym_rx_packet_read_input (n : Nat) :
    ∀ (inp : List Int) (bs : List Nat) (rest : List Int) (ok : Bool),
      ym_rx_packet_read n inp = some (bs, rest, ok) → rest.length ≤ inp.length := by
  induction n with
  | zero =>
    intro inp bs rest ok h
    simp only [ym_rx_packet_read, Option.some.injEq, Prod.mk.injEq] at h
    rw [← h.2.1]
  | succ n ih =>
    intro inp bs rest ok h
    cases inp with
    | nil => simp [ym_rx_packet_read] at h
    | cons c inp =>
      rw [ym_rx_packet_read] at h
      split at h
      · simp only [Option.some.injEq, Prod.mk.injEq] at h
        rw [← h.2.1, List.length_cons]
        exact Nat.le_succ _
      · cases hr : ym_rx_packet_read n inp with
        | none => rw [hr] at h; simp at h
        | some r =>
          obtain ⟨bs2, rest2, ok2⟩ := r
          rw [hr] at h
          simp only [Option.some.injEq, Prod.mk.injEq] at h
          have := ih inp bs2 rest2 ok2 hr
          rw [← h.2.1, List.length_cons]
          exact Nat.le_succ_of_le this

theorem ym_rx_packet_frame_input (rxdata : List Nat) (c : Int) (size : Nat) (inp : List Int)
    (p : RxPacket) (h : ym_rx_packet_frame rxdata c size inp = some p) :
    p.input.length ≤ inp.length := by
  unfold ym_rx_packet_frame at h
  cases hr : ym_rx_packet_read (size + PACKET_OVERHEAD - 1) inp with
  | none => rw [hr] at h; simp at h
  | some r =>
    obtain ⟨bs, rest, ok⟩ := r
    have hle := ym_rx_packet_read_input _ _ _ _ _ hr
    rw [hr] at h
    cases ok with
    | false =>
      simp only [Option.some.injEq] at h
      rw [← h]; exact hle
    | true =>
      simp only at h
      split_ifs at h <;> simp only [Option.some.injEq] at h <;> rw [← h] <;> exact hle

/-- The function `ym_rx_packet` reads at least one value of the input. -/
theorem ym_rx_packet_input (rxdata : List Nat) (packets_rxed : Nat) (inp : List Int)
    (p : RxPacket) (h : ym_rx_packet rxdata packets_rxed inp = some p) :
    p.input.length < inp.length := by
  unfold ym_rx_packet at h
  cases inp with
  | nil => simp at h
  | cons c inp =>
    simp only at h
    rw [List.length_cons]
    split_ifs at h
    all_goals first
      | (exact Nat.lt_succ_of_le (ym_rx_packet_frame_input _ _ _ _ _ h))
      | (simp only [Option.some.injEq] at h; rw [← h]; exact Nat.lt_succ_self _)
      | (rcases inp with _ | ⟨c2, inp2⟩
         · simp at h
         · simp only at h
           split_ifs at h
           all_goals
             (simp only [Option.some.injEq] at h; rw [← h]
              simp only [List.length_cons]; omega))

/-- A round of the loop "receive packets" reads at least one value of the input. -/
theorem fymodem_receive_packet_input (fmax rxlen : Nat) (s : RxState) (r : RxStep)
    (h : fymodem_receive_packet fmax rxlen s = some r) :
    r.state.input.length < s.input.length := by
  unfold fymodem_receive_packet at h
  cases hp : ym_rx_packet s.rx_packet_data s.packets_rxed s.input with
  | none => rw [hp] at h; simp at h
  | some p =>
    have hlt := ym_rx_packet_input _ _ _ _ hp
    rw [hp] at h
    simp only at h
    split_ifs at h
    all_goals first
      | (simp only [Option.some.injEq] at h; subst h; exact hlt)
      | (split at h
         all_goals first
           | (simp only [Option.some.injEq] at h; subst h; exact hlt)
           | (split_ifs at h <;> simp only [Option.some.injEq] at h <;> subst h <;> exact hlt))

/-- The loops of `fymodem_receive` never use more rounds than the input has values: with
more rounds allowed than that, the outcome is the same. -/
theorem fymodem_receive_loop_fuel (fmax rxlen : Nat) (fuel : Nat) :
    ∀ (k : Nat) (s : RxState), s.input.length < fuel →
      fymodem_receive_loop fmax rxlen (fuel + k) s = fymodem_receive_loop fmax rxlen fuel s := by
  induction fuel with
  | zero => intro k s h; omega
  | succ fuel ih =>
    intro k s h
    have e : fuel + 1 + k = (fuel + k) + 1 := by omega
    rw [e, fymodem_receive_loop, fymodem_receive_loop]
    cases hstep : fymodem_receive_packet fmax rxlen s with
    | none => rfl
    | some r =>
      have hlt := fymodem_receive_packet_input fmax rxlen s r hstep
      cases r with
      | next u => exact ih k u (by simp only [RxStep.state] at hlt; omega)
      | file_done u done =>
        cases done with
        | false =>
          exact ih k (fymodem_receive_file_begin false u) (by
            simp only [RxStep.state] at hlt
            have : (fymodem_receive_file_begin false u).input = u.input := rfl
            rw [this]; omega)
        | true => rfl
      | ret u v => rfl

/-! ## The sender -/

/-- The loop `while (txlen > 0)` of `ym_send_data_packets` when `k` blocks are answered
with `ACK` and the next one with `CAN` or -1, more than `k` blocks being due: the function
returns at once, no further input is read. -/
theorem ym_send_data_packets_loop_abort (k : Nat) :
    ∀ (txdata : List Nat) (txlen : Nat) (block_nbr : Int) (out : List Nat) (c : Int)
      (rest : List Int), (c = CAN ∨ c = -1) → k * PACKET_1K_SIZE < txlen →
      ∃ out2 : List Nat,
        ym_send_data_packets_loop (List.replicate k (ACK : Int) ++ c :: rest) txdata txlen
          block_nbr out = some (rest, out2) := by
  induction k with
  | zero =>
    intro txdata txlen block_nbr out c rest hc hlen
    have hpos : txlen > 0 := by omega
    have hnack : ¬ (c = (ACK : Int)) := by
      rcases hc with h | h <;> rw [h] <;> decide
    have hc2 : c = -1 ∨ c = (CAN : Int) := hc.symm
    refine ⟨out ++ ym_send_packet txdata block_nbr, ?_⟩
    rw [List.replicate_zero, List.nil_append, ym_send_data_packets_loop]
    simp only [if_pos hpos, if_neg hnack, if_pos hc2]
  | succ k ih =>
    intro txdata txlen block_nbr out c rest hc hlen
    have hpos : txlen > 0 := by omega
    have hbig : txlen > PACKET_1K_SIZE := by
      have : (k + 1) * PACKET_1K_SIZE = k * PACKET_1K_SIZE + PACKET_1K_SIZE := by ring
      omega
    obtain ⟨out2, h⟩ := ih (txdata.drop PACKET_1K_SIZE) (txlen - PACKET_1K_SIZE) (block_nbr + 1)
      (out ++ ym_send_packet txdata block_nbr) c rest hc (by
        have : (k + 1) * PACKET_1K_SIZE = k * PACKET_1K_SIZE + PACKET_1K_SIZE := by ring
        omega)
    refine ⟨out2, ?_⟩
    rw [List.replicate_succ, List.cons_append, ym_send_data_packets_loop]
    simp only [if_pos hpos, if_pos hbig, if_true]
    exact h

/-- After the handshake `CRC`, `ACK`, `CRC`, when `k` data blocks are answered with `ACK`
and the next one with `CAN` or -1, `fymodem_send` returns `txsize` and has read no further
input. -/
theorem fymodem_send_abort (txdata : List Nat) (txsize : Nat) (filename : Option (List Nat))
    (k : Nat) (c : Int) (rest : List Int) (hc : c = CAN ∨ c = -1)
    (hk : k * PACKET_1K_SIZE < txsize % 2 ^ 32) :
    ∃ out : List Nat,
      fymodem_send txdata txsize filename
          ((CRC : Int) :: (ACK : Int) :: (CRC : Int) ::
            (List.replicate k (ACK : Int) ++ c :: rest)) =
        some ⟨to_i32 txsize, out, rest⟩ := by
  obtain ⟨out2, h⟩ := ym_send_data_packets_loop_abort k txdata (txsize % 2 ^ 32) 1
    ([] ++ [CRC] ++ ym_send_packet0 filename (to_i32 txsize)) c rest hc hk
  refine ⟨out2, ?_⟩
  unfold fymodem_send
  rw [fymodem_send_start]
  simp only [show ¬ ((CRC : Int) < 0) by decide, if_false, if_true]
  rw [fymodem_send_block0]
  simp only [if_true]
  unfold ym_send_data_packets
  rw [h]

/-- A round of the loop "receive packets" that reads a valid packet whose sequence byte is
not the one awaited: the receiver emits one `NAK`; but for the channel, the packet buffer
and the error counter, which is reset, the state is left as it is. -/
theorem fymodem_receive_packet_nak (fmax rxlen : Nat) (s : RxState) (seq : Nat)
    (data : List Nat) (rest : List Int) (hdata : ∀ b ∈ data, b < 256)
    (hlen : data.length = PACKET_SIZE ∨ data.length = PACKET_1K_SIZE)
    (hseq : seq % 256 ≠ s.packets_rxed % 256)
    (hin : s.input = wire (frame seq data) ++ rest) :
    fymodem_receive_packet fmax rxlen s =
      some (.next { s with input := rest
                           rx_packet_data := mem_write (frame seq data) s.rx_packet_data
                           nbr_errors := 0
                           output := s.output ++ [NAK] }) := by
  have hrx := ym_rx_packet_frame_ok s.rx_packet_data s.packets_rxed seq data rest hdata hlen
  have hl0 : (data.length : Int) ≠ 0 := by
    rcases hlen with h | h <;> rw [h] <;> decide
  have hl1 : (data.length : Int) ≠ -1 := by omega
  unfold fymodem_receive_packet
  rw [hin, hrx]
  simp only [mem_write_frame_getD_one, and_0xff, Nat.mod_mod, hl0, hl1, hseq, if_false, if_true,
    ne_eq, not_false_eq_true, RxState.putchar]

theorem fymodem_receive_block0_four_zeros (fmax : Nat) (h0 h1 h2 : Nat)
    (tail filename filesize_asc : List Nat) :
    fymodem_receive_block0 fmax (h0 :: h1 :: h2 :: 0 :: 0 :: 0 :: 0 :: tail)
      filename filesize_asc = none := by
  unfold fymodem_receive_block0
  have : fymodem_receive_has_data (h0 :: h1 :: h2 :: 0 :: 0 :: 0 :: 0 :: tail) = false := by
    rfl
  rw [this]
  rfl

/-- A round of the loop "receive packets" that reads, as the first packet of a file, a
valid block 0 whose first four data bytes are zero: the receiver emits `ACK` and leaves
both loops. -/
theorem fymodem_receive_packet_end_of_batch (fmax rxlen : Nat) (s : RxState)
    (tail : List Nat) (rest : List Int) (htail : ∀ b ∈ tail, b < 256)
    (hlen : (0 :: 0 :: 0 :: 0 :: tail).length = PACKET_SIZE ∨
      (0 :: 0 :: 0 :: 0 :: tail).length = PACKET_1K_SIZE)
    (hp : s.packets_rxed = 0)
    (hin : s.input = wire (frame 0 (0 :: 0 :: 0 :: 0 :: tail)) ++ rest) :
    fymodem_receive_packet fmax rxlen s =
      some (.file_done { s with input := rest
                                rx_packet_data :=
                                  mem_write (frame 0 (0 :: 0 :: 0 :: 0 :: tail)) s.rx_packet_data
                                nbr_errors := 0
                                output := s.output ++ [ACK] } true) := by
  have hdata : ∀ b ∈ (0 :: 0 :: 0 :: 0 :: tail), b < 256 := by
    intro b hb
    simp only [List.mem_cons] at hb
    rcases hb with h | h | h | h | h
    · omega
    · omega
    · omega
    · omega
    · exact htail b h
  have hrx := ym_rx_packet_frame_ok s.rx_packet_data s.packets_rxed 0
    (0 :: 0 :: 0 :: 0 :: tail) rest hdata hlen
  have hl0 : ((0 :: 0 :: 0 :: 0 :: tail).length : Int) ≠ 0 := by
    rcases hlen with h | h <;> rw [h] <;> decide
  have hl1 : ((0 :: 0 :: 0 :: 0 :: tail).length : Int) ≠ -1 := by omega
  have hbuf : ∃ more, mem_write (frame 0 (0 :: 0 :: 0 :: 0 :: tail)) s.rx_packet_data
      = (if (0 :: 0 :: 0 :: 0 :: tail).length = PACKET_SIZE then SOH else STX) :: 0 :: 255 ::
        0 :: 0 :: 0 :: 0 :: more := by
    refine ⟨tail ++ ([(ym_crc16 (0 :: 0 :: 0 :: 0 :: tail)
        (0 :: 0 :: 0 :: 0 :: tail).length >>> 8) &&& 0xFF,
      ym_crc16 (0 :: 0 :: 0 :: 0 :: tail) (0 :: 0 :: 0 :: 0 :: tail).length &&& 0xFF] ++
      s.rx_packet_data.drop (frame 0 (0 :: 0 :: 0 :: 0 :: tail)).length), ?_⟩
    unfold mem_write
    rw [frame_eq_cons]
    simp only [List.cons_append, List.append_assoc]
  obtain ⟨more, hbuf⟩ := hbuf
  have hparse := fymodem_receive_block0_four_zeros fmax
    (if (0 :: 0 :: 0 :: 0 :: tail).length = PACKET_SIZE then SOH else STX) 0 255 more
    s.filename s.filesize_asc
  rw [← hbuf] at hparse
  have hseq : (mem_write (frame 0 (0 :: 0 :: 0 :: 0 :: tail)) s.rx_packet_data).getD
      PACKET_SEQNO_INDEX 0 = 0 := by
    rw [hbuf]; rfl
  unfold fymodem_receive_packet
  rw [hin, hrx]
  simp only [hseq, hp, hparse, hl0, hl1]
  simp [RxState.putchar]

/-! ## The count of consecutive errors and the bytes the receiver emits -/

/-- A round of the loop "receive packets" in which `ym_rx_packet` fails: the error is
counted only when `packets_rxed ≠ 0`; the fifth consecutive counted error is answered with
`CAN CAN` and the return of 0, every other error with one `CRC`. -/
theorem fymodem_receive_packet_error (fmax rxlen : Nat) (s : RxState) (p : RxPacket)
    (hp : ym_rx_packet s.rx_packet_data s.packets_rxed s.input = some p) (hres : p.res ≠ 0) :
    fymodem_receive_packet fmax rxlen s = some (
      if s.packets_rxed ≠ 0 then
        if PACKET_ERROR_MAX_NBR ≤ s.nbr_errors + 1 then
          .ret { s with input := p.input, rx_packet_data := p.rxdata
                        nbr_errors := s.nbr_errors + 1
                        output := s.output ++ [CAN, CAN] } 0
        else
          .next { s with input := p.input, rx_packet_data := p.rxdata
                         nbr_errors := s.nbr_errors + 1
                         output := s.output ++ [CRC] }
      else
        .next { s with input := p.input, rx_packet_data := p.rxdata
                       output := s.output ++ [CRC] }) := by
  unfold fymodem_receive_packet
  rw [hp]
  simp only [hres, if_false, RxState.putchar, ge_iff_le, List.append_assoc, List.singleton_append]
  split_ifs <;> rfl

/-- What a round of the loop "receive packets" does to the count of consecutive errors and
to the output: a successful read resets the count; the bytes emitted are one of `ACK`,
`NAK`, `CRC`, or `ACK` and the solicitation, or `CAN CAN`, and `CAN CAN` is emitted only
with the return of 0, for one of three causes. -/
theorem fymodem_receive_packet_outcome (fmax rxlen : Nat) (s : RxState) (r : RxStep)
    (p : RxPacket) (hp : ym_rx_packet s.rx_packet_data s.packets_rxed s.input = some p)
    (h : fymodem_receive_packet fmax rxlen s = some r) :
    (p.res = 0 → r.state.nbr_errors = 0) ∧
    (s.nbr_errors < PACKET_ERROR_MAX_NBR → (∀ t v, r ≠ .ret t v) →
      r.state.nbr_errors < PACKET_ERROR_MAX_NBR) ∧
    ((∃ b, (b = ACK ∨ b = NAK ∨ b = CRC) ∧ r.state.output = s.output ++ [b]) ∨
     (∃ b, (b = CRC ∨ b = NAK) ∧ r.state.output = s.output ++ [ACK, b]) ∨
     (r.state.output = s.output ++ [CAN, CAN] ∧ (∃ t, r = .ret t 0) ∧
       (p.res ≠ 0 ∧ s.packets_rxed ≠ 0 ∧ PACKET_ERROR_MAX_NBR ≤ s.nbr_errors + 1 ∨
        p.res = 0 ∧ s.packets_rxed = 0 ∧ r.state.filesize > rxlen ∨
        p.res = 0 ∧ s.packets_rxed ≠ 0 ∧ (s.rxptr : Int) + p.rxlen > to_i32 rxlen))) := by
  by_cases hres : p.res = 0
  · unfold fymodem_receive_packet at h
    rw [hp] at h
    simp only [hres, if_true] at h
    refine ⟨fun _ => ?_, fun _ _ => ?_, ?_⟩
    · split_ifs at h
      all_goals first
        | (simp only [Option.some.injEq] at h; subst h; rfl)
        | (split at h
           all_goals first
             | (simp only [Option.some.injEq] at h; subst h; rfl)
             | (split_ifs at h <;> simp only [Option.some.injEq] at h <;> subst h <;> rfl))
    · split_ifs at h
      all_goals first
        | (simp only [Option.some.injEq] at h; subst h; exact Nat.zero_lt_succ 4)
        | (split at h
           all_goals first
             | (simp only [Option.some.injEq] at h; subst h; exact Nat.zero_lt_succ 4)
             | (split_ifs at h <;> simp only [Option.some.injEq] at h <;> subst h <;>
                 exact Nat.zero_lt_succ 4))
    · by_cases h1 : p.rxlen = -1
      · simp only [h1, if_true, Option.some.injEq] at h; subst h
        exact Or.inl ⟨ACK, Or.inl rfl, rfl⟩
      simp only [h1, if_false] at h
      by_cases h2 : p.rxlen = 0
      · simp only [h2, if_true, Option.some.injEq] at h; subst h
        exact Or.inl ⟨ACK, Or.inl rfl, rfl⟩
      simp only [h2, if_false] at h
      by_cases h3 : (p.rxdata.getD PACKET_SEQNO_INDEX 0 &&& 0xff) ≠ (s.packets_rxed &&& 0xff)
      · rw [if_pos h3] at h
        simp only [Option.some.injEq] at h; subst h
        exact Or.inl ⟨NAK, Or.inr (Or.inl rfl), rfl⟩
      rw [if_neg h3] at h
      by_cases h4 : s.packets_rxed = 0
      · simp only [h4, if_true] at h
        split at h
        · rename_i filename filesize_asc filesize hparse
          by_cases h6 : filesize > rxlen
          · simp only [h6, if_true, Option.some.injEq] at h; subst h
            refine Or.inr (Or.inr ⟨?_, ⟨_, rfl⟩, Or.inr (Or.inl ⟨hres, h4, h6⟩)⟩)
            simp only [RxStep.state, RxState.putchar, List.append_assoc, List.singleton_append]
          · simp only [h6, if_false, Option.some.injEq] at h; subst h
            refine Or.inr (Or.inl ⟨if s.crc_nak then CRC else NAK, ?_, ?_⟩)
            · split_ifs
              · exact Or.inl rfl
              · exact Or.inr rfl
            · simp only [RxStep.state, RxState.putchar, List.append_assoc,
                List.singleton_append]
        · simp only [Option.some.injEq] at h; subst h
          exact Or.inl ⟨ACK, Or.inl rfl, rfl⟩
      simp only [h4, if_false] at h
      by_cases h5 : (s.rxptr : Int) + p.rxlen > to_i32 rxlen
      · simp only [h5, if_true, Option.some.injEq] at h; subst h
        refine Or.inr (Or.inr ⟨?_, ⟨_, rfl⟩, Or.inr (Or.inr ⟨hres, h4, h5⟩)⟩)
        simp only [RxStep.state, RxState.putchar, List.append_assoc, List.singleton_append]
      · simp only [h5, if_false, Option.some.injEq] at h; subst h
        exact Or.inl ⟨ACK, Or.inl rfl, rfl⟩
  · have he := fymodem_receive_packet_error fmax rxlen s p hp hres
    rw [he] at h
    simp only [Option.some.injEq] at h
    subst h
    refine ⟨fun h0 => absurd h0 hres, fun hlt hret => ?_, ?_⟩
    · split_ifs with h1 h2
      · exact (hret _ _ (by rw [if_pos h1, if_pos h2])).elim
      · simp only [RxStep.state]
        omega
      · exact hlt
    · split_ifs with h1 h2
      · exact Or.inr (Or.inr ⟨rfl, ⟨_, rfl⟩, Or.inl ⟨hres, h1, h2⟩⟩)
      · exact Or.inl ⟨CRC, Or.inr (Or.inr rfl), rfl⟩
      · exact Or.inl ⟨CRC, Or.inr (Or.inr rfl), rfl⟩

/-- A round that does not return keeps the count of consecutive errors below
`PACKET_ERROR_MAX_NBR` and emits no `CAN`. -/
theorem fymodem_receive_packet_no_can (fmax rxlen : Nat) (s : RxState) (r : RxStep)
    (h : fymodem_receive_packet fmax rxlen s = some r)
    (he : s.nbr_errors < PACKET_ERROR_MAX_NBR) (hc : CAN ∉ s.output)
    (hret : ∀ t v, r ≠ .ret t v) :
    r.state.nbr_errors < PACKET_ERROR_MAX_NBR ∧ CAN ∉ r.state.output := by
  cases hp : ym_rx_packet s.rx_packet_data s.packets_rxed s.input with
  | none =>
    unfold fymodem_receive_packet at h
    rw [hp] at h
    exact Option.noConfusion h
  | some p =>
    have ho := fymodem_receive_packet_outcome fmax rxlen s r p hp h
    refine ⟨ho.2.1 he hret, ?_⟩
    rcases ho.2.2 with ⟨b, hb, hout⟩ | ⟨b, hb, hout⟩ | ⟨_, ⟨t, ht⟩, _⟩
    · rw [hout]
      intro hmem
      rcases List.mem_append.mp hmem with hm | hm
      · exact hc hm
      · rw [List.mem_singleton] at hm
        rcases hb with hb | hb | hb <;> rw [hb] at hm <;> revert hm <;> decide
    · rw [hout]
      intro hmem
      rcases List.mem_append.mp hmem with hm | hm
      · exact hc hm
      · simp only [List.mem_cons, List.mem_singleton, List.not_mem_nil, or_false] at hm
        rcases hm with hm | hm
        · revert hm; decide
        · rcases hb with hb | hb <;> rw [hb] at hm <;> revert hm <;> decide
    · exact (hret t 0 ht).elim

theorem fymodem_receive_after_no_can (fmax rxlen : Nat) (k : Nat) :
    ∀ (s t : RxState), fymodem_receive_after fmax rxlen k s = some t →
      s.nbr_errors < PACKET_ERROR_MAX_NBR → CAN ∉ s.output →
      t.nbr_errors < PACKET_ERROR_MAX_NBR ∧ CAN ∉ t.output := by
  induction k with
  | zero =>
    intro s t h he hc
    simp only [fymodem_receive_after, Option.some.injEq] at h
    subst h
    exact ⟨he, hc⟩
  | succ k ih =>
    intro s t h he hc
    rw [fymodem_receive_after] at h
    cases hr : fymodem_receive_packet fmax rxlen s with
    | none => rw [hr] at h; exact Option.noConfusion h
    | some r =>
      rw [hr] at h
      cases r with
      | next u =>
        have hn := fymodem_receive_packet_no_can fmax rxlen s _ hr he hc
          (fun _ _ hx => RxStep.noConfusion hx)
        exact ih u t h hn.1 hn.2
      | file_done u b =>
        have hn := fymodem_receive_packet_no_can fmax rxlen s _ hr he hc
          (fun _ _ hx => RxStep.noConfusion hx)
        cases b with
        | false =>
          refine ih _ t h hn.1 ?_
          show CAN ∉ u.output ++ [CRC]
          intro hmem
          rcases List.mem_append.mp hmem with hm | hm
          · exact hn.2 hm
          · rw [List.mem_singleton] at hm
            revert hm; decide
        | true => exact Option.noConfusion h
      | ret u v => exact Option.noConfusion h

/-- A run of the two loops that returns does so in a round from a state that the run
reaches: a round that returns, or the round that ends the batch. -/
theorem fymodem_receive_loop_last_round (fmax rxlen : Nat) (fuel : Nat) :
    ∀ (s t : RxState) (v : Int), fymodem_receive_loop fmax rxlen fuel s = some (v, t) →
      ∃ (k : Nat) (u : RxState), fymodem_receive_after fmax rxlen k s = some u ∧
        (fymodem_receive_packet fmax rxlen u = some (.ret t v) ∨
         fymodem_receive_packet fmax rxlen u = some (.file_done t true) ∧
           v = to_i32 t.filesize) := by
  induction fuel with
  | zero =>
    intro s t v h
    exact Option.noConfusion h
  | succ fuel ih =>
    intro s t v h
    rw [fymodem_receive_loop] at h
    cases hr : fymodem_receive_packet fmax rxlen s with
    | none => rw [hr] at h; exact Option.noConfusion h
    | some r =>
      rw [hr] at h
      cases r with
      | next u =>
        obtain ⟨k, w, hk, hw⟩ := ih u t v h
        refine ⟨k + 1, w, ?_, hw⟩
        rw [fymodem_receive_after, hr]
        exact hk
      | file_done u b =>
        cases b with
        | false =>
          obtain ⟨k, w, hk, hw⟩ := ih _ t v h
          refine ⟨k + 1, w, ?_, hw⟩
          rw [fymodem_receive_after, hr]
          exact hk
        | true =>
          simp only [Option.some.injEq, Prod.mk.injEq] at h
          obtain ⟨hv, hu⟩ := h
          subst hu
          exact ⟨0, s, rfl, Or.inr ⟨hr, hv.symm⟩⟩
      | ret u w =>
        simp only [Option.some.injEq, Prod.mk.injEq] at h
        refine ⟨0, s, rfl, Or.inl ?_⟩
        rw [hr, h.1, h.2]

/-! ## The bytes the sender has emitted are never taken back -/

theorem ym_send_data_packets_last_output (inp : List Int) :
    ∀ (out : List Nat) (i : List Int) (o : List Nat),
      ym_send_data_packets_last inp out = some (i, o) → ∃ e : List Nat, o = out ++ e := by
  induction inp with
  | nil => intro out i o h; exact Option.noConfusion h
  | cons ch inp ih =>
    intro out i o h
    rw [ym_send_data_packets_last] at h
    split_ifs at h
    · obtain ⟨e, he⟩ := ih _ i o h
      exact ⟨ym_send_packet0 none 0 ++ e, by rw [he, List.append_assoc]⟩
    · simp only [Option.some.injEq, Prod.mk.injEq] at h
      exact ⟨_, h.2.symm⟩

theorem ym_send_data_packets_eot_output (inp : List Int) :
    ∀ (out : List Nat) (i : List Int) (o : List Nat),
      ym_send_data_packets_eot inp out = some (i, o) → ∃ e : List Nat, o = out ++ e := by
  induction inp with
  | nil => intro out i o h; exact Option.noConfusion h
  | cons ch inp ih =>
    intro out i o h
    unfold ym_send_data_packets_eot at h
    split_ifs at h
    · obtain ⟨e, he⟩ := ih _ i o h
      exact ⟨[EOT] ++ e, by rw [he, List.append_assoc]⟩
    · cases inp with
      | nil => exact Option.noConfusion h
      | cons ch2 inp2 =>
        simp only at h
        split_ifs at h
        · obtain ⟨e, he⟩ := ym_send_data_packets_last_output inp2 _ i o h
          exact ⟨[EOT] ++ e, by rw [he, List.append_assoc]⟩
        · simp only [Option.some.injEq, Prod.mk.injEq] at h
          exact ⟨_, h.2.symm⟩
    · simp only [Option.some.injEq, Prod.mk.injEq] at h
      exact ⟨_, h.2.symm⟩

theorem ym_send_data_packets_loop_output (n : Nat) :
    ∀ (inp : List Int) (txdata : List Nat) (txlen : Nat) (block_nbr : Int) (out : List Nat)
      (i : List Int) (o : List Nat), inp.length ≤ n →
      ym_send_data_packets_loop inp txdata txlen block_nbr out = some (i, o) →
      ∃ e : List Nat, o = out ++ e := by
  induction n with
  | zero =>
    intro inp txdata txlen block_nbr out i o hlen h
    have : inp = [] := List.length_eq_zero.mp (Nat.le_zero.mp hlen)
    subst this
    rw [ym_send_data_packets_loop] at h
    split_ifs at h
    all_goals exact Option.noConfusion h
  | succ n ih =>
    intro inp txdata txlen block_nbr out i o hlen h
    rw [ym_send_data_packets_loop] at h
    split_ifs at h
    all_goals first
      | exact ym_send_data_packets_eot_output inp out i o h
      | (cases inp with
         | nil => exact Option.noConfusion h
         | cons c inp1 =>
           simp only at h
           have hl1 : inp1.length ≤ n := by simpa using hlen
           split_ifs at h
           all_goals first
             | exact (ih _ _ _ _ _ i o hl1 h).elim (fun e he =>
                 ⟨ym_send_packet txdata block_nbr ++ e, by rw [he, List.append_assoc]⟩)
             | (simp only [Option.some.injEq, Prod.mk.injEq] at h
                exact ⟨_, h.2.symm⟩))

/-- Whatever the loop of `fymodem_send` that sends block 0 ends with, its output begins
with the output before it and one more block 0. -/
theorem fymodem_send_block0_output (txdata : List Nat) (txsize : Nat)
    (filename : Option (List Nat)) (n : Nat) :
    ∀ (inp : List Int) (crc_nak : Bool) (out : List Nat) (r : TxResult), inp.length ≤ n →
      fymodem_send_block0 txdata txsize filename inp crc_nak out = some r →
      ∃ e : List Nat, r.output = out ++ ym_send_packet0 filename (to_i32 txsize) ++ e := by
  induction n with
  | zero =>
    intro inp crc_nak out r hlen h
    have : inp = [] := List.length_eq_zero.mp (Nat.le_zero.mp hlen)
    subst this
    simp [fymodem_send_block0] at h
  | succ n ih =>
    intro inp crc_nak out r hlen h
    cases inp with
    | nil => simp [fymodem_send_block0] at h
    | cons ch inp1 =>
      unfold fymodem_send_block0 at h
      simp only at h
      have hl1 : inp1.length ≤ n := by simpa using hlen
      split_ifs at h
      · cases inp1 with
        | nil => simp at h
        | cons ch2 inp2 =>
          simp only at h
          have hl2 : inp2.length ≤ n := by
            simp only [List.length_cons] at hl1; omega
          split_ifs at h
          · cases hd : ym_send_data_packets txdata txsize inp2
                (out ++ ym_send_packet0 filename (to_i32 txsize)) with
            | none => rw [hd] at h; simp at h
            | some res =>
              obtain ⟨inp3, out3⟩ := res
              rw [hd] at h
              simp only [Option.some.injEq] at h
              obtain ⟨e, he⟩ := ym_send_data_packets_loop_output inp2.length inp2 _ _ _ _
                inp3 out3 (Nat.le_refl _) hd
              exact ⟨e, by rw [← h]; exact he⟩
          · obtain ⟨e, he⟩ := ih inp2 crc_nak _ r hl2 h
            exact ⟨ym_send_packet0 filename (to_i32 txsize) ++ e, by
              rw [he, List.append_assoc]⟩
      · obtain ⟨e, he⟩ := ih inp1 false _ r hl1 h
        exact ⟨ym_send_packet0 filename (to_i32 txsize) ++ e, by rw [he, List.append_assoc]⟩
      · simp only [Option.some.injEq] at h
        exact ⟨[CAN, CAN], by rw [← h]⟩
      · obtain ⟨e, he⟩ := ih inp1 crc_nak _ r hl1 h
        exact ⟨ym_send_packet0 filename (to_i32 txsize) ++ e, by rw [he, List.append_assoc]⟩

/-! ## Block 0 of any filename -/

theorem to_u32_lt (i : Int) : to_u32 i < 2 ^ 32 := by
  unfold to_u32
  have h1 : 0 ≤ i % 2 ^ 32 := Int.emod_nonneg _ (by norm_num)
  have h2 : i % 2 ^ 32 < 2 ^ 32 := Int.emod_lt_of_pos _ (by norm_num)
  omega

/-- The filename loop of `ym_send_packet0` copies the string at `filename` (the bytes
before the first NUL), cut to `n` bytes. -/
theorem ym_send_packet0_name_takeWhile (n : Nat) (filename : List Nat) :
    ym_send_packet0_name n filename = (filename.takeWhile (fun c => c ≠ 0)).take n := by
  induction filename generalizing n with
  | nil => cases n <;> rfl
  | cons c cs ih =>
    cases n with
    | zero => simp [ym_send_packet0_name]
    | succ n =>
      rw [ym_send_packet0_name]
      by_cases hc : c ≠ 0
      · rw [if_pos hc, ih n, List.takeWhile_cons_of_pos (by simpa using hc), List.take_succ_cons]
      · rw [if_neg hc, List.takeWhile_cons_of_neg (by simpa using hc), List.take_nil]

theorem ym_send_packet0_name_length (n : Nat) (filename : List Nat) :
    (ym_send_packet0_name n filename).length ≤ n := by
  rw [ym_send_packet0_name_takeWhile, List.length_take]
  exact Nat.min_le_left _ _

theorem ym_send_packet0_name_ne_zero (n : Nat) (filename : List Nat) :
    ∀ c ∈ ym_send_packet0_name n filename, c ≠ 0 := by
  intro c hc
  rw [ym_send_packet0_name_takeWhile] at hc
  have := List.mem_takeWhile_imp (List.mem_of_mem_take hc)
  simpa using this

/-- What the array `block` of `ym_send_packet0` holds when the size has been written: the
filename, cut to 110 bytes, a NUL, the digits of the size and the NUL of `ym_writeU32`. -/
theorem ym_send_packet0_written (name : List Nat) (filesize : Int) :
    mem_write_at (name.length + 1) (ym_writeU32 (to_u32 filesize)).1 (name ++ [0]) =
      name ++ [0] ++ minimal_decimal (to_u32 filesize) ++ [0] := by
  rw [ym_writeU32_eq _ (to_u32_lt filesize)]
  unfold mem_write_at
  rw [List.take_of_length_le (by simp), List.drop_of_length_le (by simp)]
  simp

/-- The block that `ym_send_packet0` builds, for any filename and any size. -/
theorem ym_send_packet0_block_any (filename : List Nat) (filesize : Int) :
    ym_send_packet0_block (some filename) filesize =
      ym_send_packet0_name 110 filename ++ 0 :: (minimal_decimal (to_u32 filesize) ++
        List.replicate (127 - (ym_send_packet0_name 110 filename).length -
          (minimal_decimal (to_u32 filesize)).length) 0) := by
  have hidem : ym_send_packet0_name (PACKET_SIZE - FILE_SIZE_LENGTH - 2)
      (ym_send_packet0_name 110 filename) = ym_send_packet0_name 110 filename :=
    ym_send_packet0_name_eq _ _ (ym_send_packet0_name_ne_zero 110 filename)
      (ym_send_packet0_name_length 110 filename)
  have hsame : ym_send_packet0_block (some filename) filesize =
      ym_send_packet0_block (some (ym_send_packet0_name 110 filename))
        (to_i32 (to_u32 filesize)) := by
    unfold ym_send_packet0_block
    simp only [hidem, to_u32_to_i32 _ (to_u32_lt filesize)]
    rfl
  rw [hsame, ym_send_packet0_block_eq _ _ (ym_send_packet0_name_ne_zero 110 filename)
    (ym_send_packet0_name_length 110 filename) (to_u32_lt filesize)]

theorem ym_send_packet0_block_any_length (filename : Option (List Nat)) (filesize : Int) :
    (ym_send_packet0_block filename filesize).length = PACKET_SIZE := by
  cases filename with
  | none => rw [ym_send_packet0_none, List.length_replicate]
  | some filename =>
    rw [ym_send_packet0_block_any]
    have h1 := ym_send_packet0_name_length 110 filename
    have h2 := minimal_decimal_length _ (to_u32_lt filesize)
    simp only [List.length_append, List.length_cons, List.length_replicate]
    show _ = 128
    omega

/-! ## Block 0 with a filename field that fills the filename slot -/

theorem fymodem_receive_filename_take (n : Nat) (name tail : List Nat)
    (hnz : ∀ c ∈ name, c ≠ 0) (hlen : n ≤ name.length) :
    fymodem_receive_filename n (name ++ tail) = name.take n := by
  induction n generalizing name with
  | zero => simp [fymodem_receive_filename]
  | succ n ih =>
    cases name with
    | nil => simp at hlen
    | cons c cs =>
      rw [List.cons_append, fymodem_receive_filename, if_pos (hnz c (List.mem_cons_self c cs)),
        ih cs (fun x hx => hnz x (List.mem_cons_of_mem c hx)) (by simpa using hlen),
        List.take_succ_cons]

theorem mem_write_length (new old : List Nat) : new.length ≤ (mem_write new old).length := by
  unfold mem_write
  rw [List.length_append]
  exact Nat.le_add_right _ _

theorem mem_write_getD (new old : List Nat) (i d : Nat) (h : i < new.length) :
    (mem_write new old).getD i d = new.getD i d := by
  unfold mem_write
  rw [List.getD_append _ _ _ _ h]

/-! ## Data packets that do not all fit -/

/-- The rounds of the loop "receive packets" that read the valid data packets awaited,
when these do not all fit: the packets are stored and answered with `ACK` up to the first
one that would end beyond the capacity, which is answered with `CAN CAN` and the return
of 0. -/
theorem fymodem_receive_loop_data_overflow (fmax rxlen : Nat) (hcap : rxlen < 2 ^ 31)
    (ds : List (List Nat)) :
    ∀ (s : RxState) (fuel : Nat) (rest : List Int),
      (∀ d ∈ ds, (∀ b ∈ d, b < 256) ∧ (d.length = PACKET_SIZE ∨ d.length = PACKET_1K_SIZE)) →
      s.packets_rxed ≠ 0 → s.packets_rxed + (rxlen - s.rxptr) + 1 < 2 ^ 32 →
      s.rxdata.length = s.rxptr → s.rxptr ≤ rxlen → rxlen < s.rxptr + ds.flatten.length →
      s.input = wire (frames s.packets_rxed ds) ++ rest →
      ∃ (t : RxState) (j : Nat),
        fymodem_receive_loop fmax rxlen (fuel + ds.length) s = some (0, t) ∧
        j < ds.length ∧ t.output = s.output ++ List.replicate j ACK ++ [CAN, CAN] ∧
        t.rxdata = s.rxdata ++ (ds.take j).flatten ∧ t.filename = s.filename ∧
        rxlen < s.rxptr + (ds.take (j + 1)).flatten.length := by
  induction ds with
  | nil =>
    intro s fuel rest _ _ _ _ hle hgt _
    simp only [List.flatten_nil, List.length_nil, Nat.add_zero] at hgt
    omega
  | cons d ds ih =>
    intro s fuel rest hds hp hwrap hptr hle hgt hin
    have hd := hds d (List.mem_cons_self d ds)
    have hin2 : s.input = wire (frame s.packets_rxed d) ++
        (wire (frames (s.packets_rxed + 1) ds) ++ rest) := by
      rw [hin, frames, wire_append, List.append_assoc]
    have hstep := fymodem_receive_packet_data fmax rxlen s d _ hd.1 hd.2 hp hin2
    have hflat : (d :: ds).flatten.length = d.length + ds.flatten.length := by
      simp
    rw [hflat] at hgt
    have hd1 : 1 ≤ d.length := by
      rcases hd.2 with h | h <;> rw [h] <;> decide
    rw [to_i32_of_lt rxlen hcap] at hstep
    by_cases hov : (s.rxptr : Int) + (d.length : Int) > (rxlen : Int)
    · rw [if_pos hov] at hstep
      refine ⟨{ s with input := wire (frames (s.packets_rxed + 1) ds) ++ rest
                       rx_packet_data := mem_write (frame s.packets_rxed d) s.rx_packet_data
                       nbr_errors := 0
                       output := s.output ++ [CAN, CAN] }, 0, ?_, Nat.succ_pos _, ?_, ?_, rfl,
        ?_⟩
      · rw [List.length_cons, ← Nat.add_assoc, fymodem_receive_loop, hstep]
      · simp
      · simp
      · simp only [Nat.zero_add, List.take_succ_cons, List.take_zero, List.flatten_cons,
          List.flatten_nil, List.append_nil]
        omega
    · rw [if_neg hov] at hstep
      have hfit : s.rxptr + d.length ≤ rxlen := by omega
      have hmod : (s.packets_rxed + 1) % 2 ^ 32 = s.packets_rxed + 1 :=
        Nat.mod_eq_of_lt (by omega)
      rw [hmod] at hstep
      obtain ⟨t, j, ht, hj, h2, h3, h4, h5⟩ := ih
        { s with input := wire (frames (s.packets_rxed + 1) ds) ++ rest
                 rx_packet_data := mem_write (frame s.packets_rxed d) s.rx_packet_data
                 nbr_errors := 0
                 rxdata := mem_write_at s.rxptr d s.rxdata
                 rxptr := s.rxptr + d.length
                 output := s.output ++ [ACK]
                 packets_rxed := s.packets_rxed + 1 } fuel rest
        (fun x hx => hds x (List.mem_cons_of_mem d hx))
        (show s.packets_rxed + 1 ≠ 0 by omega)
        (show s.packets_rxed + 1 + (rxlen - (s.rxptr + d.length)) + 1 < 2 ^ 32 by omega)
        (show (mem_write_at s.rxptr d s.rxdata).length = s.rxptr + d.length by
          rw [← hptr, mem_write_at_length, List.length_append])
        hfit
        (show rxlen < s.rxptr + d.length + ds.flatten.length by omega)
        rfl
      refine ⟨t, j + 1, ?_, by simpa using hj, ?_, ?_, h4, ?_⟩
      · rw [List.length_cons, ← Nat.add_assoc, fymodem_receive_loop, hstep]
        exact ht
      · rw [h2, List.replicate_succ]
        simp
      · rw [h3, ← hptr, mem_write_at_length]
        simp
      · rw [List.take_succ_cons, List.flatten_cons, List.length_append]
        have h6 : rxlen < s.rxptr + d.length + (ds.take (j + 1)).flatten.length := h5
        omega

theorem flatten_length_1k (ds : List (List Nat)) (h : ∀ d ∈ ds, d.length = PACKET_1K_SIZE) :
    ds.flatten.length = PACKET_1K_SIZE * ds.length := by
  induction ds with
  | nil => rfl
  | cons d ds ih =>
    rw [List.flatten_cons, List.length_append, h d (List.mem_cons_self d ds),
      ih (fun x hx => h x (List.mem_cons_of_mem d hx)), List.length_cons, Nat.mul_succ,
      Nat.add_comm]

/-! ## Data blocks and their numbers -/

theorem mem_read_length (m : List Nat) (n : Nat) : (mem_read m n).length = n := by
  unfold mem_read
  rw [List.length_append, List.length_take, List.length_replicate]
  omega

theorem mem_read_lt (m : List Nat) (n : Nat) (h : ∀ b ∈ m, b < 256) :
    ∀ b ∈ mem_read m n, b < 256 := by
  intro b hb
  unfold mem_read at hb
  rcases List.mem_append.mp hb with hb | hb
  · exact h b (List.mem_of_mem_take hb)
  · rw [List.eq_of_mem_replicate hb]
    decide

/-- What `ym_send_packet` emits for a block number `n ≥ 1`: a valid packet of 1024 data
bytes, the 1024 bytes at `data`, with the sequence number `n`. -/
theorem ym_send_packet_eq_frame (data : List Nat) (n : Nat) (hn : 1 ≤ n) :
    ym_send_packet data (n : Int) = frame n (mem_read data PACKET_1K_SIZE) := by
  have hn0 : ¬ ((n : Int) = 0) := by omega
  have hl : (mem_read data PACKET_1K_SIZE).length = PACKET_1K_SIZE := mem_read_length _ _
  have hne : ¬ ((mem_read data PACKET_1K_SIZE).length = PACKET_SIZE) := by
    rw [hl]; decide
  have h1 : ((n : Int) % 256).toNat = n % 256 := by omega
  have h2 : ((-(n : Int) - 1) % 256).toNat = 255 - n % 256 := by omega
  unfold ym_send_packet frame
  simp only [if_neg hn0, h1, h2, hl]
  rfl

theorem ym_send_packet_length (data : List Nat) (n : Nat) (hn : 1 ≤ n) :
    (ym_send_packet data (n : Int)).length = PACKET_1K_SIZE + PACKET_OVERHEAD := by
  rw [ym_send_packet_eq_frame data n hn, frame_length, mem_read_length]

/-- The loop `while (txlen > 0)` of `ym_send_data_packets` when `k` blocks are answered
with `ACK` and the next one, which is due, with `CAN` or -1: the output ends with the
block after `k` blocks of the data, sent with the block number that is `k` more than the
first one. -/
theorem ym_send_data_packets_loop_nth (k : Nat) :
    ∀ (txdata : List Nat) (txlen : Nat) (b : Nat) (out : List Nat) (c : Int)
      (rest : List Int), 1 ≤ b → (c = CAN ∨ c = -1) → k * PACKET_1K_SIZE < txlen →
      ∃ out2 : List Nat,
        ym_send_data_packets_loop (List.replicate k (ACK : Int) ++ c :: rest) txdata txlen
          (b : Int) out =
          some (rest, out2 ++
            ym_send_packet (txdata.drop (k * PACKET_1K_SIZE)) ((b + k : Nat) : Int)) ∧
        out2.length = out.length + k * (PACKET_1K_SIZE + PACKET_OVERHEAD) := by
  induction k with
  | zero =>
    intro txdata txlen b out c rest hb hc hlen
    have hpos : txlen > 0 := by omega
    have hnack : ¬ (c = (ACK : Int)) := by
      rcases hc with h | h <;> rw [h] <;> decide
    have hc2 : c = -1 ∨ c = (CAN : Int) := hc.symm
    refine ⟨out, ?_, by omega⟩
    rw [List.replicate_zero, List.nil_append, ym_send_data_packets_loop]
    simp only [if_pos hpos, if_neg hnack, if_pos hc2, Nat.zero_mul, List.drop_zero, Nat.add_zero]
  | succ k ih =>
    intro txdata txlen b out c rest hb hc hlen
    have hpos : txlen > 0 := by omega
    have hmul : (k + 1) * PACKET_1K_SIZE = k * PACKET_1K_SIZE + PACKET_1K_SIZE := by ring
    have hbig : txlen > PACKET_1K_SIZE := by omega
    obtain ⟨out2, h, hl⟩ := ih (txdata.drop PACKET_1K_SIZE) (txlen - PACKET_1K_SIZE) (b + 1)
      (out ++ ym_send_packet txdata (b : Int)) c rest (by omega) hc (by omega)
    refine ⟨out2, ?_, ?_⟩
    · rw [List.replicate_succ, List.cons_append, ym_send_data_packets_loop]
      simp only [if_pos hpos, if_pos hbig, if_true]
      have e1 : ((b : Int) + 1) = ((b + 1 : Nat) : Int) := by push_cast; rfl
      have e2 : b + 1 + k = b + (k + 1) := by omega
      have e3 : List.drop (k * PACKET_1K_SIZE) (List.drop PACKET_1K_SIZE txdata)
          = List.drop ((k + 1) * PACKET_1K_SIZE) txdata := by
        rw [List.drop_drop, hmul, Nat.add_comm]
      rw [e1, h, e2, e3]
    · rw [hl, List.length_append, ym_send_packet_length txdata b hb]
      ring

/-! ## Data streaming that is aborted -/

/-- C1: for every byte sequence `buf` of length `len < 65536`, `ym_crc16(buf, len)` is the
bit-by-bit CRC-16/XMODEM of `buf`: the register starts at 0, each byte is XORed into its
high byte, and it is then shifted left 8 times, 0x1021 being XORed in whenever the bit
shifted out was 1. -/
theorem ym_crc16_eq_crc16_ref (buf : List Nat) (len : Nat) (hlen : buf.length = len)
    (h16 : len < 65536) (hbytes : ∀ b ∈ buf, b < 256) :
    ym_crc16 buf len = crc16_ref buf := by
  rw [ym_crc16_of_length buf len hlen h16]
  exact foldl_ym_crc16_step_eq_ref buf 0 (by norm_num) hbytes

/-- C1, at the check string "123456789", whose CRC-16/XMODEM is 0x31C3. -/
theorem ym_crc16_eq_crc16_ref_witness :
    ym_crc16 [0x31, 0x32, 0x33, 0x34, 0x35, 0x36, 0x37, 0x38, 0x39] 9 =
      crc16_ref [0x31, 0x32, 0x33, 0x34, 0x35, 0x36, 0x37, 0x38, 0x39] ∧
    ym_crc16 [0x31, 0x32, 0x33, 0x34, 0x35, 0x36, 0x37, 0x38, 0x39] 9 = 0x31C3 :=
  ⟨ym_crc16_eq_crc16_ref [0x31, 0x32, 0x33, 0x34, 0x35, 0x36, 0x37, 0x38, 0x39] 9 rfl
    (by decide) (by decide), by decide⟩

/-- C2: for every byte sequence `data` of length ≤ 1024 and all bytes `hi`, `lo`, the CRC
of `data ∥ hi ∥ lo` is 0 if and only if the CRC of `data` is `hi << 8 | lo`; the CRC of
`data` followed by its own CRC, high byte first, is 0; and `ym_rx_packet`, reading a frame
of a lead byte, a sequence byte, its complement, `data` and the trailer `hi`, `lo`, returns
0 with `*rxlen` the data size when the CRC of `data` is `hi << 8 | lo`, and 1 otherwise. -/
theorem ym_crc16_residue (data : List Nat) (hi lo : Nat) (hlen : data.length ≤ 1024)
    (hhi : hi < 256) (hlo : lo < 256) :
    (ym_crc16 (data ++ [hi, lo]) (data.length + 2) = 0 ↔
      ym_crc16 data data.length = (hi <<< 8) ||| lo) ∧
    ym_crc16 (data ++ [(ym_crc16 data data.length >>> 8) &&& 0xFF,
      ym_crc16 data data.length &&& 0xFF]) (data.length + 2) = 0 ∧
    ∀ (rxdata : List Nat) (packets_rxed lead s t : Nat) (rest : List Int),
      (lead = SOH ∧ data.length = PACKET_SIZE ∨ lead = STX ∧ data.length = PACKET_1K_SIZE) →
      (∀ b ∈ data, b < 256) → s < 256 → t < 256 → (s &&& 0xff) = ((t ^^^ 0xff) &&& 0xff) →
      ym_rx_packet rxdata packets_rxed (wire (lead :: s :: t :: data ++ [hi, lo]) ++ rest) =
        some (if ym_crc16 data data.length = (hi <<< 8) ||| lo then
            ⟨0, data.length, mem_write (lead :: s :: t :: data ++ [hi, lo]) rxdata, rest⟩
          else ⟨1, 0, mem_write (lead :: s :: t :: data ++ [hi, lo]) rxdata, rest⟩) := by
  have key : ∀ h l : Nat, h < 256 → l < 256 →
      (ym_crc16 (data ++ [h, l]) (data.length + 2) = 0 ↔
        ym_crc16 data data.length = (h <<< 8) ||| l) := by
    intro h l hh hl
    rw [ym_crc16_of_length (data ++ [h, l]) (data.length + 2) (by simp) (by omega),
      List.foldl_append, ← ym_crc16_of_length data data.length rfl (by omega)]
    exact ym_crc16_step_trailer _ h l (ym_crc16_lt _ _) hh hl
  refine ⟨key hi lo hhi hlo, ?_, ?_⟩
  · exact (key _ _ (crc_high_lt _) (crc_low_lt _)).2 (crc_high_low _ (ym_crc16_lt _ _)).symm
  · intro rxdata packets_rxed lead s t rest hlead hdata hs ht hseq
    rw [ym_rx_packet_wire rxdata packets_rxed lead s t data hi lo rest hlead hs ht hdata hhi hlo,
      if_neg (not_not.mpr hseq)]

/-- C2, at the 128 zero bytes of the end-of-batch block, whose CRC is 0, with the trailer
`00 00` and in a frame `SOH 00 FF`. -/
theorem ym_crc16_residue_witness :
    (ym_crc16 (List.replicate 128 0 ++ [0, 0]) ((List.replicate 128 0).length + 2) = 0 ↔
      ym_crc16 (List.replicate 128 0) (List.replicate 128 0).length = (0 <<< 8) ||| 0) ∧
    ym_rx_packet [] 0 (wire (SOH :: 0 :: 255 :: List.replicate 128 0 ++ [0, 0]) ++ []) =
      some (if ym_crc16 (List.replicate 128 0) (List.replicate 128 0).length = (0 <<< 8) ||| 0
        then ⟨0, (List.replicate 128 0).length,
          mem_write (SOH :: 0 :: 255 :: List.replicate 128 0 ++ [0, 0]) [], []⟩
        else ⟨1, 0, mem_write (SOH :: 0 :: 255 :: List.replicate 128 0 ++ [0, 0]) [], []⟩) :=
  ⟨(ym_crc16_residue (List.replicate 128 0) 0 0 (by simp) (by decide) (by decide)).1,
    (ym_crc16_residue (List.replicate 128 0) 0 0 (by simp) (by decide) (by decide)).2.2
      [] 0 SOH 0 255 [] (Or.inl ⟨rfl, by simp⟩)
      (fun b hb => by rw [List.eq_of_mem_replicate hb]; decide) (by decide) (by decide)
      (by decide)⟩

/-- C5: for every block number and every data block of the size `ym_send_packet` uses for
it (128 bytes for block 0, else 1024 bytes), `ym_send_packet` emits the lead byte (`SOH`
for block 0, else `STX`), `block_nbr & 0xFF`, `~block_nbr & 0xFF`, the data bytes and the
CRC of the data, high byte first; and `ym_rx_packet` reading these bytes returns 0 with
`*rxlen` the data size, `rxdata[1] = block_nbr & 0xFF` and the data at `rxdata[3 ..]`. -/
theorem ym_send_packet_roundtrip (data : List Nat) (block_nbr : Int) (rxdata : List Nat)
    (packets_rxed : Nat) (rest : List Int) (hdata : ∀ b ∈ data, b < 256)
    (hlen : data.length = if block_nbr = 0 then PACKET_SIZE else PACKET_1K_SIZE) :
    ym_send_packet data block_nbr =
      [if block_nbr = 0 then SOH else STX, (block_nbr % 256).toNat,
        ((-block_nbr - 1) % 256).toNat] ++ data ++
      [(ym_crc16 data data.length >>> 8) &&& 0xFF, ym_crc16 data data.length &&& 0xFF] ∧
    ∃ buf : List Nat,
      ym_rx_packet rxdata packets_rxed (wire (ym_send_packet data block_nbr) ++ rest) =
        some ⟨0, data.length, buf, rest⟩ ∧
      buf.getD PACKET_SEQNO_INDEX 0 = (block_nbr % 256).toNat ∧
      (buf.drop PACKET_HEADER).take data.length = data := by
  refine ⟨ym_send_packet_bytes data block_nbr hlen,
    mem_write (ym_send_packet data block_nbr) rxdata,
    ym_rx_packet_ym_send_packet rxdata packets_rxed data block_nbr rest hdata hlen, ?_, ?_⟩
  · rw [ym_send_packet_bytes data block_nbr hlen]
    simp [mem_write]
  · rw [ym_send_packet_bytes data block_nbr hlen]
    simp [mem_write]

/-- C5, at block 1 with 1024 zero bytes. -/
theorem ym_send_packet_roundtrip_witness :
    ∃ buf : List Nat,
      ym_rx_packet [] 7 (wire (ym_send_packet (List.replicate 1024 0) 1) ++ [4]) =
        some ⟨0, (List.replicate 1024 0).length, buf, [4]⟩ ∧
      buf.getD PACKET_SEQNO_INDEX 0 = ((1 : Int) % 256).toNat ∧
      (buf.drop PACKET_HEADER).take (List.replicate 1024 0).length = List.replicate 1024 0 :=
  (ym_send_packet_roundtrip (List.replicate 1024 0) 1 [] 7 [4]
    (fun b hb => by rw [List.eq_of_mem_replicate hb]; decide)
    (by rw [List.length_replicate]; decide)).2

/-- C3: for every `v` in [0, 2^32), `ym_readU32` applied to the bytes written by
`ym_writeU32(v, buf)` followed by a NUL yields `v`; `ym_writeU32` writes the minimal
decimal representation of `v` (no leading zeros, a single '0' for `v = 0`), then a NUL,
and returns the digit count, which is between 1 and 10. -/
theorem ym_writeU32_readU32 (v : Nat) (hv : v < 2 ^ 32) :
    ym_readU32 ((ym_writeU32 v).1.take (ym_writeU32 v).2 ++ [0]) = v ∧
    ym_readU32 (ym_writeU32 v).1 = v ∧
    (ym_writeU32 v).1.take (ym_writeU32 v).2 = minimal_decimal v ∧
    (ym_writeU32 v).1 = minimal_decimal v ++ [0] ∧
    (ym_writeU32 v).2 = (minimal_decimal v).length ∧
    1 ≤ (ym_writeU32 v).2 ∧ (ym_writeU32 v).2 ≤ 10 := by
  rw [ym_writeU32_eq v hv]
  refine ⟨?_, ym_readU32_minimal_decimal v [] hv, ?_, rfl, rfl, minimal_decimal_length v hv⟩
  · rw [List.take_left]
    exact ym_readU32_minimal_decimal v [] hv
  · exact List.take_left _ _

/-- C3, at the largest 32-bit value, 4294967295. -/
theorem ym_writeU32_readU32_witness :
    4294967295 < 2 ^ 32 ∧
    ym_readU32 ((ym_writeU32 4294967295).1.take (ym_writeU32 4294967295).2 ++ [0])
      = 4294967295 ∧
    (ym_writeU32 4294967295).2 ≤ 10 :=
  ⟨by norm_num, (ym_writeU32_readU32 4294967295 (by norm_num)).1,
    (ym_writeU32_readU32 4294967295 (by norm_num)).2.2.2.2.2.2⟩

/-- C4, as the code has it: for every filename of non-zero bytes that is at most 110 bytes
long and shorter than `FYMODEM_FILE_NAME_MAX_LENGTH`, and every file size in [0, 2^32),
the block that `ym_send_packet0(filename, size)` builds has 128 bytes, and the block 0
code of `fymodem_receive` classifies it as a file header, stores exactly the filename and
its NUL into the filename slot, at indices below `FYMODEM_FILE_NAME_MAX_LENGTH`, and
reads exactly that size. -/
theorem fymodem_receive_block0_ym_send_packet0 (FYMODEM_FILE_NAME_MAX_LENGTH : Nat)
    (name : List Nat) (size : Nat) (h0 h1 h2 : Nat) (tail filename filesize_asc : List Nat)
    (hnz : ∀ c ∈ name, c ≠ 0) (hlen : name.length ≤ 110)
    (hmax : name.length < FYMODEM_FILE_NAME_MAX_LENGTH) (hsize : size < 2 ^ 32) :
    (ym_send_packet0_block (some name) (to_i32 size)).length = PACKET_SIZE ∧
    (name ++ [0]).length ≤ FYMODEM_FILE_NAME_MAX_LENGTH ∧
    ∃ asc : List Nat,
      fymodem_receive_block0 FYMODEM_FILE_NAME_MAX_LENGTH
          (h0 :: h1 :: h2 :: (ym_send_packet0_block (some name) (to_i32 size) ++ tail))
          filename filesize_asc =
        some (mem_write (name ++ [0]) filename, asc, size) := by
  refine ⟨?_, ?_, _, fymodem_receive_block0_eq FYMODEM_FILE_NAME_MAX_LENGTH h0 h1 h2 name size
    tail filename filesize_asc hnz hlen (Nat.le_of_lt hmax) hsize⟩
  · rw [ym_send_packet0_block_eq name size hnz hlen hsize]
    have := minimal_decimal_length size hsize
    simp only [List.length_append, List.length_cons, List.length_replicate]
    show _ = 128
    omega
  · simp only [List.length_append, List.length_cons, List.length_nil]
    omega

/-- C4, at the filename "hi.txt" and the size 5, for a filename slot of 64 bytes. -/
theorem fymodem_receive_block0_ym_send_packet0_witness :
    ∃ asc : List Nat,
      fymodem_receive_block0 64
          (SOH :: 0 :: 255 ::
            (ym_send_packet0_block (some [104, 105, 46, 116, 120, 116]) (to_i32 5) ++ []))
          [0] [] =
        some (mem_write ([104, 105, 46, 116, 120, 116] ++ [0]) [0], asc, 5) :=
  (fymodem_receive_block0_ym_send_packet0 64 [104, 105, 46, 116, 120, 116] 5 SOH 0 255 [] [0] []
    (by decide) (by decide) (by decide) (by norm_num)).2.2

/-- C4 fails for a filename of 65 bytes when `FYMODEM_FILE_NAME_MAX_LENGTH` is 64: of the
block that `ym_send_packet0` builds for 65 times 'a' and the size 5, the block 0 code of
`fymodem_receive` stores 64 times 'a' and a NUL, at index 64, and reads the size 0. -/
theorem fymodem_receive_block0_long_filename :
    (List.replicate 65 97).length ≤ 110 ∧
    (fymodem_receive_block0 64
        (SOH :: 0 :: 255 :: (ym_send_packet0_block (some (List.replicate 65 97)) (to_i32 5) ++ []))
        [0] []).map (fun r => (r.1, r.2.2)) =
      some (List.replicate 64 97 ++ [0], 0) := by
  decide!

/-- C6, as the code has it: for every well-formed session fed to `fymodem_receive` (a
valid block 0 that carries a filename of non-zero bytes, which fits the filename slot,
being shorter than `FYMODEM_FILE_NAME_MAX_LENGTH`, and a size whose digits a NUL or a
space ends; then `n` valid data packets with the sequence numbers 1..n modulo 256; then
`EOT`; then a valid all-zero block 0), with the size and the total of the data bytes at
most the capacity `rxlen`, and `rxlen` below 2^31: `fymodem_receive` returns the declared
size, the filename slot holds the filename and its NUL, the buffer holds the
concatenation of the data of the packets, and the bytes emitted are `ACK CRC`, one `ACK`
per data packet, `ACK CRC` for the `EOT`, and a final `ACK`. -/
theorem fymodem_receive_session (FYMODEM_FILE_NAME_MAX_LENGTH rxlen : Nat) (stack : List Nat)
    (name : List Nat) (size term : Nat) (tail : List Nat) (ds : List (List Nat))
    (rest : List Int)
    (hnz : ∀ c ∈ name, c ≠ 0) (hmax : name.length < FYMODEM_FILE_NAME_MAX_LENGTH)
    (hterm : term = 0 ∨ term = 32)
    (hb : ∀ b ∈ header_block name size term tail, b < 256)
    (hlen : (header_block name size term tail).length = PACKET_SIZE)
    (hds : ∀ d ∈ ds, (∀ b ∈ d, b < 256) ∧ (d.length = PACKET_SIZE ∨ d.length = PACKET_1K_SIZE))
    (hsize : size ≤ rxlen) (hfit : ds.flatten.length ≤ rxlen) (hcap : rxlen < 2 ^ 31) :
    ∃ t : RxState,
      fymodem_receive FYMODEM_FILE_NAME_MAX_LENGTH rxlen stack
          (session (header_block name size term tail) ds rest) =
        some ((size : Int), t) ∧
      t.filename = name ++ [0] ∧ t.rxdata = ds.flatten ∧
      t.output = [ACK, CRC] ++ List.replicate ds.length ACK ++ [ACK, CRC] ++ [ACK] ∧
      t.input = rest := by
  have hge := session_length_ge (header_block name size term tail) ds rest
  obtain ⟨fuel, hfuel⟩ : ∃ fuel, (session (header_block name size term tail) ds rest).length + 1
      = fuel + 2 + ds.length + 1 :=
    ⟨(session (header_block name size term tail) ds rest).length - ds.length - 2, by omega⟩
  unfold fymodem_receive
  rw [hfuel]
  exact fymodem_receive_loop_session FYMODEM_FILE_NAME_MAX_LENGTH rxlen stack name size term
    tail ds rest fuel hnz (Nat.le_of_lt hmax) hterm hb hlen hds hsize hfit hcap

/-- C6, at Scenario 1: the file "hi.txt" of size 5, sent, with the block 0 that
`ym_send_packet0` builds, as one block of 1024 bytes that starts with "Hello", is
received into a buffer of 1024 bytes; `fymodem_receive` returns 5.  The session is what
`ym_send_packet0` and `ym_send_packet` emit. -/
theorem fymodem_receive_session_witness :
    frame 0 (header_block [104, 105, 46, 116, 120, 116] 5 0 (List.replicate 119 0)) =
      ym_send_packet0 (some [104, 105, 46, 116, 120, 116]) (to_i32 5) ∧
    frames 1 [[72, 101, 108, 108, 111] ++ List.replicate 1019 0] =
      ym_send_packet ([72, 101, 108, 108, 111] ++ List.replicate 1019 0) 1 ∧
    frame 0 (List.replicate PACKET_SIZE 0) = ym_send_packet0 none 0 ∧
    ∃ t : RxState,
      fymodem_receive 64 1024 []
          (session (header_block [104, 105, 46, 116, 120, 116] 5 0 (List.replicate 119 0))
            [[72, 101, 108, 108, 111] ++ List.replicate 1019 0] []) =
        some ((5 : Int), t) ∧
      t.filename = [104, 105, 46, 116, 120, 116] ++ [0] ∧
      t.rxdata = [[72, 101, 108, 108, 111] ++ List.replicate 1019 0].flatten ∧
      t.output = [ACK, CRC] ++ List.replicate 1 ACK ++ [ACK, CRC] ++ [ACK] ∧
      t.input = [] :=
  ⟨by
    rw [ym_send_packet0_eq_frame _ 5 (by decide) (by decide) (by norm_num),
      ym_send_packet0_block_eq_header_block _ 5 (by decide) (by decide) (by norm_num),
      minimal_decimal_5]
    rfl,
  by decide!,
  ym_send_packet0_none_eq_frame.symm,
  fymodem_receive_session 64 1024 [] [104, 105, 46, 116, 120, 116] 5 0 (List.replicate 119 0)
    [[72, 101, 108, 108, 111] ++ List.replicate 1019 0] []
    (by decide) (by decide) (Or.inl rfl)
    (header_block_lt _ _ _ _ (by decide) (by decide)
      (fun b hb => by rw [List.eq_of_mem_replicate hb]; decide))
    (by simp [header_block, minimal_decimal_5])
    (by
      intro d hd
      rw [List.mem_singleton] at hd
      subst hd
      refine ⟨?_, Or.inr (by rw [List.length_append, List.length_replicate]; rfl)⟩
      intro b hb
      rw [List.mem_append] at hb
      rcases hb with hb | hb
      · revert b; decide
      · rw [List.eq_of_mem_replicate hb]; decide)
    (by decide)
    (by
      simp only [List.flatten_cons, List.flatten_nil, List.append_nil, List.length_append,
        List.length_replicate, List.length_cons, List.length_nil]
      decide)
    (by norm_num)⟩

/-- C6 fails for a capacity of 2^31 bytes: on the session of Scenario 1, `fymodem_receive`
answers the data packet with `CAN CAN` and returns 0.  It fails as well for a filename
that does not fit the filename slot: with `FYMODEM_FILE_NAME_MAX_LENGTH = 64`, the
capacity 1024 and the block 0 that `ym_send_packet0` builds for a filename of 65 times 'a'
and the size 5, the session of Scenario 1 is acknowledged throughout but
`fymodem_receive` returns 0, not 5, and the filename slot holds 64 bytes of the name. -/
theorem fymodem_receive_session_capacity :
    (fymodem_receive 64 (2 ^ 31) []
        (session (ym_send_packet0_block (some [104, 105, 46, 116, 120, 116]) (to_i32 5))
          [[72, 101, 108, 108, 111] ++ List.replicate 1019 0] [])).map
      (fun r => (r.1, r.2.output)) = some (0, [ACK, CRC, CAN, CAN]) ∧
    (fymodem_receive 64 1024 []
        (session (ym_send_packet0_block (some (List.replicate 65 97)) (to_i32 5))
          [[72, 101, 108, 108, 111] ++ List.replicate 1019 0] [])).map
      (fun r => (r.1, r.2.output, r.2.filename)) =
      some (0, [ACK, CRC, ACK, ACK, CRC, ACK], List.replicate 64 97 ++ [0]) := by
  decide!

/-- C8, as the code has it: for every file header block 0 that carries a filename of
non-zero bytes shorter than `FYMODEM_FILE_NAME_MAX_LENGTH` (so that it fits the filename
slot) and a size below 2^32 whose digits a NUL or a space ends, and whose declared size is
greater than the capacity `rxlen`, `fymodem_receive` emits exactly `CAN CAN`, stores
nothing into the caller's buffer, and returns 0. -/
theorem fymodem_receive_size_above_capacity (FYMODEM_FILE_NAME_MAX_LENGTH rxlen : Nat)
    (stack : List Nat) (name : List Nat) (size term : Nat) (tail : List Nat) (rest : List Int)
    (hnz : ∀ c ∈ name, c ≠ 0) (hmax : name.length < FYMODEM_FILE_NAME_MAX_LENGTH)
    (hterm : term = 0 ∨ term = 32)
    (hb : ∀ b ∈ header_block name size term tail, b < 256)
    (hlen : (header_block name size term tail).length = PACKET_SIZE)
    (hsize : size < 2 ^ 32) (hgt : size > rxlen) :
    ∃ t : RxState,
      fymodem_receive FYMODEM_FILE_NAME_MAX_LENGTH rxlen stack
          (wire (frame 0 (header_block name size term tail)) ++ rest) = some (0, t) ∧
      t.output = [CAN, CAN] ∧ t.rxdata = [] ∧ t.input = rest := by
  obtain ⟨t, hstep, a1, a2, _, a4, _, _, _⟩ := fymodem_receive_packet_header
    FYMODEM_FILE_NAME_MAX_LENGTH rxlen
    (fymodem_receive_file_begin true (fymodem_receive_init stack
      (wire (frame 0 (header_block name size term tail)) ++ rest)))
    name size term tail rest hnz (Nat.le_of_lt hmax) hsize hterm hb hlen rfl rfl
  rw [if_pos hgt] at hstep a2
  refine ⟨t, ?_, ?_, ?_, a1⟩
  · unfold fymodem_receive
    rw [fymodem_receive_loop, hstep]
  · rw [a2]; rfl
  · rw [a4]; rfl

/-- C8, at Scenario 5: the block 0 that `ym_send_packet0` builds for "hi.txt" declares the
size 10000, the capacity is 1024. -/
theorem fymodem_receive_size_above_capacity_witness :
    frame 0 (header_block [104, 105, 46, 116, 120, 116] 10000 0 (List.replicate 115 0)) =
      ym_send_packet0 (some [104, 105, 46, 116, 120, 116]) (to_i32 10000) ∧
    ∃ t : RxState,
      fymodem_receive 64 1024 []
          (wire (frame 0 (header_block [104, 105, 46, 116, 120, 116] 10000 0
            (List.replicate 115 0))) ++ []) = some (0, t) ∧
      t.output = [CAN, CAN] ∧ t.rxdata = [] ∧ t.input = [] :=
  ⟨by
    rw [ym_send_packet0_eq_frame _ 10000 (by decide) (by decide) (by norm_num),
      ym_send_packet0_block_eq_header_block _ 10000 (by decide) (by decide) (by norm_num),
      minimal_decimal_10000]
    rfl,
  fymodem_receive_size_above_capacity 64 1024 [] [104, 105, 46, 116, 120, 116] 10000 0
    (List.replicate 115 0) []
    (by decide) (by decide) (Or.inl rfl)
    (header_block_lt _ _ _ _ (by decide) (by decide)
      (fun b hb => by rw [List.eq_of_mem_replicate hb]; decide))
    (by simp [header_block, minimal_decimal_10000])
    (by norm_num) (by norm_num)⟩

/-- C8 fails for a header whose filename does not fit the filename slot, and for one whose
size is not below 2^32.  With `FYMODEM_FILE_NAME_MAX_LENGTH = 64` and the capacity 1024,
the block 0 that `ym_send_packet0` builds for a filename of 65 times 'a' and the size
10000 is answered with `ACK CRC`: the size read is 0 and the receiver awaits block 1.  The
block 0 of the file "a" that declares the size 2^32 = 4294967296 is answered with
`ACK CRC` as well, the size read being 0. -/
theorem fymodem_receive_size_above_capacity_misread :
    (fymodem_receive_after 64 1024 1
      (fymodem_receive_file_begin true (fymodem_receive_init []
        (wire (frame 0 (ym_send_packet0_block (some (List.replicate 65 97)) (to_i32 10000)))
          ++ [])))).map
      (fun s => (s.output, s.filesize, s.packets_rxed, s.input)) =
      some ([ACK, CRC], 0, 1, []) ∧
    header_block [97] 4294967296 0 (List.replicate 115 0) =
      [97, 0, 52, 50, 57, 52, 57, 54, 55, 50, 57, 54] ++ List.replicate 116 0 ∧
    (fymodem_receive_after 64 1024 1
      (fymodem_receive_file_begin true (fymodem_receive_init []
        (wire (frame 0 ([97, 0, 52, 50, 57, 52, 57, 54, 55, 50, 57, 54] ++
          List.replicate 116 0)) ++ [])))).map
      (fun s => (s.output, s.filesize, s.packets_rxed, s.input)) =
      some ([ACK, CRC], 0, 1, []) := by
  refine ⟨by decide!, ?_, by decide!⟩
  have hd : minimal_decimal 4294967296 = [52, 50, 57, 52, 57, 54, 55, 50, 57, 54] := by
    simp [minimal_decimal]
  rw [header_block, hd]
  rfl

/-- C7: for every input and every capacity `rxlen`, in every state `s` that a run of
`fymodem_receive` reaches (after any number `k` of rounds of the loop "receive packets"),
and in the state that the next round ends with, the write cursor is at most `rxlen` and
the bytes stored into the caller's buffer are at indices below `rxlen`; and a data packet
that would take the cursor past `rxlen` is not stored: the receiver emits `CAN CAN` and
returns 0.  The state that `fymodem_receive` returns with is within the capacity as
well. -/
theorem fymodem_receive_cursor_bound (FYMODEM_FILE_NAME_MAX_LENGTH rxlen : Nat)
    (stack : List Nat) (input : List Int) (k : Nat) (s : RxState)
    (h : fymodem_receive_after FYMODEM_FILE_NAME_MAX_LENGTH rxlen k
      (fymodem_receive_file_begin true (fymodem_receive_init stack input)) = some s) :
    s.rxptr ≤ rxlen ∧ s.rxdata.length ≤ rxlen ∧ s.rxptr ≤ s.rxdata.length ∧
    (∀ r : RxStep, fymodem_receive_packet FYMODEM_FILE_NAME_MAX_LENGTH rxlen s = some r →
      r.state.rxptr ≤ rxlen ∧ r.state.rxdata.length ≤ rxlen ∧
        r.state.rxptr ≤ r.state.rxdata.length) ∧
    (∀ (v : Int) (t : RxState),
      fymodem_receive FYMODEM_FILE_NAME_MAX_LENGTH rxlen stack input = some (v, t) →
      t.rxptr ≤ rxlen ∧ t.rxdata.length ≤ rxlen ∧ t.rxptr ≤ t.rxdata.length) ∧
    (∀ p : RxPacket, ym_rx_packet s.rx_packet_data s.packets_rxed s.input = some p →
      p.res = 0 → 0 < p.rxlen →
      (p.rxdata.getD PACKET_SEQNO_INDEX 0 &&& 0xff) = (s.packets_rxed &&& 0xff) →
      s.packets_rxed ≠ 0 → (s.rxptr : Int) + p.rxlen > (rxlen : Int) →
      ∃ t : RxState,
        fymodem_receive_packet FYMODEM_FILE_NAME_MAX_LENGTH rxlen s = some (.ret t 0) ∧
        t.output = s.output ++ [CAN, CAN] ∧ t.rxdata = s.rxdata ∧ t.rxptr = s.rxptr) := by
  have hc := fymodem_receive_after_cursor FYMODEM_FILE_NAME_MAX_LENGTH rxlen k _ s h
    (Nat.zero_le _) (Nat.zero_le _) (Nat.zero_le _)
  refine ⟨hc.1, hc.2.1, hc.2.2, ?_, ?_, ?_⟩
  · intro r hr
    exact fymodem_receive_packet_cursor FYMODEM_FILE_NAME_MAX_LENGTH rxlen s r hr hc.1 hc.2.1
      hc.2.2
  · intro v t ht
    exact fymodem_receive_loop_cursor FYMODEM_FILE_NAME_MAX_LENGTH rxlen _ _ t v ht
      (Nat.zero_le _) (Nat.zero_le _) (Nat.zero_le _)
  · intro p hp hres hlen hseq hrx hov
    exact fymodem_receive_packet_overflow FYMODEM_FILE_NAME_MAX_LENGTH rxlen s p hp hres hlen
      hseq hrx hov

/-- C7, at a run with the capacity 1500: after the block 0 of "hi.txt" with the size 1200
and one data packet of 1024 bytes, the cursor is 1024 and 1024 bytes are stored. -/
theorem fymodem_receive_cursor_bound_witness :
    ∃ s : RxState,
      fymodem_receive_after 64 1500 2
        (fymodem_receive_file_begin true (fymodem_receive_init []
          (session (ym_send_packet0_block (some [104, 105, 46, 116, 120, 116]) (to_i32 1200))
            [List.replicate 1024 7, List.replicate 1024 8] []))) = some s ∧
      s.rxptr = 1024 ∧ s.rxptr ≤ 1500 ∧ s.rxdata.length ≤ 1500 := by
  have hv : (fymodem_receive_after 64 1500 2
      (fymodem_receive_file_begin true (fymodem_receive_init []
        (session (ym_send_packet0_block (some [104, 105, 46, 116, 120, 116]) (to_i32 1200))
          [List.replicate 1024 7, List.replicate 1024 8] [])))).map (fun s => s.rxptr)
      = some 1024 := by
    decide!
  cases hs : fymodem_receive_after 64 1500 2
      (fymodem_receive_file_begin true (fymodem_receive_init []
        (session (ym_send_packet0_block (some [104, 105, 46, 116, 120, 116]) (to_i32 1200))
          [List.replicate 1024 7, List.replicate 1024 8] []))) with
  | none => rw [hs] at hv; simp at hv
  | some s =>
    rw [hs] at hv
    have hb := fymodem_receive_cursor_bound 64 1500 [] _ 2 s hs
    exact ⟨s, rfl, by simpa using hv, hb.1, hb.2.1⟩

/-- C10 fails on the code: after the block 0 of the file "a" of size 1, the byte 'A' does
not end `fymodem_receive`; it emits the solicitation `CRC`, reads on (here `CAN CAN`,
which it answers with `ACK`) and only then returns 0. -/
theorem fymodem_receive_user_abort_goes_on :
    (fymodem_receive 64 1024 []
        (wire (ym_send_packet0 (some [97]) 1) ++ [(ABORT1 : Int), (CAN : Int), (CAN : Int)])).map
      (fun r => (r.1, r.2.output, r.2.input)) = some (0, [ACK, CRC, CRC, ACK], []) ∧
    (fymodem_receive_after 64 1024 2 (fymodem_receive_file_begin true (fymodem_receive_init []
        (wire (ym_send_packet0 (some [97]) 1) ++ [(ABORT2 : Int), (CAN : Int), (CAN : Int)])))).map
      (fun s => (s.output, s.input, s.nbr_errors, s.packets_rxed)) =
      some ([ACK, CRC, CRC], [(CAN : Int), (CAN : Int)], 1, 1) := by
  decide!

/-- C11, as the code has it: let `rxlen < 2^31`.  In every state `s` that a run of
`fymodem_receive` reaches, the count of consecutive errors is below
`PACKET_ERROR_MAX_NBR = 5` and no `CAN` has been emitted.  In the next round, a failed
`ym_rx_packet` (non-zero result) is not counted when `packets_rxed = 0` and is answered
with one `CRC`; when `packets_rxed ≠ 0` it is counted, and is answered with one `CRC`
unless the count reaches 5, in which case the receiver emits `CAN CAN` and returns 0; a
successful read resets the count.  A round emits `CAN` only as `CAN CAN` with the return
of 0, and only for one of three causes: the fifth consecutive counted error, a size read
from a block 0 that is above the capacity, or a data packet that ends beyond the
capacity.  Hence a run that returns having emitted `CAN` has met one of the three in its
last round.  The size read from a block 0 is the declared size when the block is a file
header whose filename, of non-zero bytes, is shorter than `FYMODEM_FILE_NAME_MAX_LENGTH`
and whose size is below 2^32, its digits ended by a NUL or a space: such a header is
answered with `CAN CAN` when the declared size is above the capacity and with `ACK` and
the solicitation otherwise. -/
theorem fymodem_receive_error_count (FYMODEM_FILE_NAME_MAX_LENGTH rxlen : Nat)
    (stack : List Nat) (input : List Int) (hcap : rxlen < 2 ^ 31) (k : Nat) (s : RxState)
    (h : fymodem_receive_after FYMODEM_FILE_NAME_MAX_LENGTH rxlen k
      (fymodem_receive_file_begin true (fymodem_receive_init stack input)) = some s) :
    s.nbr_errors < PACKET_ERROR_MAX_NBR ∧ CAN ∉ s.output ∧
    (∀ p : RxPacket, ym_rx_packet s.rx_packet_data s.packets_rxed s.input = some p →
      (p.res ≠ 0 → s.packets_rxed = 0 →
        fymodem_receive_packet FYMODEM_FILE_NAME_MAX_LENGTH rxlen s =
          some (.next { s with input := p.input, rx_packet_data := p.rxdata
                               output := s.output ++ [CRC] })) ∧
      (p.res ≠ 0 → s.packets_rxed ≠ 0 → s.nbr_errors + 1 < PACKET_ERROR_MAX_NBR →
        fymodem_receive_packet FYMODEM_FILE_NAME_MAX_LENGTH rxlen s =
          some (.next { s with input := p.input, rx_packet_data := p.rxdata
                               nbr_errors := s.nbr_errors + 1
                               output := s.output ++ [CRC] })) ∧
      (p.res ≠ 0 → s.packets_rxed ≠ 0 → s.nbr_errors + 1 = PACKET_ERROR_MAX_NBR →
        fymodem_receive_packet FYMODEM_FILE_NAME_MAX_LENGTH rxlen s =
          some (.ret { s with input := p.input, rx_packet_data := p.rxdata
                              nbr_errors := s.nbr_errors + 1
                              output := s.output ++ [CAN, CAN] } 0)) ∧
      (∀ r : RxStep, fymodem_receive_packet FYMODEM_FILE_NAME_MAX_LENGTH rxlen s = some r →
        (p.res = 0 → r.state.nbr_errors = 0) ∧
        (CAN ∈ r.state.output →
          r.state.output = s.output ++ [CAN, CAN] ∧ (∃ t, r = .ret t 0) ∧
          (p.res ≠ 0 ∧ s.packets_rxed ≠ 0 ∧ s.nbr_errors + 1 = PACKET_ERROR_MAX_NBR ∨
           p.res = 0 ∧ s.packets_rxed = 0 ∧ r.state.filesize > rxlen ∨
           p.res = 0 ∧ s.packets_rxed ≠ 0 ∧ (s.rxptr : Int) + p.rxlen > (rxlen : Int))))) ∧
    (∀ (v : Int) (t : RxState),
      fymodem_receive FYMODEM_FILE_NAME_MAX_LENGTH rxlen stack input = some (v, t) →
      CAN ∈ t.output →
      v = 0 ∧ ∃ (j : Nat) (u : RxState) (p : RxPacket),
        fymodem_receive_after FYMODEM_FILE_NAME_MAX_LENGTH rxlen j
          (fymodem_receive_file_begin true (fymodem_receive_init stack input)) = some u ∧
        ym_rx_packet u.rx_packet_data u.packets_rxed u.input = some p ∧
        fymodem_receive_packet FYMODEM_FILE_NAME_MAX_LENGTH rxlen u = some (.ret t 0) ∧
        CAN ∉ u.output ∧ t.output = u.output ++ [CAN, CAN] ∧
        (p.res ≠ 0 ∧ u.packets_rxed ≠ 0 ∧ u.nbr_errors + 1 = PACKET_ERROR_MAX_NBR ∨
         p.res = 0 ∧ u.packets_rxed = 0 ∧ t.filesize > rxlen ∨
         p.res = 0 ∧ u.packets_rxed ≠ 0 ∧ (u.rxptr : Int) + p.rxlen > (rxlen : Int))) ∧
    (∀ (name : List Nat) (size term : Nat) (tail : List Nat) (rest : List Int),
      (∀ c ∈ name, c ≠ 0) → name.length < FYMODEM_FILE_NAME_MAX_LENGTH → size < 2 ^ 32 →
      (term = 0 ∨ term = 32) → (∀ b ∈ header_block name size term tail, b < 256) →
      (header_block name size term tail).length = PACKET_SIZE →
      s.packets_rxed = 0 →
      s.input = wire (frame 0 (header_block name size term tail)) ++ rest →
      ∃ t : RxState,
        fymodem_receive_packet FYMODEM_FILE_NAME_MAX_LENGTH rxlen s =
          some (if size > rxlen then .ret t 0 else .next t) ∧
        t.filesize = size ∧
        t.output = s.output ++
          (if size > rxlen then [CAN, CAN] else [ACK, if s.crc_nak then CRC else NAK])) := by
  have hcast : to_i32 rxlen = (rxlen : Int) := to_i32_of_lt rxlen hcap
  have hinit : (fymodem_receive_file_begin true (fymodem_receive_init stack input)).nbr_errors
      < PACKET_ERROR_MAX_NBR := Nat.zero_lt_succ 4
  have hinit2 : CAN ∉ (fymodem_receive_file_begin true
      (fymodem_receive_init stack input)).output := List.not_mem_nil _
  have hmax : PACKET_ERROR_MAX_NBR = 5 := rfl
  -- a round from a state without CAN
  have hround : ∀ (u : RxState) (p : RxPacket) (r : RxStep),
      u.nbr_errors < PACKET_ERROR_MAX_NBR → CAN ∉ u.output →
      ym_rx_packet u.rx_packet_data u.packets_rxed u.input = some p →
      fymodem_receive_packet FYMODEM_FILE_NAME_MAX_LENGTH rxlen u = some r →
      CAN ∈ r.state.output →
      r.state.output = u.output ++ [CAN, CAN] ∧ (∃ t, r = .ret t 0) ∧
      (p.res ≠ 0 ∧ u.packets_rxed ≠ 0 ∧ u.nbr_errors + 1 = PACKET_ERROR_MAX_NBR ∨
       p.res = 0 ∧ u.packets_rxed = 0 ∧ r.state.filesize > rxlen ∨
       p.res = 0 ∧ u.packets_rxed ≠ 0 ∧ (u.rxptr : Int) + p.rxlen > (rxlen : Int)) := by
    intro u p r hue huc hp hr hmem
    have ho := fymodem_receive_packet_outcome FYMODEM_FILE_NAME_MAX_LENGTH rxlen u r p hp hr
    by_cases hret : ∀ t v, r ≠ .ret t v
    · exact absurd hmem
        (fymodem_receive_packet_no_can FYMODEM_FILE_NAME_MAX_LENGTH rxlen u r hr hue huc hret).2
    · rcases ho.2.2 with ⟨b, hb, hout⟩ | ⟨b, hb, hout⟩ | ⟨hout, ht, hcause⟩
      · rw [hout] at hmem
        exfalso
        rcases List.mem_append.mp hmem with hm | hm
        · exact huc hm
        · rw [List.mem_singleton] at hm
          rcases hb with hb | hb | hb <;> rw [hb] at hm <;> revert hm <;> decide
      · rw [hout] at hmem
        exfalso
        rcases List.mem_append.mp hmem with hm | hm
        · exact huc hm
        · simp only [List.mem_cons, List.mem_singleton, List.not_mem_nil, or_false] at hm
          rcases hm with hm | hm
          · revert hm; decide
          · rcases hb with hb | hb <;> rw [hb] at hm <;> revert hm <;> decide
      · refine ⟨hout, ht, ?_⟩
        rcases hcause with ⟨h1, h2, h3⟩ | hc | ⟨h1, h2, h3⟩
        · exact Or.inl ⟨h1, h2, by omega⟩
        · exact Or.inr (Or.inl hc)
        · rw [hcast] at h3
          exact Or.inr (Or.inr ⟨h1, h2, h3⟩)
  have hs := fymodem_receive_after_no_can FYMODEM_FILE_NAME_MAX_LENGTH rxlen k _ s h hinit hinit2
  refine ⟨hs.1, hs.2, ?_, ?_, ?_⟩
  · intro p hp
    refine ⟨?_, ?_, ?_, ?_⟩
    · intro hres h0
      rw [fymodem_receive_packet_error FYMODEM_FILE_NAME_MAX_LENGTH rxlen s p hp hres,
        if_neg (not_not.mpr h0)]
    · intro hres h0 hlt
      rw [fymodem_receive_packet_error FYMODEM_FILE_NAME_MAX_LENGTH rxlen s p hp hres,
        if_pos h0, if_neg (by omega)]
    · intro hres h0 heq
      rw [fymodem_receive_packet_error FYMODEM_FILE_NAME_MAX_LENGTH rxlen s p hp hres,
        if_pos h0, if_pos (by omega)]
    · intro r hr
      exact ⟨(fymodem_receive_packet_outcome FYMODEM_FILE_NAME_MAX_LENGTH rxlen s r p hp hr).1,
        hround s p r hs.1 hs.2 hp hr⟩
  · intro v t hrun hmem
    obtain ⟨j, u, hj, hlast⟩ := fymodem_receive_loop_last_round FYMODEM_FILE_NAME_MAX_LENGTH
      rxlen _ _ t v hrun
    have hu := fymodem_receive_after_no_can FYMODEM_FILE_NAME_MAX_LENGTH rxlen j _ u hj
      hinit hinit2
    cases hp : ym_rx_packet u.rx_packet_data u.packets_rxed u.input with
    | none =>
      rcases hlast with hl | ⟨hl, _⟩ <;>
        (unfold fymodem_receive_packet at hl; rw [hp] at hl; exact Option.noConfusion hl)
    | some p =>
      rcases hlast with hl | ⟨hl, _⟩
      · obtain ⟨hout, ⟨t', ht'⟩, hcause⟩ := hround u p _ hu.1 hu.2 hp hl hmem
        have hv : v = 0 := by
          injection ht' with _ hv
        subst hv
        exact ⟨rfl, j, u, p, hj, hp, hl, hu.2, hout, hcause⟩
      · obtain ⟨_, ⟨t', ht'⟩, _⟩ := hround u p _ hu.1 hu.2 hp hl hmem
        exact RxStep.noConfusion ht'
  · intro name size term tail rest hnz hmax hsize hterm hb hlen hp hin
    obtain ⟨t, hstep, _, a2, _, _, _, _, a7⟩ := fymodem_receive_packet_header
      FYMODEM_FILE_NAME_MAX_LENGTH rxlen s name size term tail rest hnz (Nat.le_of_lt hmax)
      hsize hterm hb hlen hp hin
    exact ⟨t, hstep, a7, a2⟩

/-- C11, at a run with the capacity 2048: after the block 0 of "a" with the size 3, two
reads time out; both are counted and answered with one `CRC` each, and no `CAN` has been
emitted. -/
theorem fymodem_receive_error_count_witness :
    ∃ s : RxState,
      fymodem_receive_after 64 2048 3
        (fymodem_receive_file_begin true (fymodem_receive_init []
          (wire (frame 0 (ym_send_packet0_block (some [97]) (to_i32 3))) ++ [-1, -1]))) =
        some s ∧
      s.nbr_errors = 2 ∧ s.output = [ACK, CRC, CRC, CRC] ∧
      s.nbr_errors < PACKET_ERROR_MAX_NBR ∧ CAN ∉ s.output := by
  have hv : (fymodem_receive_after 64 2048 3
      (fymodem_receive_file_begin true (fymodem_receive_init []
        (wire (frame 0 (ym_send_packet0_block (some [97]) (to_i32 3))) ++ [-1, -1])))).map
        (fun s => (s.nbr_errors, s.output))
      = some (2, [ACK, CRC, CRC, CRC]) := by
    decide!
  cases hs : fymodem_receive_after 64 2048 3
      (fymodem_receive_file_begin true (fymodem_receive_init []
        (wire (frame 0 (ym_send_packet0_block (some [97]) (to_i32 3))) ++ [-1, -1]))) with
  | none => rw [hs] at hv; exact Option.noConfusion hv
  | some s =>
    rw [hs] at hv
    simp only [Option.map_some', Option.some.injEq, Prod.mk.injEq] at hv
    have hb := fymodem_receive_error_count 64 2048 [] _ (by decide) 3 s hs
    exact ⟨s, rfl, hv.1, hv.2, hb.1, hb.2.1⟩

/-- C11 fails for a capacity of 2^31 bytes: in a run without any error, with the declared
size 3 and one data packet of 128 bytes, both within the capacity, the receiver answers
the data packet with `CAN CAN` and returns 0.  It fails as well for a filename that does
not fit the filename slot: with `FYMODEM_FILE_NAME_MAX_LENGTH = 64` and the capacity 1024,
the block 0 that `ym_send_packet0` builds for the size 5 and the filename of 64 times 'a'
and 7 times '9' is answered with `CAN CAN`, without any error and without any data: the
size read is 999999. -/
theorem fymodem_receive_error_count_capacity :
    (fymodem_receive 64 (2 ^ 31) []
        (session (ym_send_packet0_block (some [97]) (to_i32 3))
          [[1, 2, 3] ++ List.replicate 125 26] [])).map
      (fun r => (r.1, r.2.output, r.2.nbr_errors)) = some (0, [ACK, CRC, CAN, CAN], 0) ∧
    (fymodem_receive 64 1024 []
        (wire (frame 0 (ym_send_packet0_block
          (some (List.replicate 64 97 ++ List.replicate 7 57)) (to_i32 5))) ++ [])).map
      (fun r => (r.1, r.2.output, r.2.nbr_errors, r.2.filesize)) =
      some (0, [CAN, CAN], 0, 999999) := by
  decide!

/-- C12: for every state `s` of the receiver (any cursor, any `packets_rxed`, any error
count) and every valid packet (128 or 1024 data bytes, sequence complement and CRC
correct) whose sequence byte differs from `packets_rxed & 0xFF`: the round of
`fymodem_receive` that reads it emits exactly one `NAK` and goes on with the write cursor,
the caller's buffer, `packets_rxed`, the filename, the file size and `crc_nak` unchanged;
the count of consecutive errors is not incremented (it is reset to 0). -/
theorem fymodem_receive_wrong_sequence (FYMODEM_FILE_NAME_MAX_LENGTH rxlen : Nat)
    (s : RxState) (seq : Nat) (data : List Nat) (rest : List Int)
    (hdata : ∀ b ∈ data, b < 256)
    (hlen : data.length = PACKET_SIZE ∨ data.length = PACKET_1K_SIZE)
    (hseq : seq % 256 ≠ s.packets_rxed % 256)
    (hin : s.input = wire (frame seq data) ++ rest) :
    ∃ t : RxState,
      fymodem_receive_packet FYMODEM_FILE_NAME_MAX_LENGTH rxlen s = some (.next t) ∧
      t.output = s.output ++ [NAK] ∧ t.input = rest ∧
      t.rxptr = s.rxptr ∧ t.rxdata = s.rxdata ∧ t.packets_rxed = s.packets_rxed ∧
      t.filename = s.filename ∧ t.filesize = s.filesize ∧ t.crc_nak = s.crc_nak ∧
      t.nbr_errors ≤ s.nbr_errors ∧ t.nbr_errors = 0 := by
  refine ⟨_, fymodem_receive_packet_nak FYMODEM_FILE_NAME_MAX_LENGTH rxlen s seq data rest
    hdata hlen hseq hin, rfl, rfl, rfl, rfl, rfl, rfl, rfl, rfl, Nat.zero_le _, rfl⟩

/-- C12, at Scenario 4: after the block 0 of "hi.txt" (size 2000) and the data blocks 1
and 2 the receiver has `packets_rxed = 3`; block 2 is sent again and is answered with one
`NAK`, cursor (2048) and buffer unchanged. -/
theorem fymodem_receive_wrong_sequence_witness :
    ∃ s : RxState,
      fymodem_receive_after 64 4096 3
        (fymodem_receive_file_begin true (fymodem_receive_init []
          (wire (frames 0 [ym_send_packet0_block (some [104, 105, 46, 116, 120, 116])
              (to_i32 2000), List.replicate 1024 7, List.replicate 1024 8]) ++
            (wire (frame 2 (List.replicate 1024 8)) ++ [])))) = some s ∧
      s.packets_rxed = 3 ∧ s.rxptr = 2048 ∧
      ∃ t : RxState,
        fymodem_receive_packet 64 4096 s = some (.next t) ∧
        t.output = s.output ++ [NAK] ∧ t.input = [] ∧
        t.rxptr = s.rxptr ∧ t.rxdata = s.rxdata ∧ t.packets_rxed = s.packets_rxed ∧
        t.filename = s.filename ∧ t.filesize = s.filesize ∧ t.crc_nak = s.crc_nak ∧
        t.nbr_errors ≤ s.nbr_errors ∧ t.nbr_errors = 0 := by
  have hv : (fymodem_receive_after 64 4096 3
      (fymodem_receive_file_begin true (fymodem_receive_init []
        (wire (frames 0 [ym_send_packet0_block (some [104, 105, 46, 116, 120, 116])
            (to_i32 2000), List.replicate 1024 7, List.replicate 1024 8]) ++
          (wire (frame 2 (List.replicate 1024 8)) ++ []))))).map
        (fun s => (s.input, s.packets_rxed, s.rxptr))
      = some (wire (frame 2 (List.replicate 1024 8)) ++ [], 3, 2048) := by
    decide!
  cases hs : fymodem_receive_after 64 4096 3
      (fymodem_receive_file_begin true (fymodem_receive_init []
        (wire (frames 0 [ym_send_packet0_block (some [104, 105, 46, 116, 120, 116])
            (to_i32 2000), List.replicate 1024 7, List.replicate 1024 8]) ++
          (wire (frame 2 (List.replicate 1024 8)) ++ [])))) with
  | none => rw [hs] at hv; exact Option.noConfusion hv
  | some s =>
    rw [hs] at hv
    simp only [Option.map_some', Option.some.injEq, Prod.mk.injEq] at hv
    have hb := fymodem_receive_wrong_sequence 64 4096 s 2 (List.replicate 1024 8) []
      (fun b hb => by rw [List.eq_of_mem_replicate hb]; decide)
      (Or.inr (List.length_replicate _ _)) (by rw [hv.2.1]; decide) hv.1
    exact ⟨s, rfl, hv.2.1, hv.2.2, hb⟩

/-- C13, as the code has it: in `fymodem_send`, when block 0 is answered with `ACK` and the
next byte read is anything other than `CRC` (a timeout included), the send does not fail:
the loop goes round again, so block 0 is emitted a second time and the response to it is
read.  Whatever the run ends with, its output begins with `CRC`, block 0 and block 0
again; answered with `ACK` and `CRC`, the second block 0 leads to the data streaming and
the return of the size.  Every round of the loop emits block 0 and reads a response:
`ACK` and then `CRC` lead to the data streaming and the return of the size; a `CRC` while
`crc_nak` is set (the first `CRC`) clears `crc_nak` and has block 0 sent again; a `NAK`
once `crc_nak` is cleared has block 0 sent again; every other response that is not `ACK`
ends the round with `CAN CAN` and the return of 0. -/
theorem fymodem_send_ack_not_crc (txdata : List Nat) (txsize : Nat)
    (filename : Option (List Nat)) (c : Int) (rest : List Int) (hc : c ≠ (CRC : Int)) :
    (∀ (crc_nak : Bool) (out : List Nat),
      fymodem_send_block0 txdata txsize filename ((ACK : Int) :: c :: rest) crc_nak out =
        fymodem_send_block0 txdata txsize filename rest crc_nak
          (out ++ ym_send_packet0 filename (to_i32 txsize))) ∧
    fymodem_send txdata txsize filename ((CRC : Int) :: (ACK : Int) :: c :: rest) =
      fymodem_send_block0 txdata txsize filename rest true
        ([CRC] ++ ym_send_packet0 filename (to_i32 txsize)) ∧
    (∀ r : TxResult,
      fymodem_send txdata txsize filename ((CRC : Int) :: (ACK : Int) :: c :: rest) = some r →
      ∃ e : List Nat, r.output = [CRC] ++ ym_send_packet0 filename (to_i32 txsize) ++
        ym_send_packet0 filename (to_i32 txsize) ++ e) ∧
    (∀ (rest2 : List Int) (r : TxResult), rest = (ACK : Int) :: (CRC : Int) :: rest2 →
      fymodem_send txdata txsize filename ((CRC : Int) :: (ACK : Int) :: c :: rest) = some r →
      r.ret = to_i32 txsize) ∧
    (∀ (inp : List Int) (crc_nak : Bool) (out : List Nat),
      fymodem_send_block0 txdata txsize filename ((ACK : Int) :: (CRC : Int) :: inp) crc_nak
          out =
        (ym_send_data_packets txdata txsize inp
          (out ++ ym_send_packet0 filename (to_i32 txsize))).map
          (fun io => (⟨to_i32 txsize, io.2, io.1⟩ : TxResult))) ∧
    (∀ (inp : List Int) (out : List Nat),
      fymodem_send_block0 txdata txsize filename ((CRC : Int) :: inp) true out =
        fymodem_send_block0 txdata txsize filename inp false
          (out ++ ym_send_packet0 filename (to_i32 txsize))) ∧
    (∀ (inp : List Int) (out : List Nat),
      fymodem_send_block0 txdata txsize filename ((NAK : Int) :: inp) false out =
        fymodem_send_block0 txdata txsize filename inp false
          (out ++ ym_send_packet0 filename (to_i32 txsize))) ∧
    (∀ (ch : Int) (inp : List Int) (crc_nak : Bool) (out : List Nat),
      ch ≠ (ACK : Int) → ¬ (ch = (CRC : Int) ∧ crc_nak = true) →
      ¬ (ch = (NAK : Int) ∧ crc_nak = false) →
      fymodem_send_block0 txdata txsize filename (ch :: inp) crc_nak out =
        some ⟨0, out ++ ym_send_packet0 filename (to_i32 txsize) ++ [CAN, CAN], inp⟩) := by
  have hloop : ∀ (crc_nak : Bool) (out : List Nat),
      fymodem_send_block0 txdata txsize filename ((ACK : Int) :: c :: rest) crc_nak out =
        fymodem_send_block0 txdata txsize filename rest crc_nak
          (out ++ ym_send_packet0 filename (to_i32 txsize)) := by
    intro crc_nak out
    rw [fymodem_send_block0]
    simp only [if_true, if_neg hc]
  have hsend : fymodem_send txdata txsize filename ((CRC : Int) :: (ACK : Int) :: c :: rest) =
      fymodem_send_block0 txdata txsize filename rest true
        ([CRC] ++ ym_send_packet0 filename (to_i32 txsize)) := by
    unfold fymodem_send
    rw [fymodem_send_start]
    simp only [show ¬ ((CRC : Int) < 0) by decide, if_false, if_true]
    rw [hloop]
    rfl
  refine ⟨hloop, hsend, ?_, ?_, ?_, ?_, ?_, ?_⟩
  · intro r h
    rw [hsend] at h
    exact fymodem_send_block0_output txdata txsize filename rest.length rest true _ r
      (Nat.le_refl _) h
  · intro rest2 r hrest h
    rw [hsend, hrest] at h
    rw [fymodem_send_block0] at h
    simp only [if_true] at h
    cases hd : ym_send_data_packets txdata txsize rest2
        ([CRC] ++ ym_send_packet0 filename (to_i32 txsize) ++
          ym_send_packet0 filename (to_i32 txsize)) with
    | none => rw [hd] at h; exact Option.noConfusion h
    | some res =>
      obtain ⟨inp3, out3⟩ := res
      rw [hd] at h
      simp only [Option.some.injEq] at h
      rw [← h]
  · intro inp crc_nak out
    rw [fymodem_send_block0]
    simp only [if_true]
    cases ym_send_data_packets txdata txsize inp
        (out ++ ym_send_packet0 filename (to_i32 txsize)) with
    | none => rfl
    | some res => rfl
  · intro inp out
    rw [fymodem_send_block0.eq_def]
    simp only [show ¬ ((CRC : Int) = (ACK : Int)) by decide, if_false, and_self, if_true]
  · intro inp out
    rw [fymodem_send_block0.eq_def]
    simp only [show ¬ ((NAK : Int) = (ACK : Int)) by decide,
      show ¬ ((NAK : Int) = (CRC : Int)) by decide, if_false, false_and, ne_eq,
      not_true_eq_false, Bool.false_eq_true, or_self]
  · intro ch inp crc_nak out hack hcrc hnak
    rw [fymodem_send_block0.eq_def]
    have hbreak : ch ≠ (NAK : Int) ∨ crc_nak = true := by
      by_cases h1 : ch = (NAK : Int)
      · right
        cases crc_nak with
        | true => rfl
        | false => exact absurd ⟨h1, rfl⟩ hnak
      · left; exact h1
    simp only [if_neg hack, if_neg hcrc, if_pos hbreak]

/-- C13, as the code has it, at the responses `CRC`, `ACK`, `NAK`, `ACK`, `CRC`, `CAN`. -/
theorem fymodem_send_ack_not_crc_witness :
    (NAK : Int) ≠ (CRC : Int) ∧
    ∀ r : TxResult,
      fymodem_send [72] 1 (some [97])
        ((CRC : Int) :: (ACK : Int) :: (NAK : Int) ::
          [(ACK : Int), (CRC : Int), (CAN : Int)]) = some r →
      ∃ e : List Nat, r.output = [CRC] ++ ym_send_packet0 (some [97]) (to_i32 1) ++
        ym_send_packet0 (some [97]) (to_i32 1) ++ e :=
  ⟨by decide, (fymodem_send_ack_not_crc [72] 1 (some [97]) NAK
    [(ACK : Int), (CRC : Int), (CAN : Int)] (by decide)).2.2.1⟩

/-- C13 fails: with the responses `CRC`, `ACK`, `NAK` (an `ACK` followed by a byte that is
not `CRC`) and then `ACK`, `CRC`, `CAN`, `fymodem_send` emits block 0 twice and the
first data block, no `CAN`, and returns the size 1, not 0; with a timeout after the `ACK`
and then `CAN`, block 0 is emitted twice before `CAN CAN`. -/
theorem fymodem_send_ack_not_crc_retries :
    fymodem_send [72] 1 (some [97])
        [(CRC : Int), (ACK : Int), (NAK : Int), (ACK : Int), (CRC : Int), (CAN : Int)] =
      some ⟨1, [CRC] ++ ym_send_packet0 (some [97]) 1 ++ ym_send_packet0 (some [97]) 1 ++
        ym_send_packet [72] 1, []⟩ ∧
    fymodem_send [72] 1 (some [97]) [(CRC : Int), (ACK : Int), -1, (CAN : Int)] =
      some ⟨0, [CRC] ++ ym_send_packet0 (some [97]) 1 ++ ym_send_packet0 (some [97]) 1 ++
        [CAN, CAN], []⟩ := by
  decide!

/-- C14, as the code has it: for every file size, `ym_send_packet0` builds the all-zero
block of 128 bytes when `filename` is the null pointer, and emits it as the packet
`SOH 00 FF`, 128 zeros, CRC; for the empty string "" it builds another block: a NUL, the
decimal digits of the size (32 bits, unsigned) and zeros up to 128 bytes, whose byte at
index 1 is a digit, so this block is not all-zero. -/
theorem ym_send_packet0_null_or_empty (filesize : Int) :
    ym_send_packet0_block none filesize = List.replicate PACKET_SIZE 0 ∧
    ym_send_packet0 none filesize = frame 0 (List.replicate PACKET_SIZE 0) ∧
    ym_send_packet0_block (some []) filesize =
      0 :: (minimal_decimal (to_u32 filesize) ++
        List.replicate (127 - (minimal_decimal (to_u32 filesize)).length) 0) ∧
    (ym_send_packet0_block (some []) filesize).length = PACKET_SIZE ∧
    (ym_send_packet0_block (some []) filesize).getD 1 0 ≠ 0 ∧
    ym_send_packet0_block (some []) filesize ≠ List.replicate PACKET_SIZE 0 := by
  have hnone := ym_send_packet0_none filesize
  have hempty : ym_send_packet0_block (some []) filesize =
      0 :: (minimal_decimal (to_u32 filesize) ++
        List.replicate (127 - (minimal_decimal (to_u32 filesize)).length) 0) :=
    ym_send_packet0_block_any [] filesize
  have hdigit : (ym_send_packet0_block (some []) filesize).getD 1 0 ≠ 0 := by
    rw [hempty]
    have hl := (minimal_decimal_length _ (to_u32_lt filesize)).1
    cases hmd : minimal_decimal (to_u32 filesize) with
    | nil => rw [hmd] at hl; exact absurd hl (by decide)
    | cons d ds =>
      show d ≠ 0
      exact minimal_decimal_ne_zero (to_u32 filesize) d (by rw [hmd]; exact List.mem_cons_self d ds)
  refine ⟨hnone, ?_, hempty, ym_send_packet0_block_any_length (some []) filesize, hdigit, ?_⟩
  · unfold ym_send_packet0
    rw [hnone]
    exact ym_send_packet_zero_eq_frame _ (List.length_replicate _ _)
  · intro h
    rw [h] at hdigit
    exact hdigit rfl

/-- C14 fails for the empty string: with the size 5, `ym_send_packet0` builds the block
NUL, '5', 126 zeros, not the all-zero block. -/
theorem ym_send_packet0_empty_string :
    ym_send_packet0_block (some []) 5 = 0 :: 53 :: List.replicate 126 0 ∧
    ym_send_packet0_block (some []) 5 ≠ List.replicate 128 0 := by
  decide!

/-- C15, as the code has it: the receiver stores every accepted data packet whole, the
padding included, and checks each packet, not the declared size, against the capacity.
For a file header block 0 that carries a filename of non-zero bytes shorter than
`FYMODEM_FILE_NAME_MAX_LENGTH` and the size `size ≤ rxlen`, its digits ended by a NUL or a
space, followed by `n` valid data packets of 1024 bytes, `EOT` and the all-zero block 0,
and `rxlen < 2^31`: when `1024 * n ≤ rxlen`, `fymodem_receive` returns `size` and the
buffer holds all `1024 * n` bytes of the packets; when `rxlen < 1024 * n`, the first
packet that would end beyond the capacity is answered with `CAN CAN` and
`fymodem_receive` returns 0. -/
theorem fymodem_receive_whole_blocks (FYMODEM_FILE_NAME_MAX_LENGTH rxlen : Nat)
    (stack : List Nat) (name : List Nat) (size term : Nat) (tail : List Nat)
    (ds : List (List Nat)) (rest : List Int)
    (hnz : ∀ c ∈ name, c ≠ 0) (hmax : name.length < FYMODEM_FILE_NAME_MAX_LENGTH)
    (hterm : term = 0 ∨ term = 32)
    (hb : ∀ b ∈ header_block name size term tail, b < 256)
    (hlen : (header_block name size term tail).length = PACKET_SIZE)
    (hds : ∀ d ∈ ds, (∀ b ∈ d, b < 256) ∧ d.length = PACKET_1K_SIZE)
    (hsize : size ≤ rxlen) (hcap : rxlen < 2 ^ 31) :
    (PACKET_1K_SIZE * ds.length ≤ rxlen →
      ∃ t : RxState,
        fymodem_receive FYMODEM_FILE_NAME_MAX_LENGTH rxlen stack
            (session (header_block name size term tail) ds rest) = some ((size : Int), t) ∧
        t.rxdata = ds.flatten ∧ t.rxdata.length = PACKET_1K_SIZE * ds.length ∧
        t.filename = name ++ [0]) ∧
    (rxlen < PACKET_1K_SIZE * ds.length →
      ∃ (t : RxState) (j : Nat),
        fymodem_receive FYMODEM_FILE_NAME_MAX_LENGTH rxlen stack
            (session (header_block name size term tail) ds rest) = some (0, t) ∧
        j < ds.length ∧ rxlen < PACKET_1K_SIZE * (j + 1) ∧
        t.output = [ACK, CRC] ++ List.replicate j ACK ++ [CAN, CAN] ∧
        t.rxdata = (ds.take j).flatten) := by
  have hds2 : ∀ d ∈ ds, (∀ b ∈ d, b < 256) ∧
      (d.length = PACKET_SIZE ∨ d.length = PACKET_1K_SIZE) :=
    fun d hd => ⟨(hds d hd).1, Or.inr (hds d hd).2⟩
  have hflat := flatten_length_1k ds (fun d hd => (hds d hd).2)
  have hge := session_length_ge (header_block name size term tail) ds rest
  constructor
  · intro hfit
    obtain ⟨fuel, hfuel⟩ : ∃ fuel,
        (session (header_block name size term tail) ds rest).length + 1
          = fuel + 2 + ds.length + 1 :=
      ⟨(session (header_block name size term tail) ds rest).length - ds.length - 2, by omega⟩
    obtain ⟨t, h1, h2, h3, _, _⟩ := fymodem_receive_loop_session FYMODEM_FILE_NAME_MAX_LENGTH
      rxlen stack name size term tail ds rest fuel hnz (Nat.le_of_lt hmax) hterm hb hlen hds2
      hsize (by rw [hflat]; exact hfit) hcap
    refine ⟨t, ?_, h3, by rw [h3, hflat], h2⟩
    unfold fymodem_receive
    rw [hfuel]
    exact h1
  · intro hover
    have hle : ¬ (size > rxlen) := by omega
    obtain ⟨s1, hstep1, a1, a2, a3, a4, a5, a6, a7⟩ := fymodem_receive_packet_header
      FYMODEM_FILE_NAME_MAX_LENGTH rxlen
      (fymodem_receive_file_begin true (fymodem_receive_init stack
        (session (header_block name size term tail) ds rest)))
      name size term tail
      (wire (frames 1 ds) ++
        (Int.ofNat EOT :: (wire (frame 0 (List.replicate PACKET_SIZE 0)) ++ rest)))
      hnz (Nat.le_of_lt hmax) (by omega) hterm hb hlen rfl rfl
    rw [if_neg hle] at hstep1 a2 a3
    have hptr0 : s1.rxptr = 0 := by rw [a5]; rfl
    have hdata0 : s1.rxdata = [] := by rw [a4]; rfl
    obtain ⟨fuel, hfuel⟩ : ∃ fuel,
        (session (header_block name size term tail) ds rest).length + 1
          = fuel + ds.length + 1 :=
      ⟨(session (header_block name size term tail) ds rest).length - ds.length, by omega⟩
    obtain ⟨t, j, hrun, hj, h2, h3, _, h5⟩ := fymodem_receive_loop_data_overflow
      FYMODEM_FILE_NAME_MAX_LENGTH rxlen hcap ds s1 fuel
      (Int.ofNat EOT :: (wire (frame 0 (List.replicate PACKET_SIZE 0)) ++ rest))
      hds2 (by rw [a3]; decide) (by rw [a3, hptr0]; omega) (by rw [hdata0, hptr0]; rfl)
      (by rw [hptr0]; exact Nat.zero_le _) (by rw [hptr0, hflat]; omega) (by rw [a1, a3])
    refine ⟨t, j, ?_, hj, ?_, ?_, ?_⟩
    · unfold fymodem_receive
      rw [hfuel, fymodem_receive_loop, hstep1]
      exact hrun
    · rw [hptr0, flatten_length_1k (ds.take (j + 1))
        (fun d hd => (hds d (List.mem_of_mem_take hd)).2), List.length_take,
        Nat.min_eq_left (Nat.succ_le_of_lt hj), Nat.zero_add] at h5
      exact h5
    · rw [h2, a2]
      simp [fymodem_receive_file_begin, fymodem_receive_init]
    · rw [h3, hdata0]
      rfl

/-- C15, as the code has it, at Scenario 1 with a buffer of 2000 bytes: the file "hi.txt"
of the declared size 5 is sent as one block of 1024 bytes that starts with "Hello";
`fymodem_receive` returns 5 and the buffer holds all 1024 bytes of the block. -/
theorem fymodem_receive_whole_blocks_witness :
    PACKET_1K_SIZE * [[72, 101, 108, 108, 111] ++ List.replicate 1019 0].length ≤ 2000 ∧
    ∃ t : RxState,
      fymodem_receive 64 2000 []
          (session (header_block [104, 105, 46, 116, 120, 116] 5 0 (List.replicate 119 0))
            [[72, 101, 108, 108, 111] ++ List.replicate 1019 0] []) = some ((5 : Int), t) ∧
      t.rxdata = [[72, 101, 108, 108, 111] ++ List.replicate 1019 0].flatten ∧
      t.rxdata.length = PACKET_1K_SIZE * [[72, 101, 108, 108, 111] ++
        List.replicate 1019 0].length ∧
      t.filename = [104, 105, 46, 116, 120, 116] ++ [0] :=
  ⟨by decide,
  (fymodem_receive_whole_blocks 64 2000 [] [104, 105, 46, 116, 120, 116] 5 0
    (List.replicate 119 0) [[72, 101, 108, 108, 111] ++ List.replicate 1019 0] []
    (by decide) (by decide) (Or.inl rfl)
    (header_block_lt _ _ _ _ (by decide) (by decide)
      (fun b hb => by rw [List.eq_of_mem_replicate hb]; decide))
    (by simp [header_block, minimal_decimal_5])
    (by
      intro d hd
      rw [List.mem_singleton] at hd
      subst hd
      refine ⟨?_, by rw [List.length_append, List.length_replicate]; rfl⟩
      intro b hb
      rw [List.mem_append] at hb
      rcases hb with hb | hb
      · revert b; decide
      · rw [List.eq_of_mem_replicate hb]; decide)
    (by decide) (by norm_num)).1 (by decide)⟩

/-- C15 fails for a buffer of 100 bytes, the capacity that `main` passes: the file
"hi.txt" of the declared size 5, sent as one block of 1024 bytes, is not received;
`fymodem_receive` answers the data packet with `CAN CAN`, stores nothing and returns 0.
With a buffer of 1024 bytes it returns 5 and has stored 1024 bytes, not 5.  It fails as
well for a filename that does not fit the filename slot: with
`FYMODEM_FILE_NAME_MAX_LENGTH = 64` and a buffer of 2000 bytes, the file of the declared
size 5 whose name is 65 times 'a' is stored (1024 bytes), but `fymodem_receive` returns
0. -/
theorem fymodem_receive_whole_blocks_capacity_100 :
    (fymodem_receive 64 100 []
        (session (ym_send_packet0_block (some [104, 105, 46, 116, 120, 116]) (to_i32 5))
          [[72, 101, 108, 108, 111] ++ List.replicate 1019 0] [])).map
      (fun r => (r.1, r.2.output, r.2.rxdata)) = some (0, [ACK, CRC, CAN, CAN], []) ∧
    (fymodem_receive 64 1024 []
        (session (ym_send_packet0_block (some [104, 105, 46, 116, 120, 116]) (to_i32 5))
          [[72, 101, 108, 108, 111] ++ List.replicate 1019 0] [])).map
      (fun r => (r.1, r.2.rxdata.length)) = some (5, 1024) ∧
    (fymodem_receive 64 2000 []
        (session (ym_send_packet0_block (some (List.replicate 65 97)) (to_i32 5))
          [[72, 101, 108, 108, 111] ++ List.replicate 1019 0] [])).map
      (fun r => (r.1, r.2.rxdata.length, r.2.output)) =
      some (0, 1024, [ACK, CRC, ACK, ACK, CRC, ACK]) := by
  decide!

/-- C16: for every valid packet with the sequence byte 0 (128 or 1024 data bytes, sequence
complement and CRC correct) whose first four data bytes are zero, received as the first
packet of a session: the round that reads it ends both loops (end of batch), and
`fymodem_receive` returns 0 having emitted exactly one `ACK`, with the filename slot
holding the empty string and nothing stored into the caller's buffer. -/
theorem fymodem_receive_end_of_batch (FYMODEM_FILE_NAME_MAX_LENGTH rxlen : Nat)
    (stack tail : List Nat) (rest : List Int) (htail : ∀ b ∈ tail, b < 256)
    (hlen : (0 :: 0 :: 0 :: 0 :: tail).length = PACKET_SIZE ∨
      (0 :: 0 :: 0 :: 0 :: tail).length = PACKET_1K_SIZE) :
    ∃ t : RxState,
      fymodem_receive_packet FYMODEM_FILE_NAME_MAX_LENGTH rxlen
        (fymodem_receive_file_begin true (fymodem_receive_init stack
          (wire (frame 0 (0 :: 0 :: 0 :: 0 :: tail)) ++ rest))) = some (.file_done t true) ∧
      fymodem_receive FYMODEM_FILE_NAME_MAX_LENGTH rxlen stack
        (wire (frame 0 (0 :: 0 :: 0 :: 0 :: tail)) ++ rest) = some (0, t) ∧
      t.output = [ACK] ∧ t.filename = [0] ∧ t.rxdata = [] ∧ t.rxptr = 0 ∧ t.input = rest := by
  have hstep := fymodem_receive_packet_end_of_batch FYMODEM_FILE_NAME_MAX_LENGTH rxlen
    (fymodem_receive_file_begin true (fymodem_receive_init stack
      (wire (frame 0 (0 :: 0 :: 0 :: 0 :: tail)) ++ rest))) tail rest htail hlen rfl rfl
  refine ⟨_, hstep, ?_, rfl, rfl, rfl, rfl, rfl⟩
  unfold fymodem_receive fymodem_receive_loop
  rw [hstep]
  rfl

/-- C16, at the all-zero block of 128 bytes, which is what `ym_send_packet0(0, 0)` sends
to end the batch. -/
theorem fymodem_receive_end_of_batch_witness :
    ∃ t : RxState,
      fymodem_receive_packet 64 100
        (fymodem_receive_file_begin true (fymodem_receive_init []
          (wire (frame 0 (0 :: 0 :: 0 :: 0 :: List.replicate 124 0)) ++ []))) =
        some (.file_done t true) ∧
      fymodem_receive 64 100 []
        (wire (frame 0 (0 :: 0 :: 0 :: 0 :: List.replicate 124 0)) ++ []) = some (0, t) ∧
      t.output = [ACK] ∧ t.filename = [0] ∧ t.rxdata = [] ∧ t.rxptr = 0 ∧ t.input = [] :=
  fymodem_receive_end_of_batch 64 100 [] (List.replicate 124 0) []
    (fun b hb => by rw [List.eq_of_mem_replicate hb]; decide)
    (Or.inl (by simp only [List.length_cons, List.length_replicate]))

/-- C17 fails on the code: for every block 0 that `ym_send_packet0` builds (here with a
filename that fits the filename slot), the size loop of `fymodem_receive` does not end at
the NUL after the digits: it copies 16 bytes, the digits and NULs, to `filesize_asc[0..15]`
and the statement after the loop then stores the NUL at `filesize_asc[16]`, one past the
end of the array of `FILE_SIZE_LENGTH = 16` bytes.  The size read is the size sent. -/
theorem fymodem_receive_filesize_asc_index_16 (FYMODEM_FILE_NAME_MAX_LENGTH : Nat)
    (h0 h1 h2 : Nat) (name : List Nat) (size : Nat) (tail filename filesize_asc : List Nat)
    (hnz : ∀ c ∈ name, c ≠ 0) (hlen : name.length ≤ 110)
    (hmax : name.length ≤ FYMODEM_FILE_NAME_MAX_LENGTH) (hsize : size < 2 ^ 32) :
    ∃ (fn asc : List Nat),
      fymodem_receive_block0 FYMODEM_FILE_NAME_MAX_LENGTH
          (h0 :: h1 :: h2 :: (ym_send_packet0_block (some name) (to_i32 size) ++ tail))
          filename filesize_asc = some (fn, asc, size) ∧
      fymodem_receive_filesize FILE_SIZE_LENGTH
          ((h0 :: h1 :: h2 :: (ym_send_packet0_block (some name) (to_i32 size) ++ tail)).drop
            (PACKET_HEADER + name.length + 1)) =
        minimal_decimal size ++
          List.replicate (FILE_SIZE_LENGTH - (minimal_decimal size).length) 0 ∧
      (minimal_decimal size ++
        List.replicate (FILE_SIZE_LENGTH - (minimal_decimal size).length) 0).length
        = FILE_SIZE_LENGTH ∧
      asc = mem_write (minimal_decimal size ++
        List.replicate (FILE_SIZE_LENGTH - (minimal_decimal size).length) 0 ++ [0])
        filesize_asc ∧
      asc.getD FILE_SIZE_LENGTH 1 = 0 ∧ FILE_SIZE_LENGTH < asc.length := by
  have hdl := minimal_decimal_length size hsize
  have hcopy : (minimal_decimal size ++
      List.replicate (FILE_SIZE_LENGTH - (minimal_decimal size).length) 0).length
      = FILE_SIZE_LENGTH := by
    rw [List.length_append, List.length_replicate]
    show _ + (16 - _) = 16
    omega
  have hnew : (minimal_decimal size ++
      List.replicate (FILE_SIZE_LENGTH - (minimal_decimal size).length) 0 ++ [0]).length
      = FILE_SIZE_LENGTH + 1 := by
    rw [List.length_append, hcopy]
    rfl
  refine ⟨_, _, fymodem_receive_block0_eq FYMODEM_FILE_NAME_MAX_LENGTH h0 h1 h2 name size tail
    filename filesize_asc hnz hlen hmax hsize, ?_, hcopy, rfl, ?_, ?_⟩
  · rw [ym_send_packet0_block_eq name size hnz hlen hsize]
    have e : PACKET_HEADER + name.length + 1 = (h0 :: h1 :: h2 :: (name ++ [0])).length := by
      show 3 + name.length + 1 = _
      simp; omega
    have e2 : (h0 :: h1 :: h2 :: (name ++ 0 :: (minimal_decimal size ++
      List.replicate (127 - name.length - (minimal_decimal size).length) 0) ++ tail))
      = (h0 :: h1 :: h2 :: (name ++ [0])) ++ (minimal_decimal size ++
      (List.replicate (127 - name.length - (minimal_decimal size).length) 0 ++ tail)) := by
      simp
    rw [e, e2, List.drop_left]
    exact fymodem_receive_filesize_eq FILE_SIZE_LENGTH _ (minimal_decimal size) tail
      (minimal_decimal_ne_space size) (by show _ ≤ 16; omega) (by show 16 - _ ≤ _; omega)
  · rw [mem_write_getD _ _ _ _ (by rw [hnew]; exact Nat.lt_succ_self _),
      List.getD_append_right _ _ _ _ (by rw [hcopy]), hcopy, Nat.sub_self]
    rfl
  · have := mem_write_length (minimal_decimal size ++
      List.replicate (FILE_SIZE_LENGTH - (minimal_decimal size).length) 0 ++ [0]) filesize_asc
    rw [hnew] at this
    exact this

/-- C17 fails on the header of Scenario 1 ("hi.txt", size 5), with
`FYMODEM_FILE_NAME_MAX_LENGTH = 64`: 17 bytes are stored to `filesize_asc`. -/
theorem fymodem_receive_filesize_asc_index_16_witness :
    ∃ (fn asc : List Nat),
      fymodem_receive_block0 64
          (SOH :: 0 :: 255 ::
            (ym_send_packet0_block (some [104, 105, 46, 116, 120, 116]) (to_i32 5) ++ []))
          [0] [] = some (fn, asc, 5) ∧
      asc.getD FILE_SIZE_LENGTH 1 = 0 ∧ FILE_SIZE_LENGTH < asc.length := by
  obtain ⟨fn, asc, h1, _, _, _, h5, h6⟩ := fymodem_receive_filesize_asc_index_16 64 SOH 0 255
    [104, 105, 46, 116, 120, 116] 5 [] [0] [] (by decide) (by decide) (by decide) (by norm_num)
  exact ⟨fn, asc, h1, h5, h6⟩

/-- C18 fails on the code: for every block 0 whose filename field has
`FYMODEM_FILE_NAME_MAX_LENGTH` or more non-zero bytes, the filename loop of
`fymodem_receive` stores the first `FYMODEM_FILE_NAME_MAX_LENGTH` of them and the
statement after it stores the NUL at the index `FYMODEM_FILE_NAME_MAX_LENGTH`, one past
the end of the caller's filename slot; the size field is then read from the offset
`FYMODEM_FILE_NAME_MAX_LENGTH + 1` of the data, which, when the field is longer than the
slot, is a byte of the filename field or its NUL, not the byte after its NUL. -/
theorem fymodem_receive_filename_index_max (FYMODEM_FILE_NAME_MAX_LENGTH : Nat)
    (h0 h1 h2 : Nat) (name tail filename filesize_asc : List Nat)
    (hnz : ∀ c ∈ name, c ≠ 0) (hpos : 0 < name.length)
    (hmax : FYMODEM_FILE_NAME_MAX_LENGTH ≤ name.length) :
    ∃ (fn asc : List Nat) (size : Nat),
      fymodem_receive_block0 FYMODEM_FILE_NAME_MAX_LENGTH (h0 :: h1 :: h2 :: (name ++ tail))
          filename filesize_asc = some (fn, asc, size) ∧
      fn = mem_write (name.take FYMODEM_FILE_NAME_MAX_LENGTH ++ [0]) filename ∧
      fn.getD FYMODEM_FILE_NAME_MAX_LENGTH 1 = 0 ∧
      FYMODEM_FILE_NAME_MAX_LENGTH < fn.length ∧
      asc = mem_write (fymodem_receive_filesize FILE_SIZE_LENGTH
        ((name ++ tail).drop (FYMODEM_FILE_NAME_MAX_LENGTH + 1)) ++ [0]) filesize_asc ∧
      size = ym_readU32 asc := by
  have hhas : fymodem_receive_has_data (h0 :: h1 :: h2 :: (name ++ tail)) = true := by
    unfold fymodem_receive_has_data
    cases name with
    | nil => simp at hpos
    | cons c cs =>
      have := hnz c (List.mem_cons_self c cs)
      simp [this]
  have htake : (name.take FYMODEM_FILE_NAME_MAX_LENGTH).length = FYMODEM_FILE_NAME_MAX_LENGTH := by
    rw [List.length_take]
    exact Nat.min_eq_left hmax
  have hnew : (name.take FYMODEM_FILE_NAME_MAX_LENGTH ++ [0]).length
      = FYMODEM_FILE_NAME_MAX_LENGTH + 1 := by
    rw [List.length_append, htake]
    rfl
  have hparse : fymodem_receive_block0 FYMODEM_FILE_NAME_MAX_LENGTH
      (h0 :: h1 :: h2 :: (name ++ tail)) filename filesize_asc =
      some (mem_write (name.take FYMODEM_FILE_NAME_MAX_LENGTH ++ [0]) filename,
        mem_write (fymodem_receive_filesize FILE_SIZE_LENGTH
          ((name ++ tail).drop (FYMODEM_FILE_NAME_MAX_LENGTH + 1)) ++ [0]) filesize_asc,
        ym_readU32 (mem_write (fymodem_receive_filesize FILE_SIZE_LENGTH
          ((name ++ tail).drop (FYMODEM_FILE_NAME_MAX_LENGTH + 1)) ++ [0]) filesize_asc)) := by
    unfold fymodem_receive_block0
    rw [if_pos hhas]
    have hdrop : List.drop PACKET_HEADER (h0 :: h1 :: h2 :: (name ++ tail)) = name ++ tail := rfl
    simp only [hdrop, fymodem_receive_filename_take FYMODEM_FILE_NAME_MAX_LENGTH name tail hnz
      hmax, htake]
    have hdrop2 : List.drop (PACKET_HEADER + FYMODEM_FILE_NAME_MAX_LENGTH + 1)
        (h0 :: h1 :: h2 :: (name ++ tail))
        = (name ++ tail).drop (FYMODEM_FILE_NAME_MAX_LENGTH + 1) := by
      have e : PACKET_HEADER + FYMODEM_FILE_NAME_MAX_LENGTH + 1
          = (FYMODEM_FILE_NAME_MAX_LENGTH + 1) + 3 := by
        show 3 + _ + 1 = _
        omega
      rw [e]
      rfl
    rw [hdrop2]
  refine ⟨_, _, _, hparse, rfl, ?_, ?_, rfl, rfl⟩
  · rw [mem_write_getD _ _ _ _ (by rw [hnew]; exact Nat.lt_succ_self _),
      List.getD_append_right _ _ _ _ (by rw [htake]), htake, Nat.sub_self]
    rfl
  · have := mem_write_length (name.take FYMODEM_FILE_NAME_MAX_LENGTH ++ [0]) filename
    rw [hnew] at this
    exact this

/-- C18 fails with `FYMODEM_FILE_NAME_MAX_LENGTH = 64` on the block 0 of a filename of 65
times 'b' and the size 7: `filename[64]` is written, and the size is read from the NUL of
the filename field on. -/
theorem fymodem_receive_filename_index_max_witness :
    ∃ (fn asc : List Nat) (size : Nat),
      fymodem_receive_block0 64
          (SOH :: 0 :: 255 :: (List.replicate 65 98 ++ (0 :: 55 :: List.replicate 61 0)))
          [0] [] = some (fn, asc, size) ∧
      fn.getD 64 1 = 0 ∧ 64 < fn.length ∧
      asc = mem_write (fymodem_receive_filesize FILE_SIZE_LENGTH
        ((List.replicate 65 98 ++ (0 :: 55 :: List.replicate 61 0)).drop (64 + 1)) ++ [0]) [] := by
  obtain ⟨fn, asc, size, h1, _, h3, h4, h5, _⟩ := fymodem_receive_filename_index_max 64 SOH 0
    255 (List.replicate 65 98) (0 :: 55 :: List.replicate 61 0) [0] []
    (fun c hc => by rw [List.eq_of_mem_replicate hc]; decide)
    (by rw [List.length_replicate]; decide) (by rw [List.length_replicate]; decide)
  exact ⟨fn, asc, size, h1, h3, h4, h5⟩

/-- C19: for every filename (the bytes at the pointer, of any length) and every size,
`ym_send_packet0` writes only within its block of 128 bytes: the filename stored is the
string (the bytes before the first NUL) cut to at most 110 bytes; its NUL is at an index
of at most 110; `ym_writeU32` writes at most 10 digits and a NUL, after which the array
holds at most 122 bytes (indices up to 121); the rest is filled with zeros and the block
handed to `ym_send_packet`, with the block number 0, has exactly 128 bytes, emitted as
one `SOH` packet.  The null pointer gives 128 zeros. -/
theorem ym_send_packet0_bounds (filename : List Nat) (filesize : Int) :
    ym_send_packet0_name (PACKET_SIZE - FILE_SIZE_LENGTH - 2) filename =
      (filename.takeWhile (fun c => c ≠ 0)).take 110 ∧
    (ym_send_packet0_name (PACKET_SIZE - FILE_SIZE_LENGTH - 2) filename).length ≤ 110 ∧
    (ym_writeU32 (to_u32 filesize)).1 = minimal_decimal (to_u32 filesize) ++ [0] ∧
    (ym_writeU32 (to_u32 filesize)).2 = (minimal_decimal (to_u32 filesize)).length ∧
    (minimal_decimal (to_u32 filesize)).length ≤ 10 ∧
    mem_write_at ((ym_send_packet0_name (PACKET_SIZE - FILE_SIZE_LENGTH - 2) filename).length + 1)
        (ym_writeU32 (to_u32 filesize)).1
        (ym_send_packet0_name (PACKET_SIZE - FILE_SIZE_LENGTH - 2) filename ++ [0]) =
      ym_send_packet0_name (PACKET_SIZE - FILE_SIZE_LENGTH - 2) filename ++ [0] ++
        minimal_decimal (to_u32 filesize) ++ [0] ∧
    (ym_send_packet0_name (PACKET_SIZE - FILE_SIZE_LENGTH - 2) filename ++ [0] ++
        minimal_decimal (to_u32 filesize) ++ [0]).length ≤ 122 ∧
    ym_send_packet0_block (some filename) filesize =
      ym_send_packet0_name (PACKET_SIZE - FILE_SIZE_LENGTH - 2) filename ++ 0 ::
        (minimal_decimal (to_u32 filesize) ++
          List.replicate (127 -
            (ym_send_packet0_name (PACKET_SIZE - FILE_SIZE_LENGTH - 2) filename).length -
            (minimal_decimal (to_u32 filesize)).length) 0) ∧
    (ym_send_packet0_block (some filename) filesize).length = PACKET_SIZE ∧
    ym_send_packet0 (some filename) filesize =
      ym_send_packet (ym_send_packet0_block (some filename) filesize) 0 ∧
    ym_send_packet0 (some filename) filesize =
      frame 0 (ym_send_packet0_block (some filename) filesize) ∧
    (ym_send_packet0 (some filename) filesize).length = PACKET_SIZE + PACKET_OVERHEAD ∧
    ym_send_packet0_block none filesize = List.replicate PACKET_SIZE 0 := by
  have hn := ym_send_packet0_name_length 110 filename
  have hd := minimal_decimal_length _ (to_u32_lt filesize)
  have hw := ym_writeU32_eq _ (to_u32_lt filesize)
  have hlen := ym_send_packet0_block_any_length (some filename) filesize
  have hframe : ym_send_packet0 (some filename) filesize =
      frame 0 (ym_send_packet0_block (some filename) filesize) :=
    ym_send_packet_zero_eq_frame _ hlen
  refine ⟨ym_send_packet0_name_takeWhile 110 filename, hn, by rw [hw], by rw [hw], hd.2,
    ym_send_packet0_written _ filesize, ?_, ym_send_packet0_block_any filename filesize,
    hlen, rfl, hframe, ?_, ym_send_packet0_none filesize⟩
  · have hn2 : (ym_send_packet0_name (PACKET_SIZE - FILE_SIZE_LENGTH - 2) filename).length
        ≤ 110 := hn
    simp only [List.length_append, List.length_cons, List.length_nil]
    omega
  · rw [hframe, frame_length, hlen]

/-- C20, with the room for the packet made explicit: for every `n ≥ 1` (below 2^31, the
block number being an `int32_t`), also when `n` is a multiple of 256, the `n`-th data
block of the sender, the one sent when `n - 1` blocks have been answered with `ACK`, is
emitted by `ym_send_packet` with the block number `n`, as a packet of 1024 data bytes with
the lead byte `STX` and the sequence byte `n mod 256`; and a receiver with
`packets_rxed = n` and a capacity below 2^31 that reads this packet treats it as data:
when the packet fits (cursor + 1024 ≤ capacity) it stores the 1024 bytes at the cursor,
emits `ACK` and sets `packets_rxed` to `n + 1`, else it emits `CAN CAN` and returns 0; in
neither case does it parse the packet as a block 0 (filename and file size are
unchanged). -/
theorem fymodem_sequence_wrap (FYMODEM_FILE_NAME_MAX_LENGTH rxlen n : Nat) (data : List Nat)
    (s : RxState) (rest : List Int)
    (hn : 1 ≤ n) (hn31 : n < 2 ^ 31) (hdata : ∀ b ∈ data, b < 256)
    (hp : s.packets_rxed = n) (hin : s.input = wire (ym_send_packet data (n : Int)) ++ rest)
    (hcap : rxlen < 2 ^ 31) :
    ym_send_packet data (n : Int) = frame n (mem_read data PACKET_1K_SIZE) ∧
    (ym_send_packet data (n : Int)).take 3 = [STX, n % 256, 255 - n % 256] ∧
    (ym_send_packet data (n : Int)).length = PACKET_1K_SIZE + PACKET_OVERHEAD ∧
    (∀ (txdata : List Nat) (txlen : Nat) (out : List Nat) (c : Int) (rest2 : List Int),
      (c = CAN ∨ c = -1) → (n - 1) * PACKET_1K_SIZE < txlen →
      ∃ out2 : List Nat,
        ym_send_data_packets_loop (List.replicate (n - 1) (ACK : Int) ++ c :: rest2) txdata
          txlen 1 out =
          some (rest2, out2 ++
            ym_send_packet (txdata.drop ((n - 1) * PACKET_1K_SIZE)) (n : Int)) ∧
        out2.length = out.length + (n - 1) * (PACKET_1K_SIZE + PACKET_OVERHEAD)) ∧
    fymodem_receive_packet FYMODEM_FILE_NAME_MAX_LENGTH rxlen s =
      some (if rxlen < s.rxptr + PACKET_1K_SIZE then
          .ret { s with input := rest
                        rx_packet_data := mem_write (ym_send_packet data (n : Int))
                          s.rx_packet_data
                        nbr_errors := 0
                        output := s.output ++ [CAN, CAN] } 0
        else
          .next { s with input := rest
                         rx_packet_data := mem_write (ym_send_packet data (n : Int))
                           s.rx_packet_data
                         nbr_errors := 0
                         rxdata := mem_write_at s.rxptr (mem_read data PACKET_1K_SIZE) s.rxdata
                         rxptr := s.rxptr + PACKET_1K_SIZE
                         output := s.output ++ [ACK]
                         packets_rxed := n + 1 }) := by
  have hframe := ym_send_packet_eq_frame data n hn
  have hl : (mem_read data PACKET_1K_SIZE).length = PACKET_1K_SIZE := mem_read_length _ _
  refine ⟨hframe, ?_, ym_send_packet_length data n hn, ?_, ?_⟩
  · rw [hframe, frame_eq_cons, hl]
    rfl
  · intro txdata txlen out c rest2 hc hlen
    obtain ⟨out2, h1, h2⟩ := ym_send_data_packets_loop_nth (n - 1) txdata txlen 1 out c rest2
      (Nat.le_refl 1) hc hlen
    have e : 1 + (n - 1) = n := by omega
    rw [e] at h1
    exact ⟨out2, h1, h2⟩
  · have hstep := fymodem_receive_packet_data FYMODEM_FILE_NAME_MAX_LENGTH rxlen s
      (mem_read data PACKET_1K_SIZE) rest (mem_read_lt data _ hdata) (Or.inr hl)
      (by rw [hp]; omega) (by rw [hin, hframe, hp])
    rw [hstep, hl, to_i32_of_lt rxlen hcap, hp, ← hframe,
      Nat.mod_eq_of_lt (show n + 1 < 2 ^ 32 by omega)]
    by_cases hov : rxlen < s.rxptr + PACKET_1K_SIZE
    · rw [if_pos hov, if_pos (by
        show ((s.rxptr : Int) + ((1024 : Nat) : Int) > (rxlen : Int))
        have : rxlen < s.rxptr + 1024 := hov
        omega)]
    · rw [if_neg hov, if_neg (by
        show ¬ ((s.rxptr : Int) + ((1024 : Nat) : Int) > (rxlen : Int))
        have : ¬ (rxlen < s.rxptr + 1024) := hov
        omega)]

/-- C20, at `n = 256`: the block with the number 256 is sent as an `STX` packet with the
sequence byte 0, and a receiver with `packets_rxed = 256`, the cursor at 261120 and the
capacity 262144 stores it, emits `ACK` and goes on with `packets_rxed = 257`. -/
theorem fymodem_sequence_wrap_witness :
    (ym_send_packet (List.replicate 1024 7) ((256 : Nat) : Int)).take 3 = [STX, 0, 255] ∧
    fymodem_receive_packet 64 262144
        { input := wire (ym_send_packet (List.replicate 1024 7) ((256 : Nat) : Int)) ++ []
          output := [], rx_packet_data := [], rxdata := List.replicate 261120 0
          rxptr := 261120, filename := [97, 0], filesize_asc := [], filesize := 262144
          nbr_errors := 0, crc_nak := false, packets_rxed := 256 } =
      some (.next
        { input := []
          output := [] ++ [ACK]
          rx_packet_data := mem_write (ym_send_packet (List.replicate 1024 7)
            ((256 : Nat) : Int)) []
          rxdata := mem_write_at 261120 (mem_read (List.replicate 1024 7) PACKET_1K_SIZE)
            (List.replicate 261120 0)
          rxptr := 261120 + PACKET_1K_SIZE, filename := [97, 0], filesize_asc := []
          filesize := 262144, nbr_errors := 0, crc_nak := false, packets_rxed := 256 + 1 }) := by
  have h := fymodem_sequence_wrap 64 262144 256 (List.replicate 1024 7)
    { input := wire (ym_send_packet (List.replicate 1024 7) ((256 : Nat) : Int)) ++ []
      output := [], rx_packet_data := [], rxdata := List.replicate 261120 0
      rxptr := 261120, filename := [97, 0], filesize_asc := [], filesize := 262144
      nbr_errors := 0, crc_nak := false, packets_rxed := 256 } []
    (by decide) (by norm_num) (fun b hb => by rw [List.eq_of_mem_replicate hb]; decide)
    rfl rfl (by norm_num)
  refine ⟨h.2.1, ?_⟩
  rw [h.2.2.2.2, if_neg (by decide)]

/-- C20 fails when the packet does not fit: after the block 0 of "a" with the size 33000
and 255 valid data packets of 128 bytes, the receiver, with the capacity 33000, has
`packets_rxed = 256` and the cursor at 32640; the round that reads the `STX` packet with
the block number 256 that `ym_send_packet` emits does not store the packet and does not
emit `ACK`: it emits `CAN CAN` and returns 0, `packets_rxed` still 256. -/
theorem fymodem_sequence_wrap_no_room :
    ((fymodem_receive_after 64 33000 256
        (fymodem_receive_file_begin true (fymodem_receive_init []
          (wire (frames 0 (ym_send_packet0_block (some [97]) (to_i32 33000) ::
              List.replicate 255 (List.replicate 128 7))) ++
            (wire (ym_send_packet (List.replicate 1024 8) ((256 : Nat) : Int)) ++ []))))).bind
        (fun s => fymodem_receive_packet 64 33000 s)).bind
      (fun r => match r with
        | .ret t v => some (v, t.packets_rxed, t.rxptr, t.output)
        | _ => none) =
      some (0, 256, 32640, [ACK, CRC] ++ List.replicate 255 ACK ++ [CAN, CAN]) := by
  decide!

end Fymodem
